import Mathlib

/-!
# Aveiro Handicraft SARL: shared state and agent operations

A shallow embedding of the semaphore / shared-memory simulation
(`probConst.h`, `probDataStruct.h`, `sharedDataSync.h`, `semSharedMemEntrp.c`,
`semSharedMemCust.c`, `semSharedMemCraft.c`, `probSemSharedMemAvHandicraft.c`).

* The shared region `SHARED_DATA` is a value that every operation transforms.
* `unsigned int` fields are naturals; every `++`, `--`, `+=`, `-=` is taken modulo `2^32`.
* Each operation returns a `Run`: the shared region it leaves, the semaphore operations it
  performed in program order, and how it ended (returned a value, called `exit (EXIT_FAILURE)`,
  parked on a semaphore outside the critical region, or still looping when the fuel ran out).
* `semUp` / `semDown` (library `semaphore.h`) are taken to succeed; `saveState` (logging) has no
  effect on the shared region and is left out.
-/

namespace Handicraft

/-! ## probConst.h -/

/-- Number of customers. -/
def N : Nat := 3
/-- Number of craftsmen. -/
def M : Nat := 3
/-- Storeroom nominal capacity (in number of products). -/
def MAX : Nat := 4
/-- Minimum acceptable level of prime materials in storage. -/
def PMIN : Nat := 2
/-- Amount of prime materials required to produce a piece. -/
def PP : Nat := 1
/-- Number of times prime materials are supplied. -/
def NP : Nat := 4

def OPENING_THE_SHOP : Nat := 0
def WAITING_FOR_NEXT_TASK : Nat := 1
def ATTENDING_A_CUSTOMER : Nat := 2
def CLOSING_THE_SHOP : Nat := 3
def COLLECTING_A_BATCH_OF_PRODUCTS : Nat := 4
def DELIVERING_PRIME_MATERIALS : Nat := 5

def CARRYING_OUT_DAILY_CHORES : Nat := 0
def CHECKING_SHOP_DOOR_OPEN : Nat := 1
def APPRAISING_OFFER_IN_DISPLAY : Nat := 2
def BUYING_SOME_GOODS : Nat := 3

def FETCHING_PRIME_MATERIALS : Nat := 0
def PRODUCING_A_NEW_PIECE : Nat := 1
def STORING_IT_FOR_TRANSFER : Nat := 2
def CONTACTING_THE_ENTREPRENEUR : Nat := 3

/-! ## Machine arithmetic on `unsigned int` -/

/-- Modulus of `unsigned int` arithmetic (32 bits). -/
def UINT_MOD : Nat := 4294967296

/-- Unsigned addition. -/
def uadd (a b : Nat) : Nat := (a + b) % UINT_MOD

/-- Unsigned subtraction: the difference of the two words, with a borrow of `2^32` when the
second exceeds the first. -/
def usub (a b : Nat) : Nat :=
  if b % UINT_MOD ≤ a % UINT_MOD then a % UINT_MOD - b % UINT_MOD
  else a % UINT_MOD + UINT_MOD - b % UINT_MOD

/-- Unsigned multiplication. -/
def umul (a b : Nat) : Nat := (a * b) % UINT_MOD

/-! ## probDataStruct.h -/

/-- State of a customer. -/
structure STAT_CUST where
  stat : Nat
  boughtPieces : Nat
  readyToWork : Bool
deriving DecidableEq, Repr

/-- State of a craftsman. -/
structure STAT_CRAFT where
  stat : Nat
  prodPieces : Nat
  readyToWork : Bool
deriving DecidableEq, Repr

/-- State of the intervening entities; the two arrays hold `N` and `M` entries. -/
structure STAT where
  entrepStat : Nat
  custStat : List STAT_CUST
  craftStat : List STAT_CRAFT
deriving DecidableEq, Repr

/-- Marker of an empty queue position, `(unsigned int) -1`. -/
def EMPTYPOS : Nat := UINT_MOD - 1

/-- Waiting queue: storage region of `N` cells, insertion and retrieval pointers, full flag. -/
structure QUEUE where
  mem : List Nat
  ii : Nat
  ri : Nat
  full : Bool
deriving DecidableEq, Repr

def SOPEN : Nat := 0
def SDCLOSED : Nat := 1
def SCLOSED : Nat := 2

/-- State of the shop. -/
structure SHOPINFO where
  stat : Nat
  nCustIn : Nat
  nProdIn : Nat
  prodTransfer : Bool
  primeMatReq : Bool
  queue : QUEUE
deriving DecidableEq, Repr

/-- State of the workshop. -/
structure WORKSHOPINFO where
  nPMatIn : Nat
  nProdIn : Nat
  NSPMat : Nat
  NTPMat : Nat
  NTProd : Nat
deriving DecidableEq, Repr

/-- Full state of the problem; `primeMaterials` holds `NP` entries. -/
structure FULL_STAT where
  st : STAT
  shop : SHOPINFO
  workShop : WORKSHOPINFO
  primeMaterials : List Nat
deriving DecidableEq, Repr

/-! ## sharedDataSync.h -/

/-- The semaphores of the set: the fields `access`, `proceed`, `waitForService[i]` and
`waitForMaterials` of `SHARED_DATA` hold their (constant) identifiers. -/
inductive Sem where
  | access
  | proceed
  | waitForService (i : Nat)
  | waitForMaterials
deriving DecidableEq, Repr

/-- Shared information: the full state and the count of craftsmen blocked for materials. -/
structure SHARED_DATA where
  fSt : FULL_STAT
  nCraftsmenBlk : Nat
deriving DecidableEq, Repr

/-- One semaphore operation. -/
inductive SemOp where
  | up (s : Sem)
  | down (s : Sem)
deriving DecidableEq, Repr

/-- How the execution of an operation ended. -/
inductive Outcome (α : Type) where
  | ret (a : α)
  | fatal
  | blocked
  | running
deriving DecidableEq, Repr

/-- Result of executing an operation on the shared region. -/
structure Run (α : Type) where
  sh : SHARED_DATA
  tr : List SemOp
  out : Outcome α
deriving DecidableEq, Repr

/-! ## Arrays -/

/-- Assignment to (a field of) cell `i` of an array. -/
def updAt {α : Type} : List α → Nat → (α → α) → List α
  | [], _, _ => []
  | x :: xs, 0, f => f x :: xs
  | x :: xs, i + 1, f => x :: updAt xs i f

/-- Assignment to (a field of) `custStat[i]`. -/
def updCust (sh : SHARED_DATA) (i : Nat) (f : STAT_CUST → STAT_CUST) : SHARED_DATA :=
  { sh with fSt.st.custStat := updAt sh.fSt.st.custStat i f }

/-- Assignment to (a field of) `craftStat[i]`. -/
def updCraft (sh : SHARED_DATA) (i : Nat) (f : STAT_CRAFT → STAT_CRAFT) : SHARED_DATA :=
  { sh with fSt.st.craftStat := updAt sh.fSt.st.craftStat i f }

/-- Value of `custStat[i].readyToWork`. -/
def custReady (sh : SHARED_DATA) (i : Nat) : Bool :=
  match sh.fSt.st.custStat[i]? with
  | some c => c.readyToWork
  | none => false

/-- Value of `craftStat[i].readyToWork`. -/
def craftReady (sh : SHARED_DATA) (i : Nat) : Bool :=
  match sh.fSt.st.craftStat[i]? with
  | some c => c.readyToWork
  | none => false

/-- Value read by `primeMaterials[i]`: the array entry, or, past the end of the array, the word
`oob` that lies there in memory (with the declared layout of `SHARED_DATA` the word that follows
`primeMaterials[NP-1]` is the field `access`). -/
def primeMaterialsAt (sh : SHARED_DATA) (oob : Nat) (i : Nat) : Nat :=
  match sh.fSt.primeMaterials[i]? with
  | some v => v
  | none => oob

/-! ## queue.h -/

/-- Modelled from the spec: `queue.h` / `queue.c` are not among the sources; the service queue is
a bounded FIFO of customer identifiers of capacity `N`, here the circular buffer over the fields
of `QUEUE`. Initialisation: every cell empty, both pointers at zero. -/
def queueInit : QUEUE :=
  { mem := List.replicate N EMPTYPOS, ii := 0, ri := 0, full := false }

/-- Modelled from the spec: the queue (of `queue.h`, absent) holds no identifier. -/
def queueEmpty (q : QUEUE) : Bool := !q.full && (q.ii == q.ri)

/-- Modelled from the spec: insertion at the tail of the FIFO (of `queue.h`, absent); a full
queue is left as it is. -/
def queueIn (q : QUEUE) (id : Nat) : QUEUE :=
  if q.full then q
  else
    { mem := q.mem.set q.ii id, ii := (q.ii + 1) % N, ri := q.ri,
      full := ((q.ii + 1) % N == q.ri) }

/-- Modelled from the spec: retrieval of the head of the FIFO (of `queue.h`, absent); the
identifier comes with the new queue, and an empty queue yields `EMPTYPOS`. -/
def queueOut (q : QUEUE) : QUEUE × Nat :=
  if queueEmpty q then (q, EMPTYPOS)
  else
    ({ mem := q.mem.set q.ri EMPTYPOS, ii := q.ii, ri := (q.ri + 1) % N, full := false },
     q.mem.getD q.ri EMPTYPOS)

/-! ## semSharedMemEntrp.c -/

/-- Assignment to a local variable: the old value is dropped. -/
def assign {α : Type} (_old new : α) : α := new

/-- Prepare to work: the entrepreneur opens the shop. -/
def prepareToWork (sh : SHARED_DATA) : Run Unit :=
  let sh1 := { sh with fSt.st.entrepStat := WAITING_FOR_NEXT_TASK }
  let sh2 := { sh1 with fSt.shop.stat := SOPEN }
  { sh := sh2, tr := [.down .access, .up .access], out := .ret () }

/-- Appraise situation (semaphore version): the two critical regions are empty and the function
ends with `return 'E'`. -/
def appraiseSit (sh : SHARED_DATA) : Run Char :=
  { sh := sh, tr := [.down .access, .up .access, .down .access, .up .access], out := .ret 'E' }

/-- Address a customer: the head of the queue is taken out; an empty queue or an identifier
`>= N` ends the process inside the critical region. -/
def addressACustomer (sh : SHARED_DATA) : Run Nat :=
  let sh1 := { sh with fSt.st.entrepStat := ATTENDING_A_CUSTOMER }
  if queueEmpty sh1.fSt.shop.queue then
    { sh := sh1, tr := [.down .access], out := .fatal }
  else
    let r := queueOut sh1.fSt.shop.queue
    let sh2 := { sh1 with fSt.shop.queue := r.1 }
    let customerIdx := r.2
    if customerIdx ≥ N then
      { sh := sh2, tr := [.down .access], out := .fatal }
    else
      { sh := sh2, tr := [.down .access, .up .access], out := .ret customerIdx }

/-- Say goodbye to customer: the serviced customer is woken up. -/
def sayGoodByeToCustomer (custId : Nat) (sh : SHARED_DATA) : Run Unit :=
  let sh1 := { sh with fSt.st.entrepStat := WAITING_FOR_NEXT_TASK }
  { sh := sh1, tr := [.down .access, .up (.waitForService custId), .up .access], out := .ret () }

/-- Customers in the shop. -/
def customersInTheShop (sh : SHARED_DATA) : Run Bool :=
  let customersInside := decide (sh.fSt.shop.nCustIn ≠ 0)
  { sh := sh, tr := [.down .access, .up .access], out := .ret customersInside }

/-- Close the door. -/
def closeTheDoor (sh : SHARED_DATA) : Run Unit :=
  let sh1 := { sh with fSt.shop.stat := SDCLOSED }
  { sh := sh1, tr := [.down .access, .up .access], out := .ret () }

/-- Prepare to leave: the shop is closed (the entrepreneur state is not written). -/
def prepareToLeave (sh : SHARED_DATA) : Run Unit :=
  let sh1 := { sh with fSt.shop.stat := SCLOSED }
  { sh := sh1, tr := [.down .access, .up .access], out := .ret () }

/-- Go to the workshop: the storeroom is emptied into the shop. -/
def goToWorkShop (sh : SHARED_DATA) : Run Unit :=
  let sh1 := { sh with fSt.st.entrepStat := COLLECTING_A_BATCH_OF_PRODUCTS }
  let sh2 := { sh1 with fSt.shop.nProdIn := uadd sh1.fSt.shop.nProdIn sh1.fSt.workShop.nProdIn }
  let sh3 := { sh2 with fSt.workShop.nProdIn := 0 }
  let sh4 := { sh3 with fSt.shop.prodTransfer := false }
  { sh := sh4, tr := [.down .access, .up .access], out := .ret () }

/-- The loop `while (sh->nCraftsmenBlk > 0) { semUp (waitForMaterials); craftmenCounter++; }` of
`visitSuppliers` followed by the rest of the function; `fuel` bounds the number of iterations,
`tr` is the trace so far. The local `craftmenCounter` is never read and is left out. -/
def visitSuppliersLoop : Nat → SHARED_DATA → List SemOp → Run Unit
  | fuel, sh, tr =>
    if sh.nCraftsmenBlk > 0 then
      match fuel with
      | 0 => { sh := sh, tr := tr, out := .running }
      | fuel + 1 => visitSuppliersLoop fuel sh (tr ++ [.up .waitForMaterials])
    else
      { sh := { sh with nCraftsmenBlk := 0 }, tr := tr ++ [.up .access], out := .ret () }

/-- The part of `visitSuppliers` before the wake-up loop: state change, request flag, and the
delivery guarded by `NSPMat <= NP`. -/
def visitSuppliersDeliver (oob : Nat) (sh : SHARED_DATA) : SHARED_DATA :=
  let sh1 := { sh with fSt.st.entrepStat := DELIVERING_PRIME_MATERIALS }
  let sh2 := { sh1 with fSt.shop.primeMatReq := false }
  if sh2.fSt.workShop.NSPMat ≤ NP then
    let d1 := primeMaterialsAt sh2 oob sh2.fSt.workShop.NSPMat
    let sh3 := { sh2 with fSt.workShop.nPMatIn := uadd sh2.fSt.workShop.nPMatIn d1 }
    let d2 := primeMaterialsAt sh3 oob sh3.fSt.workShop.NSPMat
    let sh4 := { sh3 with fSt.workShop.NTPMat := uadd sh3.fSt.workShop.NTPMat d2 }
    { sh4 with fSt.workShop.NSPMat := uadd sh4.fSt.workShop.NSPMat 1 }
  else sh2

/-- Visit suppliers: delivery, then the wake-up loop. -/
def visitSuppliers (fuel : Nat) (oob : Nat) (sh : SHARED_DATA) : Run Unit :=
  visitSuppliersLoop fuel (visitSuppliersDeliver oob sh) [.down .access]

/-- Return to shop. -/
def returnToShop (sh : SHARED_DATA) : Run Unit :=
  let sh1 := { sh with fSt.st.entrepStat := OPENING_THE_SHOP }
  { sh := sh1, tr := [.down .access, .up .access], out := .ret () }

/-- The value computed into `stat` inside the critical region of `endOperEntrep`. -/
def endOperEntrepStat (sh : SHARED_DATA) : Bool :=
  decide (sh.fSt.shop.nCustIn = 0) &&
  decide (sh.fSt.shop.nProdIn = 0) &&
  !sh.fSt.shop.primeMatReq &&
  !sh.fSt.shop.prodTransfer &&
  decide (sh.fSt.workShop.nProdIn = 0) &&
  decide (sh.fSt.workShop.nPMatIn = 0) &&
  decide (sh.fSt.workShop.NSPMat = NP) &&
  decide (sh.fSt.workShop.NTPMat = umul PP sh.fSt.workShop.NTProd)

/-- End of operations for the entrepreneur: the computed status is overwritten by
`stat = true;` just before the return. -/
def endOperEntrep (sh : SHARED_DATA) : Run Bool :=
  let stat := endOperEntrepStat sh
  let stat := assign stat true
  { sh := sh, tr := [.down .access, .up .access], out := .ret stat }

/-! ## semSharedMemCust.c -/

/-- Largest value returned by `random ()` (C library constant, not part of the sources). -/
def RAND_MAX : Nat := 2147483647

/-- Pick up: `val` is the value drawn by `random ()`; the two thresholds are
`floor (0.3 * RAND_MAX)` and `floor (0.7 * RAND_MAX)`. -/
def pickUp (val : Nat) (sh : SHARED_DATA) : Nat :=
  if val < 3 * RAND_MAX / 10 ∨ sh.fSt.shop.nProdIn = 0 then 0
  else if val < 7 * RAND_MAX / 10 ∨ sh.fSt.shop.nProdIn = 1 then 1
  else 2

/-- Go shopping. -/
def goShopping (custId : Nat) (sh : SHARED_DATA) : Run Unit :=
  let sh1 := updCust sh custId (fun c => { c with stat := CHECKING_SHOP_DOOR_OPEN })
  { sh := sh1, tr := [.down .access, .up .access], out := .ret () }

/-- Is door open: the critical region is entered and not left. -/
def isDoorOpen (_custId : Nat) (sh : SHARED_DATA) : Run Bool :=
  { sh := sh, tr := [.down .access], out := .ret (decide (sh.fSt.shop.stat = SOPEN)) }

/-- Try again later: the critical region entered by `isDoorOpen` is left. -/
def tryAgainLater (custId : Nat) (sh : SHARED_DATA) : Run Unit :=
  let sh1 := updCust sh custId (fun c => { c with stat := CARRYING_OUT_DAILY_CHORES })
  { sh := sh1, tr := [.up .access], out := .ret () }

/-- Enter the shop: the critical region entered by `isDoorOpen` is left. -/
def enterShop (custId : Nat) (sh : SHARED_DATA) : Run Unit :=
  let sh1 := updCust sh custId (fun c => { c with stat := APPRAISING_OFFER_IN_DISPLAY })
  let sh2 := { sh1 with fSt.shop.nCustIn := uadd sh1.fSt.shop.nCustIn 1 }
  { sh := sh2, tr := [.up .access], out := .ret () }

/-- Perusing around: `val` is the value `random ()` yields if `pickUp` is called. -/
def perusingAround (_custId : Nat) (val : Nat) (sh : SHARED_DATA) : Run Nat :=
  let nProd := if sh.fSt.shop.nProdIn > 0 then pickUp val sh else 0
  let sh1 := if nProd ≠ 0 then { sh with fSt.shop.nProdIn := usub sh.fSt.shop.nProdIn nProd }
             else sh
  { sh := sh1, tr := [.down .access, .up .access], out := .ret nProd }

/-- I want this: the customer queues by the counter, then waits for service outside the critical
region. -/
def iWantThis (custId : Nat) (nGoods : Nat) (sh : SHARED_DATA) : Run Unit :=
  let sh1 := updCust sh custId (fun c => { c with stat := BUYING_SOME_GOODS })
  let sh2 := updCust sh1 custId (fun c => { c with boughtPieces := uadd c.boughtPieces nGoods })
  let sh3 := { sh2 with fSt.shop.queue := queueIn sh2.fSt.shop.queue custId }
  { sh := sh3,
    tr := [.down .access, .up .proceed, .up .access, .down (.waitForService custId)],
    out := .ret () }

/-- Exit the shop. -/
def exitShop (custId : Nat) (sh : SHARED_DATA) : Run Unit :=
  let sh1 := updCust sh custId (fun c => { c with stat := CARRYING_OUT_DAILY_CHORES })
  let sh2 := { sh1 with fSt.shop.nCustIn := usub sh1.fSt.shop.nCustIn 1 }
  { sh := sh2, tr := [.down .access, .up .proceed, .up .access], out := .ret () }

/-- The loop `for (i = 0; i < N; i++) if (custStat[i].readyToWork) nOpCust += 1;`. -/
def nOpCust (sh : SHARED_DATA) : Nat :=
  (List.range N).foldl (fun n i => if custReady sh i then uadd n 1 else n) 0

/-- End of operations for the customer. -/
def endOperCustomer (custId : Nat) (sh : SHARED_DATA) : Run Bool :=
  let stat := decide (sh.fSt.workShop.nPMatIn = 0) && decide (sh.fSt.workShop.NSPMat = NP)
  if stat then
    let nOp := nOpCust sh
    let stat :=
      (decide (uadd sh.fSt.shop.nProdIn sh.fSt.workShop.nProdIn < umul 2 nOp) &&
        decide (nOp ≠ 1)) ||
      decide (usub
        (uadd (uadd sh.fSt.shop.nProdIn sh.fSt.workShop.nProdIn) sh.fSt.workShop.NTPMat)
        (umul PP sh.fSt.workShop.NTProd) = 0)
    let sh1 := if stat then updCust sh custId (fun c => { c with readyToWork := false }) else sh
    { sh := sh1, tr := [.down .access, .up .access], out := .ret stat }
  else
    { sh := sh, tr := [.down .access, .up .access], out := .ret stat }

/-! ## semSharedMemCraft.c -/

/-- Collect materials, one passage through the critical region: either the craftsman finds no
prime materials, counts himself as blocked, leaves the region and parks on `waitForMaterials`
(when woken he enters the region and runs this passage again), or he takes his materials and
returns the alert flag. -/
def collectMaterials (_craftId : Nat) (sh : SHARED_DATA) : Run Bool :=
  if sh.fSt.workShop.nPMatIn = 0 then
    { sh := { sh with nCraftsmenBlk := uadd sh.nCraftsmenBlk 1 },
      tr := [.down .access, .up .access, .down .waitForMaterials], out := .blocked }
  else
    let sh1 := { sh with fSt.workShop.nPMatIn := usub sh.fSt.workShop.nPMatIn 1 }
    let materialsRequired :=
      decide (sh1.fSt.workShop.NSPMat ≤ NP) && decide (sh1.fSt.workShop.nPMatIn ≤ PMIN)
    { sh := sh1, tr := [.down .access, .up .access], out := .ret materialsRequired }

/-- Prime materials needed. -/
def primeMaterialsNeeded (craftId : Nat) (sh : SHARED_DATA) : Run Unit :=
  let sh1 := updCraft sh craftId (fun c => { c with stat := CONTACTING_THE_ENTREPRENEUR })
  let sh2 := { sh1 with fSt.shop.primeMatReq := true }
  { sh := sh2, tr := [.down .access, .up .proceed, .up .access], out := .ret () }

/-- Back to work. -/
def backToWork (craftId : Nat) (sh : SHARED_DATA) : Run Unit :=
  let sh1 := updCraft sh craftId (fun c => { c with stat := FETCHING_PRIME_MATERIALS })
  { sh := sh1, tr := [.down .access, .up .access], out := .ret () }

/-- Prepare to produce. -/
def prepareToProduce (craftId : Nat) (sh : SHARED_DATA) : Run Unit :=
  let sh1 := updCraft sh craftId (fun c => { c with stat := PRODUCING_A_NEW_PIECE })
  { sh := sh1, tr := [.down .access, .up .access], out := .ret () }

/-- Go to store. -/
def goToStore (craftId : Nat) (sh : SHARED_DATA) : Run Nat :=
  let sh1 := updCraft sh craftId (fun c => { c with stat := STORING_IT_FOR_TRANSFER })
  let sh2 := updCraft sh1 craftId (fun c => { c with prodPieces := uadd c.prodPieces 1 })
  let sh3 := { sh2 with fSt.workShop.nProdIn := uadd sh2.fSt.workShop.nProdIn 1 }
  let sh4 := { sh3 with fSt.workShop.NTProd := uadd sh3.fSt.workShop.NTProd 1 }
  let nProdIn := sh4.fSt.workShop.nProdIn
  { sh := sh4, tr := [.down .access, .up .access], out := .ret nProdIn }

/-- Batch ready for transfer. -/
def batchReadyForTransfer (craftId : Nat) (sh : SHARED_DATA) : Run Unit :=
  let sh1 := updCraft sh craftId (fun c => { c with stat := CONTACTING_THE_ENTREPRENEUR })
  let sh2 := { sh1 with fSt.shop.prodTransfer := true }
  { sh := sh2, tr := [.down .access, .up .proceed, .up .access], out := .ret () }

/-- The loop `for (i = 0; i < M; i++) if (craftStat[i].readyToWork) nOpCraft += 1;`. -/
def nOpCraft (sh : SHARED_DATA) : Nat :=
  (List.range M).foldl (fun n i => if craftReady sh i then uadd n 1 else n) 0

/-- End of operations for the craftsman: the status computed in the critical region is
overwritten by `stat = true;` just before the return. -/
def endOperCraftsman (craftId : Nat) (sh : SHARED_DATA) : Run Bool :=
  let stat := decide (sh.fSt.workShop.NSPMat = NP)
  if stat then
    let nOp := nOpCraft sh
    let stat := decide (sh.fSt.workShop.nPMatIn < umul nOp PP)
    let sh1 := if stat then updCraft sh craftId (fun c => { c with readyToWork := false }) else sh
    if stat && decide (nOp = 1) then
      let sh2 := { sh1 with fSt.shop.prodTransfer := true }
      { sh := sh2, tr := [.down .access, .up .proceed, .up .access],
        out := .ret (assign stat true) }
    else
      { sh := sh1, tr := [.down .access, .up .access], out := .ret (assign stat true) }
  else
    { sh := sh, tr := [.down .access, .up .access], out := .ret (assign stat true) }

/-! ## probSemSharedMemAvHandicraft.c -/

/-- The shared region as `main` initialises it, for the supply schedule `pm` (the amounts are
drawn at random by `main`). -/
def initialState (pm : List Nat) : SHARED_DATA :=
  { fSt :=
      { st :=
          { entrepStat := OPENING_THE_SHOP,
            custStat := List.replicate N
              { stat := CARRYING_OUT_DAILY_CHORES, boughtPieces := 0, readyToWork := true },
            craftStat := List.replicate M
              { stat := FETCHING_PRIME_MATERIALS, prodPieces := 0, readyToWork := true } },
        shop :=
          { stat := SCLOSED, nCustIn := 0, nProdIn := 0, prodTransfer := false,
            primeMatReq := false, queue := queueInit },
        workShop :=
          { nPMatIn := pm.getD 0 0, nProdIn := 0, NSPMat := 1, NTPMat := pm.getD 0 0,
            NTProd := 0 },
        primeMaterials := pm },
    nCraftsmenBlk := 0 }

/-! ## Operations as actions on the shared region -/

/-- Operations of the entrepreneur; `visitSuppliers` carries the fuel of its wake-up loop and
the word found past the end of `primeMaterials`. -/
inductive EntrepOp where
  | prepareToWork
  | appraiseSit
  | addressACustomer
  | sayGoodByeToCustomer (custId : Nat)
  | customersInTheShop
  | closeTheDoor
  | prepareToLeave
  | goToWorkShop
  | visitSuppliers (fuel oob : Nat)
  | returnToShop
  | endOperEntrep
deriving DecidableEq, Repr

/-- Operations of a customer; `perusingAround` carries the value drawn by `random ()`. -/
inductive CustOp where
  | goShopping
  | isDoorOpen
  | tryAgainLater
  | enterShop
  | perusingAround (val : Nat)
  | iWantThis (nGoods : Nat)
  | exitShop
  | endOperCustomer
deriving DecidableEq, Repr

/-- Operations of a craftsman. -/
inductive CraftOp where
  | collectMaterials
  | primeMaterialsNeeded
  | backToWork
  | prepareToProduce
  | goToStore
  | batchReadyForTransfer
  | endOperCraftsman
deriving DecidableEq, Repr

/-- An operation of one of the agents. -/
inductive Action where
  | entrep (op : EntrepOp)
  | cust (custId : Nat) (op : CustOp)
  | craft (craftId : Nat) (op : CraftOp)
deriving DecidableEq, Repr

/-- Shared region left by an operation of the entrepreneur. -/
def execEntrep : EntrepOp → SHARED_DATA → SHARED_DATA
  | .prepareToWork, sh => (prepareToWork sh).sh
  | .appraiseSit, sh => (appraiseSit sh).sh
  | .addressACustomer, sh => (addressACustomer sh).sh
  | .sayGoodByeToCustomer c, sh => (sayGoodByeToCustomer c sh).sh
  | .customersInTheShop, sh => (customersInTheShop sh).sh
  | .closeTheDoor, sh => (closeTheDoor sh).sh
  | .prepareToLeave, sh => (prepareToLeave sh).sh
  | .goToWorkShop, sh => (goToWorkShop sh).sh
  | .visitSuppliers fuel oob, sh => (visitSuppliers fuel oob sh).sh
  | .returnToShop, sh => (returnToShop sh).sh
  | .endOperEntrep, sh => (endOperEntrep sh).sh

/-- Shared region left by an operation of customer `custId`. -/
def execCust (custId : Nat) : CustOp → SHARED_DATA → SHARED_DATA
  | .goShopping, sh => (goShopping custId sh).sh
  | .isDoorOpen, sh => (isDoorOpen custId sh).sh
  | .tryAgainLater, sh => (tryAgainLater custId sh).sh
  | .enterShop, sh => (enterShop custId sh).sh
  | .perusingAround val, sh => (perusingAround custId val sh).sh
  | .iWantThis nGoods, sh => (iWantThis custId nGoods sh).sh
  | .exitShop, sh => (exitShop custId sh).sh
  | .endOperCustomer, sh => (endOperCustomer custId sh).sh

/-- Shared region left by an operation of craftsman `craftId`. -/
def execCraft (craftId : Nat) : CraftOp → SHARED_DATA → SHARED_DATA
  | .collectMaterials, sh => (collectMaterials craftId sh).sh
  | .primeMaterialsNeeded, sh => (primeMaterialsNeeded craftId sh).sh
  | .backToWork, sh => (backToWork craftId sh).sh
  | .prepareToProduce, sh => (prepareToProduce craftId sh).sh
  | .goToStore, sh => (goToStore craftId sh).sh
  | .batchReadyForTransfer, sh => (batchReadyForTransfer craftId sh).sh
  | .endOperCraftsman, sh => (endOperCraftsman craftId sh).sh

/-- Shared region left by an operation, however it ended. -/
def exec : Action → SHARED_DATA → SHARED_DATA
  | .entrep op, sh => execEntrep op sh
  | .cust c op, sh => execCust c op sh
  | .craft m op, sh => execCraft m op sh

/-- Number of `up` operations on semaphore `s` in a trace. -/
def ups (s : Sem) (tr : List SemOp) : Nat := tr.count (.up s)

/-- Number of `down` operations on semaphore `s` in a trace. -/
def downs (s : Sem) (tr : List SemOp) : Nat := tr.count (.down s)

/-! ## Sample states -/

/-- Initial state for the supply schedule 5, 5, 5, 6. -/
def exInitial : SHARED_DATA := initialState [5, 5, 5, 6]

/-- The first delivery has been used up: five pieces produced, four of them on display. -/
def exDrained : SHARED_DATA :=
  { exInitial with
    fSt.workShop := { nPMatIn := 0, nProdIn := 1, NSPMat := 1, NTPMat := 5, NTProd := 5 },
    fSt.shop.nProdIn := 4 }

/-- From `exDrained`: the shop has been opened, customer 0 has picked one product and queued by
the counter. -/
def exQueued : SHARED_DATA :=
  (iWantThis 0 1 (perusingAround 0 1000000000 (prepareToWork exDrained).sh).sh).sh

/-- Craftsman 0 found no prime materials and is parked; craftsman 1 has phoned for more. -/
def exBlocked : SHARED_DATA := (primeMaterialsNeeded 1 (collectMaterials 0 exDrained).sh).sh

/-- All four deliveries have been made and a craftsman has phoned for more prime materials. -/
def exLastDelivered : SHARED_DATA :=
  { exInitial with
    fSt.st.custStat :=
      [{ stat := CARRYING_OUT_DAILY_CHORES, boughtPieces := 6, readyToWork := true },
       { stat := CARRYING_OUT_DAILY_CHORES, boughtPieces := 5, readyToWork := true },
       { stat := CARRYING_OUT_DAILY_CHORES, boughtPieces := 5, readyToWork := true }],
    fSt.workShop := { nPMatIn := 2, nProdIn := 0, NSPMat := 4, NTPMat := 21, NTProd := 19 },
    fSt.shop.nProdIn := 3,
    fSt.shop.primeMatReq := true }

/-- Schedule exhausted, no prime materials left, two products in the storeroom, and craftsman 2
the only one still operative. -/
def exLastCraftsman : SHARED_DATA :=
  { exInitial with
    fSt.st.custStat :=
      [{ stat := CARRYING_OUT_DAILY_CHORES, boughtPieces := 6, readyToWork := true },
       { stat := CARRYING_OUT_DAILY_CHORES, boughtPieces := 5, readyToWork := true },
       { stat := CARRYING_OUT_DAILY_CHORES, boughtPieces := 5, readyToWork := true }],
    fSt.st.craftStat :=
      [{ stat := FETCHING_PRIME_MATERIALS, prodPieces := 8, readyToWork := false },
       { stat := FETCHING_PRIME_MATERIALS, prodPieces := 7, readyToWork := false },
       { stat := FETCHING_PRIME_MATERIALS, prodPieces := 6, readyToWork := true }],
    fSt.workShop := { nPMatIn := 0, nProdIn := 2, NSPMat := 4, NTPMat := 21, NTProd := 21 },
    fSt.shop.nProdIn := 3 }

/-- Schedule exhausted, every product made so far sold, one unit of prime materials still in the
workshop, all three customers operative. -/
def exOneUnitLeft : SHARED_DATA :=
  { exInitial with
    fSt.st.custStat :=
      [{ stat := CARRYING_OUT_DAILY_CHORES, boughtPieces := 7, readyToWork := true },
       { stat := CARRYING_OUT_DAILY_CHORES, boughtPieces := 7, readyToWork := true },
       { stat := CARRYING_OUT_DAILY_CHORES, boughtPieces := 6, readyToWork := true }],
    fSt.workShop := { nPMatIn := 1, nProdIn := 0, NSPMat := 4, NTPMat := 21, NTProd := 20 } }

/-- Customer 1 has retired (from `exLastCraftsman`, where five products remain for three
operative customers). -/
def exCustomerRetired : SHARED_DATA := (endOperCustomer 1 exLastCraftsman).sh

/-! ## Life cycle of the customers (`main` of semSharedMemCust.c) -/

/-- Position of a customer in its life cycle: the operation it executes next. -/
inductive CustPc where
  | endOperCustomer
  | goShopping
  | isDoorOpen
  | tryAgainLater
  | enterShop
  | perusingAround
  | iWantThis
  | exitShop
  | finished
deriving DecidableEq, Repr

/-- Local variables of a customer process: its position and `ng`, the number of selected
goods. -/
structure CustLocal where
  pc : CustPc
  ng : Nat
deriving DecidableEq, Repr

/-- Value returned by an execution, or `d` when it did not return. -/
def Run.valD {α : Type} (r : Run α) (d : α) : α :=
  match r.out with
  | .ret a => a
  | _ => d

/-- One operation of the life cycle of customer `n`: `while (!endOperCustomer (n))` ... door
loop ... `enterShop`, `ng = perusingAround (n)`, `if (ng != 0) iWantThis (n, ng)`, `exitShop`.
The value `val` is the one `random ()` draws if `pickUp` is reached. -/
def custStep (n : Nat) (val : Nat) (l : CustLocal) (sh : SHARED_DATA) : CustLocal × SHARED_DATA :=
  match l.pc with
  | .endOperCustomer =>
    let r := endOperCustomer n sh
    ({ l with pc := if r.valD false then .finished else .goShopping }, r.sh)
  | .goShopping => ({ l with pc := .isDoorOpen }, (goShopping n sh).sh)
  | .isDoorOpen =>
    let r := isDoorOpen n sh
    ({ l with pc := if r.valD false then .enterShop else .tryAgainLater }, r.sh)
  | .tryAgainLater => ({ l with pc := .goShopping }, (tryAgainLater n sh).sh)
  | .enterShop => ({ l with pc := .perusingAround }, (enterShop n sh).sh)
  | .perusingAround =>
    let r := perusingAround n val sh
    let ng := r.valD 0
    ({ pc := if ng ≠ 0 then .iWantThis else .exitShop, ng := ng }, r.sh)
  | .iWantThis => ({ l with pc := .exitShop }, (iWantThis n l.ng sh).sh)
  | .exitShop => ({ l with pc := .endOperCustomer }, (exitShop n sh).sh)
  | .finished => (l, sh)

/-- The shared region together with the local variables of the `N` customer processes. -/
structure System where
  sh : SHARED_DATA
  cust : List CustLocal
deriving DecidableEq, Repr

/-- An operation executed by one of the processes: customer `n` executes the next operation of
its life cycle; the entrepreneur and the craftsmen execute any of their operations. -/
inductive Event where
  | cust (n : Nat) (val : Nat)
  | entrep (op : EntrepOp)
  | craft (m : Nat) (op : CraftOp)
deriving DecidableEq, Repr

/-- Effect of one event. -/
def System.step (s : System) : Event → System
  | .cust n val =>
    match s.cust[n]? with
    | some l => { sh := (custStep n val l s.sh).2, cust := s.cust.set n (custStep n val l s.sh).1 }
    | none => s
  | .entrep op => { s with sh := execEntrep op s.sh }
  | .craft m op => { s with sh := execCraft m op s.sh }

/-- Effect of a sequence of events, the first one first. -/
def System.run (s : System) (es : List Event) : System := es.foldl System.step s

/-- The system as `main` of probSemSharedMemAvHandicraft.c starts it: every customer is about
to execute `endOperCustomer` for the first time. -/
def initialSystem (pm : List Nat) : System :=
  { sh := initialState pm, cust := List.replicate N { pc := .endOperCustomer, ng := 0 } }

/-- Is the event an execution of `goToStore`. -/
def Event.isStore : Event → Bool
  | .craft _ .goToStore => true
  | _ => false

/-- Number of executions of `goToStore` in a sequence of events. -/
def storeCount (es : List Event) : Nat := es.countP Event.isStore

/-- Sum over the customers of `boughtPieces`. -/
def sumBought (sh : SHARED_DATA) : Nat := (sh.fSt.st.custStat.map (fun c => c.boughtPieces)).sum

/-- Products on display, in the storeroom and bought. -/
def stock (sh : SHARED_DATA) : Nat :=
  sh.fSt.shop.nProdIn + sh.fSt.workShop.nProdIn + sumBought sh

/-- Products on display, in the storeroom and bought do not exceed the products made. -/
def productsBound (sh : SHARED_DATA) : Prop :=
  sh.fSt.shop.nProdIn + sh.fSt.workShop.nProdIn + sumBought sh ≤ sh.fSt.workShop.NTProd

instance (sh : SHARED_DATA) : Decidable (productsBound sh) := by
  unfold productsBound; exact inferInstance

/-- Goods a customer has picked up and not yet recorded as bought. -/
def CustLocal.pending (l : CustLocal) : Nat := if l.pc = .iWantThis then l.ng else 0

/-- Sum over the customers of the goods picked up and not yet recorded as bought. -/
def sumPending (cust : List CustLocal) : Nat := (cust.map CustLocal.pending).sum

/-- A run in which three pieces are produced and collected, customer 0 buys some of them (after
finding the door open) and customer 1 finds the shop without products. -/
def exEvents : List Event :=
  [.craft 0 .collectMaterials, .craft 0 .prepareToProduce, .craft 0 .goToStore,
   .craft 1 .goToStore, .craft 2 .goToStore, .entrep .goToWorkShop, .entrep .prepareToWork,
   .cust 0 0, .cust 0 0, .cust 0 0, .cust 0 0, .cust 0 2000000000, .cust 0 0,
   .cust 1 0, .cust 1 0, .cust 1 0, .cust 1 0, .cust 1 2000000000,
   .entrep .addressACustomer, .entrep (.sayGoodByeToCustomer 0), .cust 0 0]

/-! ## Life cycle of the craftsmen (`main` of semSharedMemCraft.c) -/

/-- Position of a craftsman in its life cycle: the operation it executes next
(`backToWorkAfterCall` is the `backToWork` that follows `primeMaterialsNeeded`). -/
inductive CraftPc where
  | endOperCraftsman
  | collectMaterials
  | primeMaterialsNeeded
  | backToWorkAfterCall
  | prepareToProduce
  | goToStore
  | batchReadyForTransfer
  | backToWork
  | finished
deriving DecidableEq, Repr

/-- Local variables of a craftsman process: its position, `alert` and `np`. -/
structure CraftLocal where
  pc : CraftPc
  alert : Bool
  np : Nat
deriving DecidableEq, Repr

/-- One operation of the life cycle of craftsman `m`: `while (!endOperCraftsman (m))`,
`alert = collectMaterials (m)`, `if (alert) { primeMaterialsNeeded (m); backToWork (m); }`,
`prepareToProduce (m)`, `np = goToStore (m)`, `if (np >= MAX) batchReadyForTransfer (m)`,
`backToWork (m)`. A craftsman parked in `collectMaterials` runs its passage again. -/
def craftStep (m : Nat) (l : CraftLocal) (sh : SHARED_DATA) : CraftLocal × SHARED_DATA :=
  match l.pc with
  | .endOperCraftsman =>
    let r := endOperCraftsman m sh
    ({ l with pc := if r.valD false then .finished else .collectMaterials }, r.sh)
  | .collectMaterials =>
    let r := collectMaterials m sh
    match r.out with
    | .ret alert =>
      ({ l with pc := if alert then .primeMaterialsNeeded else .prepareToProduce, alert := alert },
       r.sh)
    | _ => (l, r.sh)
  | .primeMaterialsNeeded => ({ l with pc := .backToWorkAfterCall }, (primeMaterialsNeeded m sh).sh)
  | .backToWorkAfterCall => ({ l with pc := .prepareToProduce }, (backToWork m sh).sh)
  | .prepareToProduce => ({ l with pc := .goToStore }, (prepareToProduce m sh).sh)
  | .goToStore =>
    let r := goToStore m sh
    let np := r.valD l.np
    ({ l with pc := if np ≥ MAX then .batchReadyForTransfer else .backToWork, np := np }, r.sh)
  | .batchReadyForTransfer => ({ l with pc := .backToWork }, (batchReadyForTransfer m sh).sh)
  | .backToWork => ({ l with pc := .endOperCraftsman }, (backToWork m sh).sh)
  | .finished => (l, sh)

/-- Three products in the storeroom, craftsman 0 producing the next one. -/
def exStoreroom3 : SHARED_DATA :=
  { exInitial with
    fSt.workShop := { nPMatIn := 1, nProdIn := 3, NSPMat := 1, NTPMat := 5, NTProd := 3 } }

/-- The storeroom at its nominal capacity, the entrepreneur alerted, craftsman 1 producing. -/
def exStoreroom4 : SHARED_DATA :=
  { exInitial with
    fSt.workShop := { nPMatIn := 0, nProdIn := 4, NSPMat := 1, NTPMat := 5, NTProd := 4 },
    fSt.shop.prodTransfer := true }

/-! ## Runs of operations -/

/-- Shared region left by a sequence of operations, the first one first. -/
def runActions (sh : SHARED_DATA) (as : List Action) : SHARED_DATA := as.foldl (fun s a => exec a s) sh

/-- Is the operation, executed on `sh`, a `collectMaterials` in which the craftsman takes his
prime materials (does not park). -/
def isTake (a : Action) (sh : SHARED_DATA) : Bool :=
  match a with
  | .craft _ .collectMaterials => decide (sh.fSt.workShop.nPMatIn ≠ 0)
  | _ => false

/-- Number of `collectMaterials` of a run, started on `sh`, in which a craftsman takes his prime
materials. -/
def takenCount : SHARED_DATA → List Action → Nat
  | _, [] => 0
  | sh, a :: as => (if isTake a sh then 1 else 0) + takenCount (exec a sh) as

/-- Is the operation a `goToStore`. -/
def Action.isStore : Action → Bool
  | .craft _ .goToStore => true
  | _ => false

/-- Number of `goToStore` in a sequence of operations. -/
def storedCount (as : List Action) : Nat := as.countP Action.isStore

/-- A run in which craftsmen 0 and 1 take their prime materials and craftsman 0 stores its
product. -/
def exActions : List Action :=
  [.craft 0 .collectMaterials, .craft 1 .collectMaterials, .craft 0 .prepareToProduce,
   .craft 0 .goToStore, .entrep (.visitSuppliers 0 0)]

/-- The run `exActions` continued until craftsman 1 has stored its product too. -/
def exActionsStored : List Action :=
  exActions ++ [.craft 1 .prepareToProduce, .craft 1 .goToStore]

/-- From `exDrained`: the entrepreneur has opened the shop. -/
def exOpened : SHARED_DATA := (prepareToWork exDrained).sh

/-! ## The service queue and the protocol at the counter -/

/-- Number of identifiers held by the queue. -/
def queueCount (q : QUEUE) : Nat := if q.full then N else (q.ii + N - q.ri) % N

/-- The identifiers held by the queue, the head (next to be retrieved) first. -/
def queueList (q : QUEUE) : List Nat :=
  (List.range (queueCount q)).map (fun k => q.mem.getD ((q.ri + k) % N) EMPTYPOS)

/-- Representation invariant of the queue: `N` cells, both pointers inside the storage region,
and the pointers equal when the queue is full. -/
def queueWF (q : QUEUE) : Prop :=
  q.mem.length = N ∧ q.ii < N ∧ q.ri < N ∧ (q.full = true → q.ii = q.ri)

/-- The system seen at the counter: the shared region and the customers' local variables
(`sys`); for each customer, whether it is parked in the `semDown (waitForService[n])` that ends
`iWantThis` (`waiting`) and the value of its semaphore (`wfs`); the customer returned by
`addressACustomer` and not yet passed to `sayGoodByeToCustomer` (`attending`, the variable `c`
of the entrepreneur); and, as history, the identifiers enqueued by `iWantThis` (`enq`) and
those returned by `addressACustomer` (`deq`), the oldest first. -/
structure Service where
  sys : System
  waiting : List Bool
  wfs : List Nat
  attending : Option Nat
  enq : List Nat
  deq : List Nat
deriving DecidableEq, Repr

/-- An event of customer `n`: parked on `waitForService[n]`, it proceeds when the semaphore is
positive, taking one unit, and stays parked otherwise; not parked, it executes the next
operation of its life cycle, and parks at the end of `iWantThis`. -/
def Service.custEvent (s : Service) (n val : Nat) : Service :=
  match s.sys.cust[n]?, s.waiting[n]?, s.wfs[n]? with
  | some l, some w, some v =>
    if w then
      if 0 < v then { s with waiting := s.waiting.set n false, wfs := s.wfs.set n (v - 1) }
      else s
    else if l.pc = .iWantThis then
      { s with sys := s.sys.step (.cust n val), waiting := s.waiting.set n true,
               enq := s.enq ++ [n] }
    else { s with sys := s.sys.step (.cust n val) }
  | _, _, _ => s

/-- An event of the entrepreneur. As in `main` of semSharedMemEntrp.c, where
`c = addressACustomer (); serviceCustomer (); sayGoodByeToCustomer (c);` run in sequence:
after `addressACustomer` has returned `c` the only operation she executes is
`sayGoodByeToCustomer c`, which is executed at no other moment; apart from that she executes
any operation at any moment. An operation that is not allowed leaves the system as it is. -/
def Service.entrepEvent (s : Service) (op : EntrepOp) : Service :=
  match s.attending with
  | some c =>
    if op = .sayGoodByeToCustomer c then
      { s with sys := s.sys.step (.entrep op), wfs := updAt s.wfs c (fun v => v + 1),
               attending := none }
    else s
  | none =>
    match op with
    | .sayGoodByeToCustomer _ => s
    | .addressACustomer =>
      match (addressACustomer s.sys.sh).out with
      | .ret c =>
        { s with sys := s.sys.step (.entrep op), attending := some c, deq := s.deq ++ [c] }
      | _ => { s with sys := s.sys.step (.entrep op) }
    | _ => { s with sys := s.sys.step (.entrep op) }

/-- Effect of one event at the counter. -/
def Service.step (s : Service) : Event → Service
  | .cust n val => s.custEvent n val
  | .entrep op => s.entrepEvent op
  | .craft m op => { s with sys := s.sys.step (.craft m op) }

/-- Effect of a sequence of events, the first one first. -/
def Service.run (s : Service) (es : List Event) : Service := es.foldl Service.step s

/-- The system at the counter as `main` of probSemSharedMemAvHandicraft.c starts it: nobody
parked, every `waitForService` semaphore at zero, nobody attended, empty history. -/
def initialService (pm : List Nat) : Service :=
  { sys := initialSystem pm, waiting := List.replicate N false, wfs := List.replicate N 0,
    attending := none, enq := [], deq := [] }

/-- What holds of the counter in every reachable state: the queue is well formed; the history
of enqueued identifiers is the history of returned ones followed by the content of the queue;
no identifier is twice in the queue; a queued customer is a customer, is parked, and its
semaphore is zero; so is the customer being attended, who is no longer in the queue; a
semaphore is at most one, and positive only for a parked customer; a parked customer has
`exitShop` as its next operation. -/
def Service.Inv (s : Service) : Prop :=
  queueWF s.sys.sh.fSt.shop.queue ∧
  (s.sys.cust.length = N ∧ s.waiting.length = N ∧ s.wfs.length = N) ∧
  s.enq = s.deq ++ queueList s.sys.sh.fSt.shop.queue ∧
  (queueList s.sys.sh.fSt.shop.queue).Nodup ∧
  (∀ c : Nat, c ∈ queueList s.sys.sh.fSt.shop.queue →
    c < N ∧ s.waiting[c]? = some true ∧ s.wfs[c]? = some 0) ∧
  (∀ c : Nat, s.attending = some c →
    c < N ∧ c ∉ queueList s.sys.sh.fSt.shop.queue ∧ s.waiting[c]? = some true ∧
      s.wfs[c]? = some 0) ∧
  (∀ (c v : Nat), s.wfs[c]? = some v → v ≤ 1 ∧ (v = 1 → s.waiting[c]? = some true)) ∧
  (∀ (c : Nat) (l : CustLocal), s.sys.cust[c]? = some l → s.waiting[c]? = some true →
    l.pc = .exitShop)

/-- A run at the counter: three products are made and put on display; customers 0 and 1 enter,
pick products and queue, in this order. -/
def exServiceQueued : List Event :=
  [.craft 0 .goToStore, .craft 1 .goToStore, .craft 2 .goToStore, .entrep .goToWorkShop,
   .entrep .prepareToWork,
   .cust 0 0, .cust 0 0, .cust 0 0, .cust 0 0, .cust 0 2000000000, .cust 0 0,
   .cust 1 0, .cust 1 0, .cust 1 0, .cust 1 0, .cust 1 2000000000, .cust 1 0]

/-- The run `exServiceQueued` continued: the entrepreneur attends customer 0, who leaves, then
customer 1. -/
def exService : List Event :=
  exServiceQueued ++
  [.entrep .addressACustomer, .cust 0 0, .entrep (.sayGoodByeToCustomer 0), .cust 0 0,
   .cust 0 0, .entrep .addressACustomer]

/-! ## Semaphore traces and endings of the operations -/

/-- How an execution ended, whatever the value returned. -/
inductive Ending where
  | returned
  | exited
  | parked
  | looping
deriving DecidableEq, Repr

/-- The ending of an outcome. -/
def Outcome.ending {α : Type} : Outcome α → Ending
  | .ret _ => .returned
  | .fatal => .exited
  | .blocked => .parked
  | .running => .looping

/-- Semaphore operations performed by an operation of the entrepreneur. -/
def trEntrep : EntrepOp → SHARED_DATA → List SemOp
  | .prepareToWork, sh => (prepareToWork sh).tr
  | .appraiseSit, sh => (appraiseSit sh).tr
  | .addressACustomer, sh => (addressACustomer sh).tr
  | .sayGoodByeToCustomer c, sh => (sayGoodByeToCustomer c sh).tr
  | .customersInTheShop, sh => (customersInTheShop sh).tr
  | .closeTheDoor, sh => (closeTheDoor sh).tr
  | .prepareToLeave, sh => (prepareToLeave sh).tr
  | .goToWorkShop, sh => (goToWorkShop sh).tr
  | .visitSuppliers fuel oob, sh => (visitSuppliers fuel oob sh).tr
  | .returnToShop, sh => (returnToShop sh).tr
  | .endOperEntrep, sh => (endOperEntrep sh).tr

/-- Semaphore operations performed by an operation of customer `custId`. -/
def trCust (custId : Nat) : CustOp → SHARED_DATA → List SemOp
  | .goShopping, sh => (goShopping custId sh).tr
  | .isDoorOpen, sh => (isDoorOpen custId sh).tr
  | .tryAgainLater, sh => (tryAgainLater custId sh).tr
  | .enterShop, sh => (enterShop custId sh).tr
  | .perusingAround val, sh => (perusingAround custId val sh).tr
  | .iWantThis nGoods, sh => (iWantThis custId nGoods sh).tr
  | .exitShop, sh => (exitShop custId sh).tr
  | .endOperCustomer, sh => (endOperCustomer custId sh).tr

/-- Semaphore operations performed by an operation of craftsman `craftId`. -/
def trCraft (craftId : Nat) : CraftOp → SHARED_DATA → List SemOp
  | .collectMaterials, sh => (collectMaterials craftId sh).tr
  | .primeMaterialsNeeded, sh => (primeMaterialsNeeded craftId sh).tr
  | .backToWork, sh => (backToWork craftId sh).tr
  | .prepareToProduce, sh => (prepareToProduce craftId sh).tr
  | .goToStore, sh => (goToStore craftId sh).tr
  | .batchReadyForTransfer, sh => (batchReadyForTransfer craftId sh).tr
  | .endOperCraftsman, sh => (endOperCraftsman craftId sh).tr

/-- Semaphore operations performed by an operation, in program order. -/
def trace : Action → SHARED_DATA → List SemOp
  | .entrep op, sh => trEntrep op sh
  | .cust c op, sh => trCust c op sh
  | .craft m op, sh => trCraft m op sh

/-- Ending of an operation of the entrepreneur. -/
def endEntrep : EntrepOp → SHARED_DATA → Ending
  | .prepareToWork, sh => (prepareToWork sh).out.ending
  | .appraiseSit, sh => (appraiseSit sh).out.ending
  | .addressACustomer, sh => (addressACustomer sh).out.ending
  | .sayGoodByeToCustomer c, sh => (sayGoodByeToCustomer c sh).out.ending
  | .customersInTheShop, sh => (customersInTheShop sh).out.ending
  | .closeTheDoor, sh => (closeTheDoor sh).out.ending
  | .prepareToLeave, sh => (prepareToLeave sh).out.ending
  | .goToWorkShop, sh => (goToWorkShop sh).out.ending
  | .visitSuppliers fuel oob, sh => (visitSuppliers fuel oob sh).out.ending
  | .returnToShop, sh => (returnToShop sh).out.ending
  | .endOperEntrep, sh => (endOperEntrep sh).out.ending

/-- Ending of an operation of customer `custId`. -/
def endCust (custId : Nat) : CustOp → SHARED_DATA → Ending
  | .goShopping, sh => (goShopping custId sh).out.ending
  | .isDoorOpen, sh => (isDoorOpen custId sh).out.ending
  | .tryAgainLater, sh => (tryAgainLater custId sh).out.ending
  | .enterShop, sh => (enterShop custId sh).out.ending
  | .perusingAround val, sh => (perusingAround custId val sh).out.ending
  | .iWantThis nGoods, sh => (iWantThis custId nGoods sh).out.ending
  | .exitShop, sh => (exitShop custId sh).out.ending
  | .endOperCustomer, sh => (endOperCustomer custId sh).out.ending

/-- Ending of an operation of craftsman `craftId`. -/
def endCraft (craftId : Nat) : CraftOp → SHARED_DATA → Ending
  | .collectMaterials, sh => (collectMaterials craftId sh).out.ending
  | .primeMaterialsNeeded, sh => (primeMaterialsNeeded craftId sh).out.ending
  | .backToWork, sh => (backToWork craftId sh).out.ending
  | .prepareToProduce, sh => (prepareToProduce craftId sh).out.ending
  | .goToStore, sh => (goToStore craftId sh).out.ending
  | .batchReadyForTransfer, sh => (batchReadyForTransfer craftId sh).out.ending
  | .endOperCraftsman, sh => (endOperCraftsman craftId sh).out.ending

/-- Ending of an operation. -/
def ending : Action → SHARED_DATA → Ending
  | .entrep op, sh => endEntrep op sh
  | .cust c op, sh => endCust c op sh
  | .craft m op, sh => endCraft m op sh

/-- Does the operation leave the critical region entered by `isDoorOpen`. -/
def Action.leavesDoorRegion : Action → Bool
  | .cust _ .tryAgainLater => true
  | .cust _ .enterShop => true
  | _ => false

/-- Is the operation an `isDoorOpen`. -/
def Action.isDoorCheck : Action → Bool
  | .cust _ .isDoorOpen => true
  | _ => false

/-! ## semSharedMemEntrp.c.gito.c (monitor version of `appraiseSit`) -/

/-- Modelled from the spec: the internal data of the monitor are declared outside the file
(their declarations are not among the sources); the loop of `appraiseSit` uses the full state
`fSt` and the explicit counter `nWakeUp` of pending events. -/
structure MON where
  fSt : FULL_STAT
  nWakeUp : Nat
deriving DecidableEq, Repr

/-- Result of a passage of the monitor version of `appraiseSit`: the internal data it leaves and
how it ended. -/
structure MonRun where
  mon : MON
  out : Outcome Char
deriving DecidableEq, Repr

/-- The last test of the loop of the monitor version of `appraiseSit`. -/
def retirementTest (fSt : FULL_STAT) : Bool :=
  decide (fSt.shop.nCustIn = 0) &&
  decide (fSt.shop.nProdIn = 0) &&
  !fSt.shop.primeMatReq &&
  !fSt.shop.prodTransfer &&
  decide (fSt.workShop.nProdIn = 0) &&
  decide (fSt.workShop.nPMatIn = 0) &&
  decide (fSt.workShop.NTPMat = umul PP fSt.workShop.NTProd) &&
  decide (fSt.workShop.NSPMat = NP)

/-- The loop `while (true)` of the monitor version of `appraiseSit`, run while the thread owns
the monitor (the full state cannot change meanwhile), by the value of `nWakeUp`: with no pending
wake-up the thread waits on the condition `proceed` (when it is woken it runs the loop again
from the test of `nWakeUp`); otherwise `nWakeUp` is decremented and the four tests are made in
order, each one leaving the loop with its letter in `action`; when all four fail the loop
starts again. The file ends with the loop: the value of `action` on leaving it is taken as the
value returned. -/
def appraiseSitLoop (fSt : FULL_STAT) : Nat → MonRun
  | 0 => { mon := { fSt := fSt, nWakeUp := 0 }, out := .blocked }
  | nWakeUp + 1 =>
    if !queueEmpty fSt.shop.queue then
      { mon := { fSt := fSt, nWakeUp := nWakeUp }, out := .ret 'C' }
    else if fSt.shop.primeMatReq then
      { mon := { fSt := fSt, nWakeUp := nWakeUp }, out := .ret 'P' }
    else if fSt.shop.prodTransfer then
      { mon := { fSt := fSt, nWakeUp := nWakeUp }, out := .ret 'G' }
    else if retirementTest fSt then
      { mon := { fSt := fSt, nWakeUp := nWakeUp }, out := .ret 'E' }
    else appraiseSitLoop fSt nWakeUp

/-- Appraise situation, monitor version. -/
def appraiseSitMonitor (m : MON) : MonRun := appraiseSitLoop m.fSt m.nWakeUp

/-- Monitor data in which a customer queues by the counter and two wake-ups are pending. -/
def exMonQueued : MON := { fSt := exQueued.fSt, nWakeUp := 2 }

/-- Monitor data in which three wake-ups are pending and nothing requires the entrepreneur. -/
def exMonIdle : MON := { fSt := exOpened.fSt, nWakeUp := 3 }

/-! ## Life cycle of the entrepreneur (`main` of semSharedMemEntrp.c) -/

/-- Position of the entrepreneur in her life cycle: the operation she executes next; `aborted`
after an `exit (EXIT_FAILURE)`, `spinning` inside the wake-up loop of `visitSuppliers`. -/
inductive EntrepPc where
  | endOperEntrep
  | prepareToWork
  | appraiseSit
  | addressACustomer
  | sayGoodByeToCustomer
  | customersInTheShop
  | closeTheDoor
  | prepareToLeave
  | goToWorkShop
  | visitSuppliers
  | returnToShop
  | finished
  | aborted
  | spinning
deriving DecidableEq, Repr

/-- Local variables of the entrepreneur process: its position, `c`, `nextTask` and `busy`. -/
structure EntrepLocal where
  pc : EntrepPc
  c : Nat
  nextTask : Char
  busy : Bool
deriving DecidableEq, Repr

/-- One operation of the life cycle of the entrepreneur: `while (!endOperEntrep ())`,
`prepareToWork ()`, `busy = true`, `while (busy)`: `nextTask = appraiseSit ()`, then for the
letter C `c = addressACustomer ()`, `sayGoodByeToCustomer (c)`, otherwise `busy = false` and,
for the letters G and P, `if (customersInTheShop ()) { closeTheDoor (); busy = true; }`; after
the loop `prepareToLeave ()`, `goToWorkShop ()` for G or `visitSuppliers ()` for P, and
`returnToShop ()`. The arguments `fuel` and `oob` are those of `visitSuppliers`. -/
def entrepStep (fuel oob : Nat) (l : EntrepLocal) (sh : SHARED_DATA) : EntrepLocal × SHARED_DATA :=
  match l.pc with
  | .endOperEntrep =>
    let r := endOperEntrep sh
    ({ l with pc := if r.valD false then .finished else .prepareToWork }, r.sh)
  | .prepareToWork => ({ l with pc := .appraiseSit, busy := true }, (prepareToWork sh).sh)
  | .appraiseSit =>
    let r := appraiseSit sh
    let nextTask := r.valD l.nextTask
    if nextTask = 'C' then ({ l with pc := .addressACustomer, nextTask := nextTask }, r.sh)
    else if nextTask = 'G' ∨ nextTask = 'P' then
      ({ l with pc := .customersInTheShop, nextTask := nextTask, busy := false }, r.sh)
    else ({ l with pc := .prepareToLeave, nextTask := nextTask, busy := false }, r.sh)
  | .addressACustomer =>
    let r := addressACustomer sh
    match r.out with
    | .ret c => ({ l with pc := .sayGoodByeToCustomer, c := c }, r.sh)
    | _ => ({ l with pc := .aborted }, r.sh)
  | .sayGoodByeToCustomer => ({ l with pc := .appraiseSit }, (sayGoodByeToCustomer l.c sh).sh)
  | .customersInTheShop =>
    let r := customersInTheShop sh
    if r.valD false then ({ l with pc := .closeTheDoor }, r.sh)
    else ({ l with pc := .prepareToLeave }, r.sh)
  | .closeTheDoor => ({ l with pc := .appraiseSit, busy := true }, (closeTheDoor sh).sh)
  | .prepareToLeave =>
    let pc := if l.nextTask = 'G' then EntrepPc.goToWorkShop
      else if l.nextTask = 'P' then EntrepPc.visitSuppliers else EntrepPc.returnToShop
    ({ l with pc := pc }, (prepareToLeave sh).sh)
  | .goToWorkShop => ({ l with pc := .returnToShop }, (goToWorkShop sh).sh)
  | .visitSuppliers =>
    let r := visitSuppliers fuel oob sh
    match r.out with
    | .ret _ => ({ l with pc := .returnToShop }, r.sh)
    | _ => ({ l with pc := .spinning }, r.sh)
  | .returnToShop => ({ l with pc := .endOperEntrep }, (returnToShop sh).sh)
  | .finished => (l, sh)
  | .aborted => (l, sh)
  | .spinning => (l, sh)

/-! ## The three life cycles together -/

/-- The shared region and the local variables of the entrepreneur, the `N` customers and the
`M` craftsmen. -/
structure World where
  sh : SHARED_DATA
  entrep : EntrepLocal
  cust : List CustLocal
  craft : List CraftLocal
deriving DecidableEq, Repr

/-- The process that executes the next operation of its life cycle (with the values its
operation may need: those of `visitSuppliers`, the value drawn by `random ()`). -/
inductive Turn where
  | entrep (fuel oob : Nat)
  | cust (n val : Nat)
  | craft (m : Nat)
deriving DecidableEq, Repr

/-- Effect of one turn. -/
def World.step (w : World) : Turn → World
  | .entrep fuel oob =>
    { w with sh := (entrepStep fuel oob w.entrep w.sh).2,
             entrep := (entrepStep fuel oob w.entrep w.sh).1 }
  | .cust n val =>
    match w.cust[n]? with
    | some l => { w with sh := (custStep n val l w.sh).2,
                         cust := w.cust.set n (custStep n val l w.sh).1 }
    | none => w
  | .craft m =>
    match w.craft[m]? with
    | some l => { w with sh := (craftStep m l w.sh).2,
                         craft := w.craft.set m (craftStep m l w.sh).1 }
    | none => w

/-- Effect of a sequence of turns, the first one first. -/
def World.run (w : World) (ts : List Turn) : World := ts.foldl World.step w

/-- The processes as they start on the shared region initialised by `main` for the schedule
`pm`: each one is about to test its end of operations (the local variables are not initialised;
they are assigned before they are read). -/
def initialWorld (pm : List Nat) : World :=
  { sh := initialState pm,
    entrep := { pc := .endOperEntrep, c := 0, nextTask := 'E', busy := false },
    cust := List.replicate N { pc := .endOperCustomer, ng := 0 },
    craft := List.replicate M { pc := .endOperCraftsman, alert := false, np := 0 } }

/-- What every state reached by the three life cycles satisfies: the shop is closed, a single
delivery has been made, the entrepreneur and the craftsmen are at their first test or have left,
and every customer is at its first test or in its door loop. -/
def World.Idle (w : World) : Prop :=
  w.sh.fSt.shop.stat = SCLOSED ∧ w.sh.fSt.workShop.NSPMat = 1 ∧
  (w.entrep.pc = .endOperEntrep ∨ w.entrep.pc = .finished) ∧
  (∀ l ∈ w.craft, l.pc = .endOperCraftsman ∨ l.pc = .finished) ∧
  (∀ l ∈ w.cust, l.pc = .endOperCustomer ∨ l.pc = .goShopping ∨ l.pc = .isDoorOpen ∨
    l.pc = .tryAgainLater) ∧
  (∀ i, i < N → custReady w.sh i = true)

/-- Every process takes its first turn: the entrepreneur, the craftsmen, the customers. -/
def exFirstTurns : List Turn :=
  [.entrep 0 0, .craft 0, .craft 1, .craft 2, .cust 0 0, .cust 1 0, .cust 2 0]

/-- A round in which every process takes a turn and every customer makes one passage of its
door loop (`goShopping`, `isDoorOpen`, `tryAgainLater`). -/
def exRound : List Turn :=
  [.entrep 0 0, .craft 0, .craft 1, .craft 2,
   .cust 0 0, .cust 0 0, .cust 0 0, .cust 1 0, .cust 1 0, .cust 1 0,
   .cust 2 0, .cust 2 0, .cust 2 0]

/-! ## The door of the shop and the semaphore `access` -/

/-- Semaphore operations of the next operation of the life cycle of customer `n`. -/
def custTrace (n val : Nat) (l : CustLocal) (sh : SHARED_DATA) : List SemOp :=
  match l.pc with
  | .endOperCustomer => (endOperCustomer n sh).tr
  | .goShopping => (goShopping n sh).tr
  | .isDoorOpen => (isDoorOpen n sh).tr
  | .tryAgainLater => (tryAgainLater n sh).tr
  | .enterShop => (enterShop n sh).tr
  | .perusingAround => (perusingAround n val sh).tr
  | .iWantThis => (iWantThis n l.ng sh).tr
  | .exitShop => (exitShop n sh).tr
  | .finished => []

/-- Semaphore operations of an event. -/
def System.eventTrace (s : System) : Event → List SemOp
  | .cust n val =>
    match s.cust[n]? with
    | some l => custTrace n val l s.sh
    | none => []
  | .entrep op => trEntrep op s.sh
  | .craft m op => trCraft m op s.sh

/-- The system together with the value of the semaphore `access` (created at zero and raised
once by `main` of probSemSharedMemAvHandicraft.c before the processes start). -/
structure Gated where
  sys : System
  access : Nat
deriving DecidableEq, Repr

/-- The process of the event cannot proceed: its operation starts with a `down` on `access` and
the semaphore is at zero. -/
def Gated.blocked (g : Gated) (e : Event) : Bool :=
  decide ((g.sys.eventTrace e).head? = some (.down .access)) && decide (g.access = 0)

/-- Effect of one event: nothing while the process is held at its `down` on `access`; otherwise
the operation takes place, and `access` goes down and up as the operation says. -/
def Gated.step (g : Gated) (e : Event) : Gated :=
  if g.blocked e then g
  else
    { sys := g.sys.step e,
      access := g.access + ups .access (g.sys.eventTrace e) - downs .access (g.sys.eventTrace e) }

/-- Effect of a sequence of events, the first one first. -/
def Gated.run (g : Gated) (es : List Event) : Gated := es.foldl Gated.step g

/-- The system as it starts, with `access` at one. -/
def initialGated (pm : List Nat) : Gated := { sys := initialSystem pm, access := 1 }

/-- Is the customer between its door check and `tryAgainLater` / `enterShop` (1 or 0). -/
def CustLocal.atDoor (l : CustLocal) : Nat :=
  if l.pc = .tryAgainLater ∨ l.pc = .enterShop then 1 else 0

/-- Is the customer inside the shop, between `enterShop` and `exitShop` (1 or 0). -/
def CustLocal.inside (l : CustLocal) : Nat :=
  if l.pc = .perusingAround ∨ l.pc = .iWantThis ∨ l.pc = .exitShop then 1 else 0

/-- Number of customers between the door check and `tryAgainLater` / `enterShop`. -/
def doorCount (cust : List CustLocal) : Nat := (cust.map CustLocal.atDoor).sum

/-- Number of customers inside the shop. -/
def insideCount (cust : List CustLocal) : Nat := (cust.map CustLocal.inside).sum

/-- What holds of every state reached: the customers are `N`; `access` is at one with no
customer at the door, or at zero with at most one; a customer about to enter has seen the door
open and it still is; and `nCustIn` counts the customers inside. -/
def Gated.Inv (g : Gated) : Prop :=
  g.sys.cust.length = N ∧
  g.access + doorCount g.sys.cust ≤ 1 ∧
  (∀ l ∈ g.sys.cust, l.pc = .enterShop → g.sys.sh.fSt.shop.stat = SOPEN) ∧
  g.sys.sh.fSt.shop.nCustIn = insideCount g.sys.cust

/-- The entrepreneur opens the shop, customer 0 goes shopping and finds the door open. -/
def exDoorEvents : List Event :=
  [.entrep .prepareToWork, .cust 0 0, .cust 0 0, .cust 0 0]

/-! # Verification -/

/-! ## The entrepreneur -/

/-- The status returned by `endOperEntrep` does not depend on the shared region. -/
theorem endOperEntrep_out (sh : SHARED_DATA) : (endOperEntrep sh).out = .ret true := rfl

/-- C1 (code defect): in the initial state for the schedule 5, 5, 5, 6 the retirement predicate
computed inside the critical region is false (one delivery made, five units of prime materials
in the workshop), and `endOperEntrep` nevertheless returns true, because the computed status is
overwritten by `stat = true` before the return. -/
theorem endOperEntrep_true_without_retirement :
    endOperEntrepStat exInitial = false ∧
    exInitial.fSt.workShop.NSPMat ≠ NP ∧
    exInitial.fSt.workShop.nPMatIn ≠ 0 ∧
    (endOperEntrep exInitial).out = .ret true := by
  decide

/-- The semaphore version of `appraiseSit` returns the letter E in every state and leaves the
shared region as it found it. -/
theorem appraiseSit_out (sh : SHARED_DATA) :
    (appraiseSit sh).out = .ret 'E' ∧ (appraiseSit sh).sh = sh := ⟨rfl, rfl⟩

/-- C2 (code defect): with customer 0 in the service queue (the queue is not empty) and the
retirement predicate false, `appraiseSit` returns the letter E, not the letter C; it performs no
operation on the semaphore `proceed`. -/
theorem appraiseSit_E_with_customer_queued :
    queueEmpty exQueued.fSt.shop.queue = false ∧
    endOperEntrepStat exQueued = false ∧
    (appraiseSit exQueued).out = .ret 'E' ∧
    (appraiseSit exQueued).out ≠ .ret 'C' ∧
    downs .proceed (appraiseSit exQueued).tr = 0 := by
  decide

/-- While `nCraftsmenBlk` is positive the wake-up loop of `visitSuppliers` never ends: after any
number of iterations it is still running, the shared region is untouched, and one `up` on
`waitForMaterials` has been appended per iteration. -/
theorem visitSuppliersLoop_spins (fuel : Nat) (sh : SHARED_DATA) (tr : List SemOp)
    (h : 0 < sh.nCraftsmenBlk) :
    visitSuppliersLoop fuel sh tr =
      { sh := sh, tr := tr ++ List.replicate fuel (.up .waitForMaterials), out := .running } := by
  induction fuel generalizing tr with
  | zero => simp [visitSuppliersLoop, h]
  | succ n ih =>
    rw [visitSuppliersLoop]
    simp only [gt_iff_lt, h, if_true]
    rw [ih]
    simp [List.replicate_succ]

/-- With no blocked craftsman the wake-up loop of `visitSuppliers` ends at once. -/
theorem visitSuppliersLoop_zero (fuel : Nat) (sh : SHARED_DATA) (tr : List SemOp)
    (h : sh.nCraftsmenBlk = 0) :
    visitSuppliersLoop fuel sh tr =
      { sh := { sh with nCraftsmenBlk := 0 }, tr := tr ++ [.up .access], out := .ret () } := by
  cases fuel <;> simp [visitSuppliersLoop, h]

/-- The delivery part of `visitSuppliers` does not touch `nCraftsmenBlk`. -/
theorem visitSuppliersDeliver_blk (oob : Nat) (sh : SHARED_DATA) :
    (visitSuppliersDeliver oob sh).nCraftsmenBlk = sh.nCraftsmenBlk := by
  unfold visitSuppliersDeliver
  simp only
  split <;> rfl

/-- C3 (code defect): with one craftsman blocked (`nCraftsmenBlk = 1`) `visitSuppliers` does not
complete: whatever the number `fuel` of loop iterations allowed, it is still running inside the
critical region, has performed `fuel` (not one) `up` on `waitForMaterials`, has not released
`access`, and `nCraftsmenBlk` is still 1. -/
theorem visitSuppliers_never_completes_with_blocked_craftsman (fuel oob : Nat) :
    exBlocked.nCraftsmenBlk = 1 ∧
    (visitSuppliers fuel oob exBlocked).out = .running ∧
    ups .waitForMaterials (visitSuppliers fuel oob exBlocked).tr = fuel ∧
    ups .access (visitSuppliers fuel oob exBlocked).tr = 0 ∧
    (visitSuppliers fuel oob exBlocked).sh.nCraftsmenBlk = 1 := by
  have hb : exBlocked.nCraftsmenBlk = 1 := by decide
  have h : 0 < (visitSuppliersDeliver oob exBlocked).nCraftsmenBlk := by
    rw [visitSuppliersDeliver_blk, hb]; exact Nat.one_pos
  unfold visitSuppliers
  rw [visitSuppliersLoop_spins fuel _ _ h]
  refine ⟨hb, rfl, ?_, ?_, ?_⟩
  · simp [ups, List.count_replicate]
  · simp [ups, List.count_replicate]
  · simp [visitSuppliersDeliver_blk, hb]

/-- The shared region left by `visitSuppliers` when all `NP` deliveries have already been made
and no craftsman is blocked (sample state): the guard `NSPMat <= NP` lets a further delivery
through, which reads `primeMaterials[NP]`. -/
theorem visitSuppliers_exLastDelivered (fuel oob : Nat) :
    visitSuppliers fuel oob exLastDelivered =
      { sh := { exLastDelivered with
                fSt.st.entrepStat := DELIVERING_PRIME_MATERIALS,
                fSt.shop.primeMatReq := false,
                fSt.workShop := { nPMatIn := uadd 2 oob, nProdIn := 0, NSPMat := 5,
                                  NTPMat := uadd 21 oob, NTProd := 19 } },
        tr := [.down .access, .up .access], out := .ret () } := by
  unfold visitSuppliers
  rw [visitSuppliersLoop_zero _ _ _ (by rw [visitSuppliersDeliver_blk]; rfl)]
  simp [visitSuppliersDeliver, exLastDelivered, exInitial, initialState, primeMaterialsAt, NP,
    uadd, UINT_MOD]

/-- C4 (code defect): in a state where no delivery remains (`NSPMat = NP = 4`) `visitSuppliers`
does not leave the workshop counters unchanged: it clears `primeMatReq`, but it also raises
`NSPMat` to `NP + 1` and adds the word `oob` read at `primeMaterials[NP]`, past the end of the
array, to `nPMatIn` and `NTPMat`. -/
theorem visitSuppliers_delivers_past_schedule (fuel oob : Nat) :
    exLastDelivered.fSt.workShop.NSPMat = NP ∧
    (visitSuppliers fuel oob exLastDelivered).out = .ret () ∧
    (visitSuppliers fuel oob exLastDelivered).sh.fSt.shop.primeMatReq = false ∧
    (visitSuppliers fuel oob exLastDelivered).sh.fSt.workShop.NSPMat = NP + 1 ∧
    (visitSuppliers fuel oob exLastDelivered).sh.fSt.workShop.nPMatIn =
      uadd exLastDelivered.fSt.workShop.nPMatIn oob ∧
    (visitSuppliers fuel oob exLastDelivered).sh.fSt.workShop.NTPMat =
      uadd exLastDelivered.fSt.workShop.NTPMat oob := by
  rw [visitSuppliers_exLastDelivered]
  exact ⟨rfl, rfl, rfl, rfl, rfl, rfl⟩

/-- C5 (code defect): the bound `NSPMat <= NP` is not preserved by `visitSuppliers`: from the
sample state with `NSPMat = NP` (bound satisfied) the operation completes with `NSPMat = NP + 1`,
and the cell it reads, `primeMaterials[NSPMat]` with `NSPMat = NP`, is not a cell of the
`NP`-entry array. -/
theorem visitSuppliers_breaks_NSPMat_bound (fuel oob : Nat) :
    exLastDelivered.fSt.workShop.NSPMat ≤ NP ∧
    exLastDelivered.fSt.primeMaterials.length = NP ∧
    exLastDelivered.fSt.primeMaterials[exLastDelivered.fSt.workShop.NSPMat]? = none ∧
    primeMaterialsAt exLastDelivered oob exLastDelivered.fSt.workShop.NSPMat = oob ∧
    ¬ (exec (.entrep (.visitSuppliers fuel oob)) exLastDelivered).fSt.workShop.NSPMat ≤ NP := by
  refine ⟨by decide, by decide, by decide, rfl, ?_⟩
  show ¬ (visitSuppliers fuel oob exLastDelivered).sh.fSt.workShop.NSPMat ≤ NP
  rw [visitSuppliers_exLastDelivered]
  show ¬ (5 : Nat) ≤ NP
  decide

/-! ## Arrays -/

/-- Reading an array after an assignment to cell `i`. -/
theorem getElem?_updAt {α : Type} (f : α → α) (l : List α) (i j : Nat) :
    (updAt l i f)[j]? = if j = i then (l[j]?).map f else l[j]? := by
  induction l generalizing i j with
  | nil => simp [updAt]
  | cons x xs ih =>
    cases i with
    | zero => cases j <;> simp [updAt]
    | succ i =>
      cases j with
      | zero => simp [updAt]
      | succ j => simp [updAt, ih]

/-- An assignment to a cell keeps the size of the array. -/
theorem length_updAt {α : Type} (f : α → α) (l : List α) (i : Nat) :
    (updAt l i f).length = l.length := by
  induction l generalizing i with
  | nil => rfl
  | cons x xs ih => cases i <;> simp [updAt, ih]

/-! ## The craftsmen -/

/-- C6 (code defect): in the initial state for the schedule 5, 5, 5, 6 only one delivery has been
made (`NSPMat = 1`), so the retirement condition of the craftsman is false; `endOperCraftsman`
leaves the shared region, hence every `readyToWork` flag, unchanged, and nevertheless returns
true, because the computed status is overwritten by `stat = true` before the return. -/
theorem endOperCraftsman_true_before_schedule_end :
    ¬ (exInitial.fSt.workShop.NSPMat = NP ∧
        exInitial.fSt.workShop.nPMatIn < nOpCraft exInitial * PP) ∧
    (endOperCraftsman 0 exInitial).out = .ret true ∧
    (endOperCraftsman 0 exInitial).sh = exInitial ∧
    craftReady (endOperCraftsman 0 exInitial).sh 0 = true := by
  decide

/-- The count made by the loop of `endOperCraftsman` is one when `craftId` is the only craftsman
whose flag is set. -/
theorem nOpCraft_of_only (craftId : Nat) (sh : SHARED_DATA) (hId : craftId < M)
    (hSelf : craftReady sh craftId = true)
    (hOthers : ∀ i, i < M → i ≠ craftId → craftReady sh i = false) :
    nOpCraft sh = 1 := by
  have h0 := hOthers 0 (by decide)
  have h1 := hOthers 1 (by decide)
  have h2 := hOthers 2 (by decide)
  have hM : craftId = 0 ∨ craftId = 1 ∨ craftId = 2 := by
    unfold M at hId; omega
  rcases hM with h | h | h <;> subst h <;>
    simp_all [nOpCraft, M, List.range_succ, uadd, UINT_MOD]

/-- Flag of craftsman `j` after an assignment of false to the flag of craftsman `i`. -/
theorem craftReady_updCraft_false (sh : SHARED_DATA) (i j : Nat) :
    craftReady (updCraft sh i (fun c => { c with readyToWork := false })) j =
      (if j = i then false else craftReady sh j) := by
  unfold craftReady updCraft
  simp only [getElem?_updAt]
  by_cases h : j = i
  · subst h
    cases sh.fSt.st.craftStat[j]? <;> simp
  · simp [h]

/-- C7: last-producer handoff. When `endOperCraftsman` is called by the only craftsman whose
`readyToWork` flag is still true, with the schedule exhausted (`NSPMat = NP`) and less than `PP`
prime materials left, it sets `shop.prodTransfer`, performs exactly one `up` on `proceed`, after
entering and before leaving the critical region, leaves the storeroom count `workShop.nProdIn`
as it is (whatever it is, in particular when it is between 1 and `MAX - 1`), clears the flag of
the caller and returns true. -/
theorem endOperCraftsman_last_producer_handoff (craftId : Nat) (sh : SHARED_DATA)
    (hId : craftId < M)
    (hSelf : craftReady sh craftId = true)
    (hOthers : ∀ i, i < M → i ≠ craftId → craftReady sh i = false)
    (hNSP : sh.fSt.workShop.NSPMat = NP)
    (hMat : sh.fSt.workShop.nPMatIn < PP) :
    (endOperCraftsman craftId sh).sh.fSt.shop.prodTransfer = true ∧
    (endOperCraftsman craftId sh).tr = [.down .access, .up .proceed, .up .access] ∧
    ups .proceed (endOperCraftsman craftId sh).tr = 1 ∧
    (endOperCraftsman craftId sh).sh.fSt.workShop.nProdIn = sh.fSt.workShop.nProdIn ∧
    craftReady (endOperCraftsman craftId sh).sh craftId = false ∧
    (endOperCraftsman craftId sh).out = .ret true := by
  have hn : nOpCraft sh = 1 := nOpCraft_of_only craftId sh hId hSelf hOthers
  have hlt : sh.fSt.workShop.nPMatIn < umul 1 PP := by
    have : umul 1 PP = PP := by decide
    rw [this]; exact hMat
  have hrun : endOperCraftsman craftId sh =
      { sh := { updCraft sh craftId (fun c => { c with readyToWork := false }) with
                fSt.shop.prodTransfer := true },
        tr := [.down .access, .up .proceed, .up .access], out := .ret true } := by
    simp [endOperCraftsman, hNSP, hn, hlt, assign]
  rw [hrun]
  refine ⟨rfl, rfl, ?_, rfl, ?_, rfl⟩
  · show ups .proceed [.down .access, .up .proceed, .up .access] = 1
    decide
  have := craftReady_updCraft_false sh craftId craftId
  simpa [craftReady, updCraft] using this

/-- Witness of C7: craftsman 2, the last one operative, with two products in the storeroom. -/
theorem endOperCraftsman_last_producer_handoff_witness :
    (0 < exLastCraftsman.fSt.workShop.nProdIn ∧ exLastCraftsman.fSt.workShop.nProdIn < MAX) ∧
    ((endOperCraftsman 2 exLastCraftsman).sh.fSt.shop.prodTransfer = true ∧
     (endOperCraftsman 2 exLastCraftsman).tr = [.down .access, .up .proceed, .up .access] ∧
     ups .proceed (endOperCraftsman 2 exLastCraftsman).tr = 1 ∧
     (endOperCraftsman 2 exLastCraftsman).sh.fSt.workShop.nProdIn = 2 ∧
     craftReady (endOperCraftsman 2 exLastCraftsman).sh 2 = false ∧
     (endOperCraftsman 2 exLastCraftsman).out = .ret true) :=
  ⟨by decide,
   endOperCraftsman_last_producer_handoff 2 exLastCraftsman (by decide) (by decide)
     (by decide) (by decide) (by decide)⟩

/-! ## The customers -/

/-- The count made by the loop of `endOperCustomer` is the number of customers whose
`readyToWork` flag is set. -/
theorem nOpCust_eq_count (sh : SHARED_DATA) :
    nOpCust sh = ((List.range N).filter (fun i => custReady sh i)).length := by
  cases h0 : custReady sh 0 <;> cases h1 : custReady sh 1 <;> cases h2 : custReady sh 2 <;>
    simp [nOpCust, N, List.range_succ, uadd, UINT_MOD, h0, h1, h2, List.filter]

/-- The count of operative customers is at most `N`. -/
theorem nOpCust_le (sh : SHARED_DATA) : nOpCust sh ≤ N := by
  rw [nOpCust_eq_count]
  calc ((List.range N).filter (fun i => custReady sh i)).length
      ≤ (List.range N).length := List.length_filter_le _ _
    _ = N := List.length_range N

/-- C8 (counterexample): the schedule is exhausted (`NSPMat = NP`), no
product is left in the shop or the storeroom (0 < 2 * 3 with three operative customers), so the
stated condition holds; but one unit of prime materials is still in the workshop and
`endOperCustomer` returns false and changes nothing. -/
theorem endOperCustomer_false_with_materials_left :
    (exOneUnitLeft.fSt.workShop.NSPMat = NP ∧
      ((exOneUnitLeft.fSt.shop.nProdIn + exOneUnitLeft.fSt.workShop.nProdIn
          < 2 * ((List.range N).filter (fun i => custReady exOneUnitLeft i)).length ∧
        2 ≤ ((List.range N).filter (fun i => custReady exOneUnitLeft i)).length) ∨
       ((exOneUnitLeft.fSt.shop.nProdIn : Int) + exOneUnitLeft.fSt.workShop.nProdIn +
          exOneUnitLeft.fSt.workShop.NTPMat - PP * exOneUnitLeft.fSt.workShop.NTProd = 0))) ∧
    exOneUnitLeft.fSt.workShop.nPMatIn = 1 ∧
    (endOperCustomer 0 exOneUnitLeft).out = .ret false ∧
    (endOperCustomer 0 exOneUnitLeft).sh = exOneUnitLeft := by
  refine ⟨⟨by decide, Or.inl (by decide)⟩, by decide, by decide, by decide⟩

/-- C8 (amended): `endOperCustomer custId` returns true and sets `custStat[custId].readyToWork`
to false, changing nothing else, exactly when no prime materials are left in the workshop
(`nPMatIn = 0`), the supply schedule is exhausted (`NSPMat = NP`) and either the number of
products in shop and storeroom is below twice the number `k` of operative customers with
`k >= 2`, or products plus delivered materials minus `PP` times the pieces produced is zero (the
sums taken in 32-bit unsigned arithmetic); otherwise it returns false and changes nothing. -/
theorem endOperCustomer_exact (custId : Nat) (sh : SHARED_DATA) :
    if sh.fSt.workShop.nPMatIn = 0 ∧ sh.fSt.workShop.NSPMat = NP ∧
        ((uadd sh.fSt.shop.nProdIn sh.fSt.workShop.nProdIn
            < 2 * ((List.range N).filter (fun i => custReady sh i)).length ∧
          2 ≤ ((List.range N).filter (fun i => custReady sh i)).length) ∨
         usub (uadd (uadd sh.fSt.shop.nProdIn sh.fSt.workShop.nProdIn) sh.fSt.workShop.NTPMat)
           (umul PP sh.fSt.workShop.NTProd) = 0)
    then (endOperCustomer custId sh).out = .ret true ∧
      (endOperCustomer custId sh).sh =
        updCust sh custId (fun c => { c with readyToWork := false })
    else (endOperCustomer custId sh).out = .ret false ∧ (endOperCustomer custId sh).sh = sh := by
  rw [← nOpCust_eq_count]
  have hk : nOpCust sh ≤ 3 := nOpCust_le sh
  have hmul : umul 2 (nOpCust sh) = 2 * nOpCust sh := by
    unfold umul UINT_MOD; omega
  have hne : ∀ x : Nat, x < 2 * nOpCust sh → (nOpCust sh ≠ 1 ↔ 2 ≤ nOpCust sh) := by
    intro x hx; omega
  by_cases hP : sh.fSt.workShop.nPMatIn = 0
  · by_cases hS : sh.fSt.workShop.NSPMat = NP
    · by_cases hA : uadd sh.fSt.shop.nProdIn sh.fSt.workShop.nProdIn < 2 * nOpCust sh
      · have := hne _ hA
        by_cases hB : usub (uadd (uadd sh.fSt.shop.nProdIn sh.fSt.workShop.nProdIn)
            sh.fSt.workShop.NTPMat) (umul PP sh.fSt.workShop.NTProd) = 0
        · simp [endOperCustomer, hP, hS, hmul, hA, hB]
        · by_cases hC : 2 ≤ nOpCust sh
          · have h1 : nOpCust sh ≠ 1 := by omega
            simp [endOperCustomer, hP, hS, hmul, hA, hB, hC, h1]
          · have h1 : nOpCust sh = 1 := by omega
            simp [endOperCustomer, hP, hS, hmul, hA, hB, h1]
      · by_cases hB : usub (uadd (uadd sh.fSt.shop.nProdIn sh.fSt.workShop.nProdIn)
            sh.fSt.workShop.NTPMat) (umul PP sh.fSt.workShop.NTProd) = 0
        · simp [endOperCustomer, hP, hS, hmul, hA, hB]
        · simp [endOperCustomer, hP, hS, hmul, hA, hB]
    · simp [endOperCustomer, hP, hS]
  · simp [endOperCustomer, hP]

/-! ## Monotone retirement -/

/-- The wake-up loop of `visitSuppliers` leaves the full state as it is. -/
theorem visitSuppliersLoop_fSt (fuel : Nat) (sh : SHARED_DATA) (tr : List SemOp) :
    (visitSuppliersLoop fuel sh tr).sh.fSt = sh.fSt := by
  induction fuel generalizing tr with
  | zero =>
    rw [visitSuppliersLoop]
    split <;> rfl
  | succ n ih =>
    rw [visitSuppliersLoop]
    split
    · exact ih _
    · rfl

/-- The delivery part of `visitSuppliers` writes no customer or craftsman entry. -/
theorem visitSuppliersDeliver_st (oob : Nat) (sh : SHARED_DATA) :
    (visitSuppliersDeliver oob sh).fSt.st.custStat = sh.fSt.st.custStat ∧
    (visitSuppliersDeliver oob sh).fSt.st.craftStat = sh.fSt.st.craftStat := by
  unfold visitSuppliersDeliver
  simp only
  split <;> exact ⟨rfl, rfl⟩

/-- The flag of a customer depends on the customer array only. -/
theorem custReady_congr {sh sh1 : SHARED_DATA}
    (h : sh1.fSt.st.custStat = sh.fSt.st.custStat) (i : Nat) :
    custReady sh1 i = custReady sh i := by
  unfold custReady; rw [h]

/-- The flag of a craftsman depends on the craftsman array only. -/
theorem craftReady_congr {sh sh1 : SHARED_DATA}
    (h : sh1.fSt.st.craftStat = sh.fSt.st.craftStat) (i : Nat) :
    craftReady sh1 i = craftReady sh i := by
  unfold craftReady; rw [h]

/-- An assignment to a customer entry that does not set the flag keeps a cleared flag cleared. -/
theorem custReady_updAt_mono {sh sh1 : SHARED_DATA} (c : Nat) (f : STAT_CUST → STAT_CUST)
    (hf : ∀ x, x.readyToWork = false → (f x).readyToWork = false)
    (h : sh1.fSt.st.custStat = updAt sh.fSt.st.custStat c f) (i : Nat)
    (hi : custReady sh i = false) : custReady sh1 i = false := by
  unfold custReady at hi ⊢
  rw [h, getElem?_updAt]
  by_cases hic : i = c
  · rw [if_pos hic]
    cases hx : sh.fSt.st.custStat[i]? with
    | none => rfl
    | some x =>
      rw [hx] at hi
      exact hf x hi
  · rw [if_neg hic]; exact hi

/-- An assignment to a craftsman entry that does not set the flag keeps a cleared flag
cleared. -/
theorem craftReady_updAt_mono {sh sh1 : SHARED_DATA} (c : Nat) (f : STAT_CRAFT → STAT_CRAFT)
    (hf : ∀ x, x.readyToWork = false → (f x).readyToWork = false)
    (h : sh1.fSt.st.craftStat = updAt sh.fSt.st.craftStat c f) (i : Nat)
    (hi : craftReady sh i = false) : craftReady sh1 i = false := by
  unfold craftReady at hi ⊢
  rw [h, getElem?_updAt]
  by_cases hic : i = c
  · rw [if_pos hic]
    cases hx : sh.fSt.st.craftStat[i]? with
    | none => rfl
    | some x =>
      rw [hx] at hi
      exact hf x hi
  · rw [if_neg hic]; exact hi

/-- Customer flags are never set by an operation of the entrepreneur. -/
theorem execEntrep_custStat (op : EntrepOp) (sh : SHARED_DATA) :
    (execEntrep op sh).fSt.st.custStat = sh.fSt.st.custStat ∧
    (execEntrep op sh).fSt.st.craftStat = sh.fSt.st.craftStat := by
  cases op with
  | addressACustomer =>
    simp only [execEntrep, addressACustomer]
    split
    · exact ⟨rfl, rfl⟩
    · split <;> exact ⟨rfl, rfl⟩
  | visitSuppliers fuel oob =>
    simp only [execEntrep, visitSuppliers]
    rw [visitSuppliersLoop_fSt]
    exact visitSuppliersDeliver_st oob sh
  | _ => exact ⟨rfl, rfl⟩

/-- An operation of a customer writes no craftsman entry and sets no customer flag. -/
theorem execCust_flags (c : Nat) (op : CustOp) (sh : SHARED_DATA) (i : Nat) :
    (custReady sh i = false → custReady (execCust c op sh) i = false) ∧
    (execCust c op sh).fSt.st.craftStat = sh.fSt.st.craftStat := by
  cases op with
  | goShopping =>
    exact ⟨custReady_updAt_mono c (fun x => { x with stat := CHECKING_SHOP_DOOR_OPEN })
      (fun _ hx => hx) rfl i, rfl⟩
  | isDoorOpen => exact ⟨fun h => h, rfl⟩
  | tryAgainLater =>
    exact ⟨custReady_updAt_mono c (fun x => { x with stat := CARRYING_OUT_DAILY_CHORES })
      (fun _ hx => hx) rfl i, rfl⟩
  | enterShop =>
    exact ⟨custReady_updAt_mono c (fun x => { x with stat := APPRAISING_OFFER_IN_DISPLAY })
      (fun _ hx => hx) rfl i, rfl⟩
  | perusingAround val =>
    have hst : (perusingAround c val sh).sh.fSt.st = sh.fSt.st := by
      unfold perusingAround
      simp only
      split_ifs with h1 h2 h3
      · exact rfl
      · exact rfl
      · exact absurd rfl h3
      · exact rfl
    exact ⟨fun h => (custReady_congr (congrArg STAT.custStat hst) i).trans h,
      congrArg STAT.craftStat hst⟩
  | iWantThis nGoods =>
    refine ⟨fun h => ?_, rfl⟩
    have h1 : custReady (updCust sh c (fun x => { x with stat := BUYING_SOME_GOODS })) i = false :=
      custReady_updAt_mono c (fun x => { x with stat := BUYING_SOME_GOODS })
        (fun _ hx => hx) rfl i h
    exact custReady_updAt_mono c (fun x => { x with boughtPieces := uadd x.boughtPieces nGoods })
      (fun _ hx => hx) rfl i h1
  | exitShop =>
    exact ⟨custReady_updAt_mono c (fun x => { x with stat := CARRYING_OUT_DAILY_CHORES })
      (fun _ hx => hx) rfl i, rfl⟩
  | endOperCustomer =>
    have hst : (endOperCustomer c sh).sh = sh ∨ (endOperCustomer c sh).sh =
        updCust sh c (fun x => { x with readyToWork := false }) := by
      simp only [endOperCustomer]
      split_ifs
      · exact Or.inr rfl
      · exact Or.inl rfl
      · exact Or.inl rfl
    show (custReady sh i = false → custReady (endOperCustomer c sh).sh i = false) ∧
      (endOperCustomer c sh).sh.fSt.st.craftStat = sh.fSt.st.craftStat
    rcases hst with h | h
    · rw [h]; exact ⟨fun h => h, rfl⟩
    · rw [h]
      exact ⟨custReady_updAt_mono c (fun x => { x with readyToWork := false })
          (fun _ _ => rfl) rfl i, rfl⟩

/-- An operation of a craftsman writes no customer entry and sets no craftsman flag. -/
theorem execCraft_flags (m : Nat) (op : CraftOp) (sh : SHARED_DATA) (i : Nat) :
    (craftReady sh i = false → craftReady (execCraft m op sh) i = false) ∧
    (execCraft m op sh).fSt.st.custStat = sh.fSt.st.custStat := by
  cases op with
  | collectMaterials =>
    have hst : (collectMaterials m sh).sh.fSt.st = sh.fSt.st := by
      unfold collectMaterials
      split_ifs
      · exact rfl
      · exact rfl
    exact ⟨fun h => (craftReady_congr (congrArg STAT.craftStat hst) i).trans h,
      congrArg STAT.custStat hst⟩
  | primeMaterialsNeeded =>
    exact ⟨craftReady_updAt_mono m (fun x => { x with stat := CONTACTING_THE_ENTREPRENEUR })
      (fun _ hx => hx) rfl i, rfl⟩
  | backToWork =>
    exact ⟨craftReady_updAt_mono m (fun x => { x with stat := FETCHING_PRIME_MATERIALS })
      (fun _ hx => hx) rfl i, rfl⟩
  | prepareToProduce =>
    exact ⟨craftReady_updAt_mono m (fun x => { x with stat := PRODUCING_A_NEW_PIECE })
      (fun _ hx => hx) rfl i, rfl⟩
  | goToStore =>
    refine ⟨fun h => ?_, rfl⟩
    have h1 : craftReady (updCraft sh m (fun x => { x with stat := STORING_IT_FOR_TRANSFER })) i
        = false :=
      craftReady_updAt_mono m (fun x => { x with stat := STORING_IT_FOR_TRANSFER })
        (fun _ hx => hx) rfl i h
    exact craftReady_updAt_mono m (fun x => { x with prodPieces := uadd x.prodPieces 1 })
      (fun _ hx => hx) rfl i h1
  | batchReadyForTransfer =>
    exact ⟨craftReady_updAt_mono m (fun x => { x with stat := CONTACTING_THE_ENTREPRENEUR })
      (fun _ hx => hx) rfl i, rfl⟩
  | endOperCraftsman =>
    have hst : (endOperCraftsman m sh).sh.fSt.st = sh.fSt.st ∨
        (endOperCraftsman m sh).sh.fSt.st =
          (updCraft sh m (fun x => { x with readyToWork := false })).fSt.st := by
      simp only [endOperCraftsman]
      split_ifs
      all_goals first | exact Or.inl rfl | exact Or.inr rfl
    show (craftReady sh i = false → craftReady (endOperCraftsman m sh).sh i = false) ∧
      (endOperCraftsman m sh).sh.fSt.st.custStat = sh.fSt.st.custStat
    rcases hst with h | h
    · exact ⟨fun hi => (craftReady_congr (congrArg STAT.craftStat h) i).trans hi,
        congrArg STAT.custStat h⟩
    · exact ⟨craftReady_updAt_mono m (fun x => { x with readyToWork := false })
        (fun _ _ => rfl) (congrArg STAT.craftStat h) i, (congrArg STAT.custStat h).trans rfl⟩

/-- C9: monotone retirement. For every operation of every agent (whatever its arguments and
however it ends) and every index `i`: if `custStat[i].readyToWork` is false before the operation
it is false after it, and likewise for `craftStat[i].readyToWork`; no operation sets a flag. -/
theorem readyToWork_never_set (a : Action) (sh : SHARED_DATA) (i : Nat) :
    (custReady sh i = false → custReady (exec a sh) i = false) ∧
    (craftReady sh i = false → craftReady (exec a sh) i = false) := by
  cases a with
  | entrep op =>
    have h := execEntrep_custStat op sh
    exact ⟨fun hi => (custReady_congr h.1 i).trans hi, fun hi => (craftReady_congr h.2 i).trans hi⟩
  | cust c op =>
    have h := execCust_flags c op sh i
    exact ⟨h.1, fun hi => (craftReady_congr h.2 i).trans hi⟩
  | craft m op =>
    have h := execCraft_flags m op sh i
    exact ⟨fun hi => (custReady_congr h.2 i).trans hi, h.1⟩

/-- Witness of C9: customer 1, retired, stays retired when it goes shopping again, and
craftsman 0, retired, stays retired when it stores a product. -/
theorem readyToWork_never_set_witness :
    (custReady exCustomerRetired 1 = false ∧
      custReady (exec (.cust 1 .goShopping) exCustomerRetired) 1 = false) ∧
    (craftReady exLastCraftsman 0 = false ∧
      craftReady (exec (.craft 0 .goToStore) exLastCraftsman) 0 = false) :=
  ⟨⟨by decide, (readyToWork_never_set (.cust 1 .goShopping) exCustomerRetired 1).1 (by decide)⟩,
   ⟨by decide, (readyToWork_never_set (.craft 0 .goToStore) exLastCraftsman 0).2 (by decide)⟩⟩

/-! ## Product conservation -/
/-- Unsigned addition never exceeds the sum. -/
theorem uadd_le (a b : Nat) : uadd a b ≤ a + b := Nat.mod_le _ _

/-- Unsigned addition is the sum when the sum fits in a word. -/
theorem uadd_eq {a b : Nat} (h : a + b < UINT_MOD) : uadd a b = a + b := Nat.mod_eq_of_lt h

/-- Unsigned subtraction is the difference when there is no borrow. -/
theorem usub_eq {a b : Nat} (hb : b ≤ a) (ha : a < UINT_MOD) : usub a b = a - b := by
  unfold usub UINT_MOD at *
  split_ifs with h <;> omega

/-- The quantity picked up is at most two and at most the number of products on display. -/
theorem pickUp_le (val : Nat) (sh : SHARED_DATA) :
    pickUp val sh ≤ 2 ∧ pickUp val sh ≤ sh.fSt.shop.nProdIn := by
  unfold pickUp
  split_ifs with h1 h2
  · exact ⟨by omega, by omega⟩
  · have : sh.fSt.shop.nProdIn ≠ 0 := fun h => h1 (Or.inr h)
    exact ⟨by omega, by omega⟩
  · have h0 : sh.fSt.shop.nProdIn ≠ 0 := fun h => h1 (Or.inr h)
    have h1 : sh.fSt.shop.nProdIn ≠ 1 := fun h => h2 (Or.inr h)
    exact ⟨by omega, by omega⟩

/-- Sum of a field over an array after an assignment that raises the field by at most `d`. -/
theorem sum_map_updAt_le {α : Type} (g : α → Nat) (f : α → α) (d : Nat)
    (hf : ∀ x, g (f x) ≤ g x + d) (l : List α) (i : Nat) :
    ((updAt l i f).map g).sum ≤ (l.map g).sum + d := by
  induction l generalizing i with
  | nil => simp [updAt]
  | cons x xs ih =>
    cases i with
    | zero =>
      simp only [updAt, List.map_cons, List.sum_cons]
      have := hf x
      omega
    | succ i =>
      simp only [updAt, List.map_cons, List.sum_cons]
      have := ih i
      omega

/-- Sum of the pending goods after the local variables of customer `n` are replaced. -/
theorem sumPending_set (cust : List CustLocal) (n : Nat) (l x : CustLocal)
    (h : cust[n]? = some l) :
    sumPending (cust.set n x) + l.pending = sumPending cust + x.pending := by
  unfold sumPending
  induction cust generalizing n with
  | nil => simp at h
  | cons y ys ih =>
    cases n with
    | zero =>
      simp only [List.getElem?_cons_zero, Option.some.injEq] at h
      subst h
      simp only [List.set_cons_zero, List.map_cons, List.sum_cons]
      omega
    | succ n =>
      simp only [List.getElem?_cons_succ] at h
      have := ih n h
      simp only [List.set_cons_succ, List.map_cons, List.sum_cons]
      omega

/-- The stock is unchanged when the two product counts and the customer array are. -/
theorem stock_eq_of (sh sh1 : SHARED_DATA)
    (h1 : sh1.fSt.shop.nProdIn = sh.fSt.shop.nProdIn)
    (h2 : sh1.fSt.workShop.nProdIn = sh.fSt.workShop.nProdIn)
    (h3 : sh1.fSt.st.custStat = sh.fSt.st.custStat) : stock sh1 = stock sh := by
  unfold stock sumBought; rw [h1, h2, h3]

/-- The stock rises by at most `d` when the product counts are unchanged and one customer
entry is assigned with `boughtPieces` raised by at most `d`. -/
theorem stock_le_of (sh sh1 : SHARED_DATA) (c : Nat) (f : STAT_CUST → STAT_CUST) (d : Nat)
    (hf : ∀ x, (f x).boughtPieces ≤ x.boughtPieces + d)
    (h1 : sh1.fSt.shop.nProdIn = sh.fSt.shop.nProdIn)
    (h2 : sh1.fSt.workShop.nProdIn = sh.fSt.workShop.nProdIn)
    (h3 : sh1.fSt.st.custStat = updAt sh.fSt.st.custStat c f) : stock sh1 ≤ stock sh + d := by
  unfold stock sumBought; rw [h1, h2, h3]
  have := sum_map_updAt_le (fun x : STAT_CUST => x.boughtPieces) f d hf sh.fSt.st.custStat c
  omega

/-- The delivery part of `visitSuppliers` touches no product count. -/
theorem visitSuppliersDeliver_products (oob : Nat) (sh : SHARED_DATA) :
    (visitSuppliersDeliver oob sh).fSt.shop.nProdIn = sh.fSt.shop.nProdIn ∧
    (visitSuppliersDeliver oob sh).fSt.workShop.nProdIn = sh.fSt.workShop.nProdIn ∧
    (visitSuppliersDeliver oob sh).fSt.workShop.NTProd = sh.fSt.workShop.NTProd := by
  unfold visitSuppliersDeliver
  simp only
  split_ifs <;> exact ⟨rfl, rfl, rfl⟩

/-- No operation of the entrepreneur raises the stock or changes the number of pieces
produced. -/
theorem execEntrep_stock (op : EntrepOp) (sh : SHARED_DATA) :
    stock (execEntrep op sh) ≤ stock sh ∧
    (execEntrep op sh).fSt.workShop.NTProd = sh.fSt.workShop.NTProd := by
  cases op with
  | addressACustomer =>
    have h : (addressACustomer sh).sh.fSt.shop.nProdIn = sh.fSt.shop.nProdIn ∧
        (addressACustomer sh).sh.fSt.workShop = sh.fSt.workShop ∧
        (addressACustomer sh).sh.fSt.st.custStat = sh.fSt.st.custStat := by
      unfold addressACustomer
      simp only
      split_ifs <;> exact ⟨rfl, rfl, rfl⟩
    exact ⟨le_of_eq (stock_eq_of _ _ h.1 (congrArg WORKSHOPINFO.nProdIn h.2.1) h.2.2),
      congrArg WORKSHOPINFO.NTProd h.2.1⟩
  | visitSuppliers fuel oob =>
    have hl := visitSuppliersLoop_fSt fuel (visitSuppliersDeliver oob sh) [.down .access]
    have hd := visitSuppliersDeliver_products oob sh
    have hs := visitSuppliersDeliver_st oob sh
    have hfst : (execEntrep (.visitSuppliers fuel oob) sh).fSt = (visitSuppliersDeliver oob sh).fSt :=
      hl
    rw [stock_eq_of sh _ (by rw [hfst]; exact hd.1) (by rw [hfst]; exact hd.2.1)
      (by rw [hfst]; exact hs.1), hfst]
    exact ⟨le_refl _, hd.2.2⟩
  | goToWorkShop =>
    refine ⟨?_, rfl⟩
    show uadd sh.fSt.shop.nProdIn sh.fSt.workShop.nProdIn + 0 + sumBought sh ≤
      sh.fSt.shop.nProdIn + sh.fSt.workShop.nProdIn + sumBought sh
    have := uadd_le sh.fSt.shop.nProdIn sh.fSt.workShop.nProdIn
    omega
  | _ => exact ⟨le_of_eq (stock_eq_of _ _ rfl rfl rfl), rfl⟩

/-- Only `goToStore` raises the stock, by at most one, and it raises the number of pieces
produced by one (unsigned). -/
theorem execCraft_stock (m : Nat) (op : CraftOp) (sh : SHARED_DATA) :
    stock (execCraft m op sh) ≤ stock sh + (if op = .goToStore then 1 else 0) ∧
    (execCraft m op sh).fSt.workShop.NTProd =
      (if op = .goToStore then uadd sh.fSt.workShop.NTProd 1 else sh.fSt.workShop.NTProd) := by
  cases op with
  | collectMaterials =>
    have h : (collectMaterials m sh).sh.fSt.shop.nProdIn = sh.fSt.shop.nProdIn ∧
        (collectMaterials m sh).sh.fSt.workShop.nProdIn = sh.fSt.workShop.nProdIn ∧
        (collectMaterials m sh).sh.fSt.workShop.NTProd = sh.fSt.workShop.NTProd ∧
        (collectMaterials m sh).sh.fSt.st.custStat = sh.fSt.st.custStat := by
      unfold collectMaterials
      split_ifs <;> exact ⟨rfl, rfl, rfl, rfl⟩
    exact ⟨le_of_eq (stock_eq_of _ _ h.1 h.2.1 h.2.2.2), h.2.2.1⟩
  | endOperCraftsman =>
    have h : (endOperCraftsman m sh).sh.fSt.shop.nProdIn = sh.fSt.shop.nProdIn ∧
        (endOperCraftsman m sh).sh.fSt.workShop = sh.fSt.workShop ∧
        (endOperCraftsman m sh).sh.fSt.st.custStat = sh.fSt.st.custStat := by
      simp only [endOperCraftsman]
      split_ifs <;> exact ⟨rfl, rfl, rfl⟩
    exact ⟨le_of_eq (stock_eq_of _ _ h.1 (congrArg WORKSHOPINFO.nProdIn h.2.1) h.2.2),
      congrArg WORKSHOPINFO.NTProd h.2.1⟩
  | goToStore =>
    refine ⟨?_, rfl⟩
    show sh.fSt.shop.nProdIn + uadd sh.fSt.workShop.nProdIn 1 + sumBought sh ≤
      sh.fSt.shop.nProdIn + sh.fSt.workShop.nProdIn + sumBought sh + 1
    have := uadd_le sh.fSt.workShop.nProdIn 1
    omega
  | _ => exact ⟨le_of_eq (stock_eq_of _ _ rfl rfl rfl), rfl⟩

/-- The shared region left by `endOperCustomer`: untouched, or with the flag of the caller
cleared. -/
theorem endOperCustomer_sh (c : Nat) (sh : SHARED_DATA) :
    (endOperCustomer c sh).sh = sh ∨
    (endOperCustomer c sh).sh = updCust sh c (fun x => { x with readyToWork := false }) := by
  simp only [endOperCustomer]
  split_ifs
  · exact Or.inr rfl
  · exact Or.inl rfl
  · exact Or.inl rfl

/-- The shared region left by `perusingAround`: the products on display are decreased by the
quantity returned, which is at most the number on display; nothing else changes. -/
theorem perusingAround_spec (c val : Nat) (sh : SHARED_DATA) (h : sh.fSt.shop.nProdIn < UINT_MOD) :
    ∃ q, (perusingAround c val sh).out = .ret q ∧ q ≤ 2 ∧ q ≤ sh.fSt.shop.nProdIn ∧
      (perusingAround c val sh).sh.fSt.shop.nProdIn = sh.fSt.shop.nProdIn - q ∧
      (perusingAround c val sh).sh.fSt.workShop = sh.fSt.workShop ∧
      (perusingAround c val sh).sh.fSt.st = sh.fSt.st := by
  have hp := pickUp_le val sh
  unfold perusingAround
  simp only
  split_ifs with h1 h2 h3
  · exact ⟨pickUp val sh, rfl, hp.1, hp.2, usub_eq hp.2 h, rfl, rfl⟩
  · have h0 : pickUp val sh = 0 := by simpa using h2
    exact ⟨pickUp val sh, rfl, hp.1, hp.2, by rw [h0]; rfl, rfl, rfl⟩
  · exact absurd rfl h3
  · exact ⟨0, rfl, by omega, by omega, rfl, rfl, rfl⟩

/-- One operation of the life cycle of a customer does not raise the stock plus the goods the
customer holds, and does not change the number of pieces produced. -/
theorem custStep_stock (n val : Nat) (l : CustLocal) (sh : SHARED_DATA)
    (h : sh.fSt.shop.nProdIn < UINT_MOD) :
    stock (custStep n val l sh).2 + (custStep n val l sh).1.pending ≤ stock sh + l.pending ∧
    (custStep n val l sh).2.fSt.workShop.NTProd = sh.fSt.workShop.NTProd := by
  unfold custStep
  cases hpc : l.pc with
  | endOperCustomer =>
    have hpend : ∀ b : Bool, CustLocal.pending
        { l with pc := if b then CustPc.finished else CustPc.goShopping } = 0 := by
      intro b; cases b <;> rfl
    simp only [hpend]
    rcases endOperCustomer_sh n sh with he | he
    · rw [he]; exact ⟨by omega, rfl⟩
    · rw [he]
      have := stock_le_of sh
        (updCust sh n (fun x => { x with readyToWork := false })) n
        (fun x => { x with readyToWork := false }) 0 (fun _ => le_refl _) rfl rfl rfl
      exact ⟨by omega, rfl⟩
  | goShopping =>
    have := stock_le_of sh
      ((goShopping n sh).sh) n
      (fun x => { x with stat := CHECKING_SHOP_DOOR_OPEN }) 0 (fun _ => le_refl _) rfl rfl rfl
    have hp : CustLocal.pending { l with pc := CustPc.isDoorOpen } = 0 := rfl
    simp only [hp]
    exact ⟨by omega, rfl⟩
  | isDoorOpen =>
    have hpend : ∀ b : Bool, CustLocal.pending
        { l with pc := if b then CustPc.enterShop else CustPc.tryAgainLater } = 0 := by
      intro b; cases b <;> rfl
    simp only [hpend]
    exact ⟨by show stock sh + 0 ≤ _; omega, rfl⟩
  | tryAgainLater =>
    have := stock_le_of sh
      ((tryAgainLater n sh).sh) n
      (fun x => { x with stat := CARRYING_OUT_DAILY_CHORES }) 0 (fun _ => le_refl _) rfl rfl rfl
    have hp : CustLocal.pending { l with pc := CustPc.goShopping } = 0 := rfl
    simp only [hp]
    exact ⟨by omega, rfl⟩
  | enterShop =>
    have := stock_le_of sh
      ((enterShop n sh).sh) n
      (fun x => { x with stat := APPRAISING_OFFER_IN_DISPLAY }) 0 (fun _ => le_refl _) rfl rfl rfl
    have hp : CustLocal.pending { l with pc := CustPc.perusingAround } = 0 := rfl
    simp only [hp]
    exact ⟨by omega, rfl⟩
  | perusingAround =>
    obtain ⟨q, hout, _, hq, hshop, hws, hst⟩ := perusingAround_spec n val sh h
    have hv : (perusingAround n val sh).valD 0 = q := by
      unfold Run.valD; rw [hout]
    simp only [hv]
    have hp : CustLocal.pending
        { pc := if q ≠ 0 then CustPc.iWantThis else CustPc.exitShop, ng := q } = q := by
      unfold CustLocal.pending
      by_cases hq0 : q = 0
      · simp [hq0]
      · simp [hq0]
    rw [hp]
    refine ⟨?_, congrArg WORKSHOPINFO.NTProd hws⟩
    have : stock (perusingAround n val sh).sh = sh.fSt.shop.nProdIn - q +
        sh.fSt.workShop.nProdIn + sumBought sh := by
      unfold stock sumBought
      rw [hshop, hws, hst]
    rw [this]
    unfold stock
    omega
  | iWantThis =>
    have hl : l.pending = l.ng := by unfold CustLocal.pending; rw [hpc]; rfl
    have hp : CustLocal.pending { l with pc := CustPc.exitShop } = 0 := rfl
    simp only [hp]
    have h1 := stock_le_of sh
      (updCust sh n (fun x => { x with stat := BUYING_SOME_GOODS })) n
      (fun x => { x with stat := BUYING_SOME_GOODS }) 0 (fun _ => le_refl _) rfl rfl rfl
    have h2 := stock_le_of
      (updCust sh n (fun x => { x with stat := BUYING_SOME_GOODS }))
      (iWantThis n l.ng sh).sh n
      (fun x => { x with boughtPieces := uadd x.boughtPieces l.ng }) l.ng
      (fun x => uadd_le x.boughtPieces l.ng) rfl rfl rfl
    exact ⟨by omega, rfl⟩
  | exitShop =>
    have := stock_le_of sh
      ((exitShop n sh).sh) n
      (fun x => { x with stat := CARRYING_OUT_DAILY_CHORES }) 0 (fun _ => le_refl _) rfl rfl rfl
    have hp : CustLocal.pending { l with pc := CustPc.endOperCustomer } = 0 := rfl
    simp only [hp]
    exact ⟨by omega, rfl⟩
  | finished =>
    exact ⟨le_refl _, rfl⟩

/-- An event counts as a store exactly when it is a `goToStore` of a craftsman. -/
theorem isStore_craft (m : Nat) (op : CraftOp) :
    (Event.craft m op).isStore = decide (op = .goToStore) := by
  cases op <;> rfl

/-- Event of a customer whose local variables are `l`. -/
theorem step_cust_some (s : System) (n val : Nat) (l : CustLocal) (h : s.cust[n]? = some l) :
    s.step (.cust n val) =
      { sh := (custStep n val l s.sh).2, cust := s.cust.set n (custStep n val l s.sh).1 } := by
  simp only [System.step, h]

/-- Event of an identifier that is not a customer. -/
theorem step_cust_none (s : System) (n val : Nat) (h : s.cust[n]? = none) :
    s.step (.cust n val) = s := by
  simp only [System.step, h]

/-- One event preserves: stock plus pending goods is at most the number of pieces produced,
which is at most the number of `goToStore` executed so far (as long as that number fits in a
word). -/
theorem step_stock (s : System) (e : Event) (k : Nat)
    (hI : stock s.sh + sumPending s.cust ≤ s.sh.fSt.workShop.NTProd)
    (hK : s.sh.fSt.workShop.NTProd ≤ k)
    (hk : k + (if e.isStore then 1 else 0) < UINT_MOD) :
    stock (s.step e).sh + sumPending (s.step e).cust ≤ (s.step e).sh.fSt.workShop.NTProd ∧
    (s.step e).sh.fSt.workShop.NTProd ≤ k + (if e.isStore then 1 else 0) := by
  cases e with
  | cust n val =>
    have h0 : (Event.cust n val).isStore = false := rfl
    simp only [h0] at hk ⊢
    cases hl : s.cust[n]? with
    | none =>
      rw [step_cust_none s n val hl]
      exact ⟨hI, by simpa using hK⟩
    | some l =>
      rw [step_cust_some s n val l hl]
      simp only
      have hshop : s.sh.fSt.shop.nProdIn < UINT_MOD := by
        unfold stock at hI
        omega
      have hc := custStep_stock n val l s.sh hshop
      have hp := sumPending_set s.cust n l (custStep n val l s.sh).1 hl
      rw [hc.2]
      exact ⟨by omega, by simpa using hK⟩
  | entrep op =>
    have h0 : (Event.entrep op).isStore = false := rfl
    simp only [h0] at hk ⊢
    have hc := execEntrep_stock op s.sh
    show stock (execEntrep op s.sh) + sumPending s.cust ≤ (execEntrep op s.sh).fSt.workShop.NTProd ∧
      (execEntrep op s.sh).fSt.workShop.NTProd ≤ k + (if false = true then 1 else 0)
    rw [hc.2]
    exact ⟨by omega, by simpa using hK⟩
  | craft m op =>
    have hc := execCraft_stock m op s.sh
    rw [isStore_craft] at hk ⊢
    show stock (execCraft m op s.sh) + sumPending s.cust ≤ (execCraft m op s.sh).fSt.workShop.NTProd ∧
      (execCraft m op s.sh).fSt.workShop.NTProd ≤ k + (if decide (op = .goToStore) = true then 1 else 0)
    rw [hc.2]
    by_cases hop : op = .goToStore
    · simp only [hop, if_true, decide_True] at hc hk ⊢
      have hu : uadd s.sh.fSt.workShop.NTProd 1 = s.sh.fSt.workShop.NTProd + 1 :=
        uadd_eq (by omega)
      rw [hu]
      exact ⟨by omega, by omega⟩
    · simp only [hop, if_false, decide_False] at hc hk ⊢
      exact ⟨by omega, by simpa using hK⟩

/-- A sequence of events preserves: stock plus pending goods is at most the number of pieces
produced, itself at most the number of `goToStore` executed (as long as it fits in a word). -/
theorem run_stock (es : List Event) (s : System) (k : Nat)
    (hI : stock s.sh + sumPending s.cust ≤ s.sh.fSt.workShop.NTProd)
    (hK : s.sh.fSt.workShop.NTProd ≤ k)
    (hk : k + storeCount es < UINT_MOD) :
    stock (s.run es).sh + sumPending (s.run es).cust ≤ (s.run es).sh.fSt.workShop.NTProd ∧
    (s.run es).sh.fSt.workShop.NTProd ≤ k + storeCount es := by
  induction es generalizing s k with
  | nil => exact ⟨hI, hK⟩
  | cons e es ih =>
    have hcount : storeCount (e :: es) = (if e.isStore then 1 else 0) + storeCount es := by
      unfold storeCount
      rw [List.countP_cons]
      omega
    rw [hcount] at hk ⊢
    have hs := step_stock s e k hI hK (by omega)
    have := ih (s.step e) (k + (if e.isStore then 1 else 0)) hs.1 hs.2 (by omega)
    have hrun : s.run (e :: es) = (s.step e).run es := rfl
    rw [hrun]
    exact ⟨this.1, by omega⟩

/-- The initial system has no stock, no pending goods and no piece produced. -/
theorem initialSystem_stock (pm : List Nat) :
    stock (initialSystem pm).sh + sumPending (initialSystem pm).cust = 0 ∧
    (initialSystem pm).sh.fSt.workShop.NTProd = 0 := by
  refine ⟨?_, rfl⟩
  show 0 + 0 + (List.map (fun c : STAT_CUST => c.boughtPieces) (List.replicate N _)).sum +
    (List.map CustLocal.pending (List.replicate N _)).sum = 0
  simp [CustLocal.pending]

/-- C10: product bound. For every supply schedule `pm` and every sequence of operations in which
each customer follows its life cycle (so that `iWantThis (n, ng)` is executed only with the `ng`
just returned by that customer's `perusingAround`) while the entrepreneur and the craftsmen
execute any of their operations in any order, the state reached from the initial state
satisfies `shop.nProdIn + workShop.nProdIn + sum of boughtPieces <= workShop.NTProd`; the
sequence may be empty (initial state). The counter `NTProd` is a 32-bit word: the sequence is
taken to contain fewer than `2^32` executions of `goToStore`. -/
theorem productsBound_reachable (pm : List Nat) (es : List Event)
    (h : storeCount es < UINT_MOD) :
    productsBound ((initialSystem pm).run es).sh := by
  have h0 := initialSystem_stock pm
  have := run_stock es (initialSystem pm) 0 (by omega) (by omega) (by omega)
  unfold productsBound
  unfold stock at this
  omega

/-- Witness of C10: the bound after the sample run, in which customer 1 still holds one product
not yet recorded as bought. -/
theorem productsBound_reachable_witness :
    storeCount exEvents < UINT_MOD ∧
    productsBound ((initialSystem [5, 5, 5, 6]).run exEvents).sh :=
  ⟨by decide, productsBound_reachable [5, 5, 5, 6] exEvents (by decide)⟩

/-! ## Single operations: effect and frame -/

/-- C13: frame of `goToWorkShop`. From a state with `shop.nProdIn = d` and
`workShop.nProdIn = s` (the sum fitting in a 32-bit word) the operation returns, having entered
and left the critical region, with `shop.nProdIn = d + s`, `workShop.nProdIn = 0`,
`shop.prodTransfer = false` and `entrepStat = COLLECTING_A_BATCH_OF_PRODUCTS`, every other field
of the shared region being as before; the total `shop.nProdIn + workShop.nProdIn` is
unchanged. -/
theorem goToWorkShop_frame (sh : SHARED_DATA)
    (h : sh.fSt.shop.nProdIn + sh.fSt.workShop.nProdIn < UINT_MOD) :
    goToWorkShop sh =
      { sh := { sh with
                fSt.st.entrepStat := COLLECTING_A_BATCH_OF_PRODUCTS,
                fSt.shop.nProdIn := sh.fSt.shop.nProdIn + sh.fSt.workShop.nProdIn,
                fSt.shop.prodTransfer := false,
                fSt.workShop.nProdIn := 0 },
        tr := [.down .access, .up .access], out := .ret () } ∧
    (goToWorkShop sh).sh.fSt.shop.nProdIn + (goToWorkShop sh).sh.fSt.workShop.nProdIn =
      sh.fSt.shop.nProdIn + sh.fSt.workShop.nProdIn := by
  have hu : uadd sh.fSt.shop.nProdIn sh.fSt.workShop.nProdIn =
      sh.fSt.shop.nProdIn + sh.fSt.workShop.nProdIn := uadd_eq h
  have hrun : goToWorkShop sh =
      { sh := { sh with
                fSt.st.entrepStat := COLLECTING_A_BATCH_OF_PRODUCTS,
                fSt.shop.nProdIn := sh.fSt.shop.nProdIn + sh.fSt.workShop.nProdIn,
                fSt.shop.prodTransfer := false,
                fSt.workShop.nProdIn := 0 },
        tr := [.down .access, .up .access], out := .ret () } := by
    unfold goToWorkShop
    simp only [hu]
  refine ⟨hrun, ?_⟩
  rw [hrun]
  show sh.fSt.shop.nProdIn + sh.fSt.workShop.nProdIn + 0 = _
  omega

/-- C14: `collectMaterials` with prime materials available. When `workShop.nPMatIn > 0` on entry
the craftsman does not park (no `down` on `waitForMaterials`, the call returns), `nCraftsmenBlk`
and every field other than `nPMatIn` are unchanged, `nPMatIn` is decreased by `PP` (the code
decrements by one, and `PP = 1`), and the value returned is
`(NSPMat <= NP) && (nPMatIn_after <= PMIN)`. -/
theorem collectMaterials_available (craftId : Nat) (sh : SHARED_DATA)
    (h0 : 0 < sh.fSt.workShop.nPMatIn) (hw : sh.fSt.workShop.nPMatIn < UINT_MOD) :
    collectMaterials craftId sh =
      { sh := { sh with fSt.workShop.nPMatIn := sh.fSt.workShop.nPMatIn - PP },
        tr := [.down .access, .up .access],
        out := .ret (decide (sh.fSt.workShop.NSPMat ≤ NP) &&
          decide (sh.fSt.workShop.nPMatIn - PP ≤ PMIN)) } ∧
    (collectMaterials craftId sh).sh.nCraftsmenBlk = sh.nCraftsmenBlk ∧
    downs .waitForMaterials (collectMaterials craftId sh).tr = 0 := by
  have hne : ¬ sh.fSt.workShop.nPMatIn = 0 := by omega
  have hu : usub sh.fSt.workShop.nPMatIn 1 = sh.fSt.workShop.nPMatIn - PP :=
    usub_eq (by omega) hw
  have hrun : collectMaterials craftId sh =
      { sh := { sh with fSt.workShop.nPMatIn := sh.fSt.workShop.nPMatIn - PP },
        tr := [.down .access, .up .access],
        out := .ret (decide (sh.fSt.workShop.NSPMat ≤ NP) &&
          decide (sh.fSt.workShop.nPMatIn - PP ≤ PMIN)) } := by
    unfold collectMaterials
    simp only [if_neg hne, hu]
  refine ⟨hrun, ?_, ?_⟩
  · rw [hrun]
  · rw [hrun]
    show downs .waitForMaterials [.down .access, .up .access] = 0
    decide

/-- C18: frame of `sayGoodByeToCustomer`. The operation enters the critical region, performs one
`up` on `waitForService[custId]` and leaves the region; it performs no `up` or `down` on the
semaphore of another customer `j`, on `proceed` or on `waitForMaterials`; it sets `entrepStat`
to `WAITING_FOR_NEXT_TASK` and changes no other field of the shared region. -/
theorem sayGoodByeToCustomer_frame (custId : Nat) (sh : SHARED_DATA) (j : Nat) :
    sayGoodByeToCustomer custId sh =
      { sh := { sh with fSt.st.entrepStat := WAITING_FOR_NEXT_TASK },
        tr := [.down .access, .up (.waitForService custId), .up .access], out := .ret () } ∧
    ups (.waitForService j) (sayGoodByeToCustomer custId sh).tr = (if j = custId then 1 else 0) ∧
    downs (.waitForService j) (sayGoodByeToCustomer custId sh).tr = 0 ∧
    ups .proceed (sayGoodByeToCustomer custId sh).tr = 0 ∧
    downs .proceed (sayGoodByeToCustomer custId sh).tr = 0 ∧
    ups .waitForMaterials (sayGoodByeToCustomer custId sh).tr = 0 ∧
    downs .waitForMaterials (sayGoodByeToCustomer custId sh).tr = 0 := by
  refine ⟨rfl, ?_, ?_, ?_, ?_, ?_, ?_⟩
  · show ups (.waitForService j) [.down .access, .up (.waitForService custId), .up .access] = _
    by_cases h : j = custId
    · subst h; simp [ups]
    · have h2 : ¬ custId = j := fun e => h e.symm
      simp [ups, h, h2]
  all_goals
    simp [ups, downs, sayGoodByeToCustomer]

/-- Two successive assignments to cell `i`, which holds `c`. -/
theorem updAt_updAt_of_getElem? {α : Type} (f g : α → α) (l : List α) (i : Nat) (c : α)
    (h : l[i]? = some c) : updAt (updAt l i f) i g = l.set i (g (f c)) := by
  induction l generalizing i with
  | nil => simp at h
  | cons x xs ih =>
    cases i with
    | zero =>
      simp only [List.getElem?_cons_zero, Option.some.injEq] at h
      subst h
      rfl
    | succ i =>
      simp only [List.getElem?_cons_succ] at h
      simp only [updAt, List.set_cons_succ, ih i h]

/-- C15: `goToStore craftId`, for a craftsman entry `c = craftStat[craftId]` and counters that
do not wrap: `craftStat[craftId].prodPieces`, `workShop.nProdIn` and `workShop.NTProd` are each
increased by one, `craftStat[craftId].stat` becomes `STORING_IT_FOR_TRANSFER`, nothing else
changes, and the value returned is the new `workShop.nProdIn`, the old value plus one. -/
theorem goToStore_spec (craftId : Nat) (sh : SHARED_DATA) (c : STAT_CRAFT)
    (hc : sh.fSt.st.craftStat[craftId]? = some c)
    (hp : c.prodPieces + 1 < UINT_MOD)
    (hs : sh.fSt.workShop.nProdIn + 1 < UINT_MOD)
    (ht : sh.fSt.workShop.NTProd + 1 < UINT_MOD) :
    goToStore craftId sh =
      { sh := { sh with
                fSt.st.craftStat := sh.fSt.st.craftStat.set craftId
                  { stat := STORING_IT_FOR_TRANSFER, prodPieces := c.prodPieces + 1,
                    readyToWork := c.readyToWork },
                fSt.workShop.nProdIn := sh.fSt.workShop.nProdIn + 1,
                fSt.workShop.NTProd := sh.fSt.workShop.NTProd + 1 },
        tr := [.down .access, .up .access],
        out := .ret (sh.fSt.workShop.nProdIn + 1) } := by
  have h1 : uadd c.prodPieces 1 = c.prodPieces + 1 := uadd_eq hp
  have h2 : uadd sh.fSt.workShop.nProdIn 1 = sh.fSt.workShop.nProdIn + 1 := uadd_eq hs
  have h3 : uadd sh.fSt.workShop.NTProd 1 = sh.fSt.workShop.NTProd + 1 := uadd_eq ht
  have hl := updAt_updAt_of_getElem?
    (fun x : STAT_CRAFT => { x with stat := STORING_IT_FOR_TRANSFER })
    (fun x : STAT_CRAFT => { x with prodPieces := uadd x.prodPieces 1 })
    sh.fSt.st.craftStat craftId c hc
  unfold goToStore updCraft
  simp only [hl, h1, h2, h3]

/-- C17: `addressACustomer` ends the process (inside the critical region, `access` not
released) exactly when the service queue is empty on entry or the identifier taken out of the
queue is `>= N`; in every other case it takes that identifier out of the queue, sets
`entrepStat` to `ATTENDING_A_CUSTOMER`, changes nothing else, leaves the critical region and
returns the identifier, which is `< N`. -/
theorem addressACustomer_spec (sh : SHARED_DATA) :
    if queueEmpty sh.fSt.shop.queue = true ∨ N ≤ (queueOut sh.fSt.shop.queue).2 then
      (addressACustomer sh).out = .fatal ∧ ups .access (addressACustomer sh).tr = 0
    else
      (addressACustomer sh).out = .ret (queueOut sh.fSt.shop.queue).2 ∧
      (queueOut sh.fSt.shop.queue).2 < N ∧
      (addressACustomer sh).sh =
        { sh with fSt.st.entrepStat := ATTENDING_A_CUSTOMER,
                  fSt.shop.queue := (queueOut sh.fSt.shop.queue).1 } ∧
      (addressACustomer sh).tr = [.down .access, .up .access] := by
  by_cases he : queueEmpty sh.fSt.shop.queue = true
  · have hrun : addressACustomer sh =
        { sh := { sh with fSt.st.entrepStat := ATTENDING_A_CUSTOMER },
          tr := [.down .access], out := .fatal } := by
      unfold addressACustomer
      simp only [he, if_true]
    rw [if_pos (Or.inl he), hrun]
    refine ⟨rfl, ?_⟩
    show ups .access [.down .access] = 0
    decide
  · by_cases hn : N ≤ (queueOut sh.fSt.shop.queue).2
    · have hrun : addressACustomer sh =
          { sh := { sh with fSt.st.entrepStat := ATTENDING_A_CUSTOMER,
                            fSt.shop.queue := (queueOut sh.fSt.shop.queue).1 },
            tr := [.down .access], out := .fatal } := by
        unfold addressACustomer
        simp only [he, ge_iff_le, hn, if_true]
        rfl
      rw [if_pos (Or.inr hn), hrun]
      refine ⟨rfl, ?_⟩
      show ups .access [.down .access] = 0
      decide
    · have hor : ¬ (queueEmpty sh.fSt.shop.queue = true ∨ N ≤ (queueOut sh.fSt.shop.queue).2) :=
        fun h => h.elim he hn
      have hrun : addressACustomer sh =
          { sh := { sh with fSt.st.entrepStat := ATTENDING_A_CUSTOMER,
                            fSt.shop.queue := (queueOut sh.fSt.shop.queue).1 },
            tr := [.down .access, .up .access], out := .ret (queueOut sh.fSt.shop.queue).2 } := by
        unfold addressACustomer
        simp only [he, ge_iff_le, hn]
        rfl
      rw [if_neg hor, hrun]
      exact ⟨rfl, by omega, rfl, rfl⟩

/-- Witness of C13: three products on display and two in the storeroom become five on
display. -/
theorem goToWorkShop_frame_witness :
    (goToWorkShop exLastCraftsman).sh.fSt.shop.nProdIn = 5 ∧
    (goToWorkShop exLastCraftsman).sh.fSt.workShop.nProdIn = 0 ∧
    (goToWorkShop exLastCraftsman).sh.fSt.shop.nProdIn +
        (goToWorkShop exLastCraftsman).sh.fSt.workShop.nProdIn =
      exLastCraftsman.fSt.shop.nProdIn + exLastCraftsman.fSt.workShop.nProdIn :=
  ⟨by decide, by decide, (goToWorkShop_frame exLastCraftsman (by decide)).2⟩

/-- Witness of C14: with two units of prime materials left after the last delivery the call
returns true (one unit left, below `PMIN`). -/
theorem collectMaterials_available_witness :
    (collectMaterials 0 exLastDelivered).out = .ret true ∧
    (collectMaterials 0 exLastDelivered).sh.nCraftsmenBlk = exLastDelivered.nCraftsmenBlk ∧
    downs .waitForMaterials (collectMaterials 0 exLastDelivered).tr = 0 :=
  ⟨by decide, (collectMaterials_available 0 exLastDelivered (by decide) (by decide)).2⟩

/-- Witness of C15: the first product stored by craftsman 0. -/
theorem goToStore_spec_witness :
    (goToStore 0 exInitial).out = .ret 1 ∧
    goToStore 0 exInitial =
      { sh := { exInitial with
                fSt.st.craftStat := exInitial.fSt.st.craftStat.set 0
                  { stat := STORING_IT_FOR_TRANSFER, prodPieces := 0 + 1, readyToWork := true },
                fSt.workShop.nProdIn := exInitial.fSt.workShop.nProdIn + 1,
                fSt.workShop.NTProd := exInitial.fSt.workShop.NTProd + 1 },
        tr := [.down .access, .up .access],
        out := .ret (exInitial.fSt.workShop.nProdIn + 1) } :=
  ⟨by decide,
   goToStore_spec 0 exInitial
     { stat := FETCHING_PRIME_MATERIALS, prodPieces := 0, readyToWork := true }
     (by decide) (by decide) (by decide) (by decide)⟩

/-! ## Life cycle of the craftsmen -/

/-- `goToStore` returns in every state, with the new storeroom count (unsigned). -/
theorem goToStore_out (m : Nat) (sh : SHARED_DATA) :
    (goToStore m sh).out = .ret (uadd sh.fSt.workShop.nProdIn 1) := rfl

/-- The position reached by a craftsman that executes `collectMaterials`. -/
theorem craftStep_collectMaterials_pc (m : Nat) (l : CraftLocal) (sh : SHARED_DATA)
    (hpc : l.pc = .collectMaterials) :
    (craftStep m l sh).1.pc ≠ .batchReadyForTransfer := by
  unfold craftStep
  rw [hpc]
  simp only
  unfold collectMaterials
  split_ifs with h
  · simp only [hpc]
    decide
  · simp only
    split_ifs <;> decide

/-- C16: capacity trigger, not hard cap. In the life cycle of a craftsman the position
`batchReadyForTransfer` is reached exactly from `goToStore` with a returned storeroom count
`np >= MAX` (in particular `np = MAX`); the operation executed there is `batchReadyForTransfer`,
which sets `shop.prodTransfer`. `goToStore` has no failure branch: it returns the old storeroom
count plus one whatever that count is, also when it is already `>= MAX` (the count fitting in a
32-bit word). -/
theorem batchReady_after_goToStore (m : Nat) (l : CraftLocal) (sh : SHARED_DATA)
    (hw : sh.fSt.workShop.nProdIn + 1 < UINT_MOD) :
    ((craftStep m l sh).1.pc = .batchReadyForTransfer ↔
      (l.pc = .goToStore ∧ MAX ≤ sh.fSt.workShop.nProdIn + 1)) ∧
    (goToStore m sh).out = .ret (sh.fSt.workShop.nProdIn + 1) ∧
    (craftStep m { l with pc := .goToStore } sh).2 = (goToStore m sh).sh ∧
    (craftStep m { l with pc := .goToStore } sh).1.np = sh.fSt.workShop.nProdIn + 1 ∧
    (craftStep m { l with pc := .batchReadyForTransfer } sh).2 =
      (batchReadyForTransfer m sh).sh ∧
    (batchReadyForTransfer m sh).sh.fSt.shop.prodTransfer = true := by
  have hu : uadd sh.fSt.workShop.nProdIn 1 = sh.fSt.workShop.nProdIn + 1 := uadd_eq hw
  have hout : (goToStore m sh).out = .ret (sh.fSt.workShop.nProdIn + 1) := by
    rw [goToStore_out, hu]
  have hv : ∀ d, (goToStore m sh).valD d = sh.fSt.workShop.nProdIn + 1 := by
    intro d; unfold Run.valD; rw [hout]
  refine ⟨?_, hout, rfl, hv l.np, rfl, rfl⟩
  cases hpc : l.pc with
  | collectMaterials =>
    have := craftStep_collectMaterials_pc m l sh hpc
    simp [this]
  | goToStore =>
    unfold craftStep
    simp only [hpc, hv, ge_iff_le, true_and]
    split_ifs with h
    · simp [h]
    · simp [h]
  | endOperCraftsman =>
    unfold craftStep
    simp only [hpc]
    split_ifs <;> simp
  | _ =>
    unfold craftStep
    simp [hpc]


/-- Witness of C16: the fourth product brings the storeroom to `MAX` and the craftsman goes on to
`batchReadyForTransfer`; a fifth product is stored all the same and returns 5. -/
theorem batchReady_after_goToStore_witness :
    ((craftStep 0 { pc := .goToStore, alert := false, np := 0 } exStoreroom3).1.pc =
        .batchReadyForTransfer ↔
      ((CraftLocal.mk .goToStore false 0).pc = .goToStore ∧
        MAX ≤ exStoreroom3.fSt.workShop.nProdIn + 1)) ∧
    (goToStore 0 exStoreroom3).out = .ret MAX ∧
    (goToStore 1 exStoreroom4).out = .ret (MAX + 1) :=
  ⟨(batchReady_after_goToStore 0 { pc := .goToStore, alert := false, np := 0 } exStoreroom3
      (by decide)).1,
   by decide, by decide⟩

/-! ## Materials conservation -/

/-- Unsigned subtraction is subtraction modulo `2^32`. -/
theorem usub_add_mod (a b : Nat) : (usub a b + b) % UINT_MOD = a % UINT_MOD := by
  unfold usub UINT_MOD
  split_ifs with h <;> omega

/-- Unsigned addition is addition modulo `2^32`. -/
theorem uadd_mod (a b : Nat) : uadd a b % UINT_MOD = (a + b) % UINT_MOD := by
  unfold uadd UINT_MOD
  omega

/-- The delivery part of `visitSuppliers` adds one and the same amount (possibly none) to the
prime materials in the workshop and to the total supplied. -/
theorem visitSuppliersDeliver_materials (oob : Nat) (sh : SHARED_DATA) :
    ∃ d, (visitSuppliersDeliver oob sh).fSt.workShop.nPMatIn % UINT_MOD =
        (sh.fSt.workShop.nPMatIn + d) % UINT_MOD ∧
      (visitSuppliersDeliver oob sh).fSt.workShop.NTPMat % UINT_MOD =
        (sh.fSt.workShop.NTPMat + d) % UINT_MOD := by
  unfold visitSuppliersDeliver
  simp only
  split_ifs
  · exact ⟨primeMaterialsAt sh oob sh.fSt.workShop.NSPMat, uadd_mod _ _, uadd_mod _ _⟩
  · exact ⟨0, rfl, rfl⟩

/-- No operation of a customer touches the workshop. -/
theorem execCust_workShop (c : Nat) (op : CustOp) (sh : SHARED_DATA) :
    (execCust c op sh).fSt.workShop = sh.fSt.workShop := by
  cases op with
  | perusingAround val =>
    show (perusingAround c val sh).sh.fSt.workShop = sh.fSt.workShop
    unfold perusingAround
    simp only
    split_ifs <;> rfl
  | endOperCustomer =>
    rcases endOperCustomer_sh c sh with h | h
    · show (endOperCustomer c sh).sh.fSt.workShop = _
      rw [h]
    · show (endOperCustomer c sh).sh.fSt.workShop = _
      rw [h]; rfl
  | _ => rfl

/-- Effect of one operation on the three material counters, modulo `2^32`: a delivery adds the
same amount `d` to `nPMatIn` and `NTPMat`, a `collectMaterials` that does not park takes one
unit from `nPMatIn`, a `goToStore` adds one to `NTProd`. -/
theorem exec_materials (a : Action) (sh : SHARED_DATA) :
    ∃ d, ((exec a sh).fSt.workShop.nPMatIn + (if isTake a sh then 1 else 0)) % UINT_MOD =
        (sh.fSt.workShop.nPMatIn + d) % UINT_MOD ∧
      (exec a sh).fSt.workShop.NTPMat % UINT_MOD = (sh.fSt.workShop.NTPMat + d) % UINT_MOD ∧
      (exec a sh).fSt.workShop.NTProd % UINT_MOD =
        (sh.fSt.workShop.NTProd + (if a.isStore then 1 else 0)) % UINT_MOD := by
  cases a with
  | cust c op =>
    have h := execCust_workShop c op sh
    refine ⟨0, ?_, ?_, ?_⟩
    · show ((execCust c op sh).fSt.workShop.nPMatIn + 0) % _ = _
      rw [h]
    · show (execCust c op sh).fSt.workShop.NTPMat % _ = _
      rw [h]; rfl
    · show (execCust c op sh).fSt.workShop.NTProd % _ = (_ + 0) % _
      rw [h]; rfl
  | entrep op =>
    cases op with
    | visitSuppliers fuel oob =>
      have hl := visitSuppliersLoop_fSt fuel (visitSuppliersDeliver oob sh) [.down .access]
      have hfst : (exec (.entrep (.visitSuppliers fuel oob)) sh).fSt =
          (visitSuppliersDeliver oob sh).fSt := hl
      obtain ⟨d, h1, h2⟩ := visitSuppliersDeliver_materials oob sh
      have h3 := (visitSuppliersDeliver_products oob sh).2.2
      refine ⟨d, ?_, ?_, ?_⟩
      · rw [hfst]; exact h1
      · rw [hfst]; exact h2
      · rw [hfst, h3]; rfl
    | addressACustomer =>
      have h : (addressACustomer sh).sh.fSt.workShop = sh.fSt.workShop := by
        unfold addressACustomer
        simp only
        split_ifs <;> rfl
      refine ⟨0, ?_, ?_, ?_⟩
      · show ((addressACustomer sh).sh.fSt.workShop.nPMatIn + 0) % _ = _
        rw [h]
      · show (addressACustomer sh).sh.fSt.workShop.NTPMat % _ = _
        rw [h]; rfl
      · show (addressACustomer sh).sh.fSt.workShop.NTProd % _ = (_ + 0) % _
        rw [h]; rfl
    | _ => exact ⟨0, rfl, rfl, rfl⟩
  | craft m op =>
    cases op with
    | collectMaterials =>
      by_cases h0 : sh.fSt.workShop.nPMatIn = 0
      · have hrun : (collectMaterials m sh).sh =
            { sh with nCraftsmenBlk := uadd sh.nCraftsmenBlk 1 } := by
          unfold collectMaterials; rw [if_pos h0]
        have ht : isTake (.craft m .collectMaterials) sh = false := by
          simp [isTake, h0]
        refine ⟨0, ?_, ?_, ?_⟩
        · show ((collectMaterials m sh).sh.fSt.workShop.nPMatIn + _) % _ = _
          rw [hrun, ht]; rfl
        · show (collectMaterials m sh).sh.fSt.workShop.NTPMat % _ = _
          rw [hrun]; rfl
        · show (collectMaterials m sh).sh.fSt.workShop.NTProd % _ = _
          rw [hrun]; rfl
      · have hrun : (collectMaterials m sh).sh =
            { sh with fSt.workShop.nPMatIn := usub sh.fSt.workShop.nPMatIn 1 } := by
          unfold collectMaterials; rw [if_neg h0]
        have ht : isTake (.craft m .collectMaterials) sh = true := by
          simp [isTake, h0]
        refine ⟨0, ?_, ?_, ?_⟩
        · show ((collectMaterials m sh).sh.fSt.workShop.nPMatIn + _) % _ = _
          rw [hrun, ht]
          exact usub_add_mod _ 1
        · show (collectMaterials m sh).sh.fSt.workShop.NTPMat % _ = _
          rw [hrun]; rfl
        · show (collectMaterials m sh).sh.fSt.workShop.NTProd % _ = _
          rw [hrun]; rfl
    | goToStore =>
      refine ⟨0, rfl, rfl, ?_⟩
      exact uadd_mod _ 1
    | endOperCraftsman =>
      have h : (endOperCraftsman m sh).sh.fSt.workShop = sh.fSt.workShop := by
        simp only [endOperCraftsman]
        split_ifs <;> rfl
      refine ⟨0, ?_, ?_, ?_⟩
      · show ((endOperCraftsman m sh).sh.fSt.workShop.nPMatIn + 0) % _ = _
        rw [h]
      · show (endOperCraftsman m sh).sh.fSt.workShop.NTPMat % _ = _
        rw [h]; rfl
      · show (endOperCraftsman m sh).sh.fSt.workShop.NTProd % _ = (_ + 0) % _
        rw [h]; rfl
    | _ => exact ⟨0, rfl, rfl, rfl⟩

/-- Along a run the prime materials in the workshop plus the units taken by the craftsmen make
up the total supplied, and `NTProd` counts the `goToStore`, modulo `2^32`. -/
theorem runActions_materials (as : List Action) (sh : SHARED_DATA) (t k : Nat)
    (hA : (sh.fSt.workShop.nPMatIn + t) % UINT_MOD = sh.fSt.workShop.NTPMat % UINT_MOD)
    (hB : sh.fSt.workShop.NTProd % UINT_MOD = k % UINT_MOD) :
    ((runActions sh as).fSt.workShop.nPMatIn + (t + takenCount sh as)) % UINT_MOD =
      (runActions sh as).fSt.workShop.NTPMat % UINT_MOD ∧
    (runActions sh as).fSt.workShop.NTProd % UINT_MOD = (k + storedCount as) % UINT_MOD := by
  induction as generalizing sh t k with
  | nil => exact ⟨hA, hB⟩
  | cons a as ih =>
    obtain ⟨d, h1, h2, h3⟩ := exec_materials a sh
    have hrun : runActions sh (a :: as) = runActions (exec a sh) as := rfl
    have htk : takenCount sh (a :: as) =
        (if isTake a sh then 1 else 0) + takenCount (exec a sh) as := rfl
    have hst : storedCount (a :: as) = (if a.isStore then 1 else 0) + storedCount as := by
      unfold storedCount
      rw [List.countP_cons]
      omega
    have := ih (exec a sh) (t + (if isTake a sh then 1 else 0))
      (k + (if a.isStore then 1 else 0))
      (by unfold UINT_MOD at *; omega) (by unfold UINT_MOD at *; omega)
    rw [hrun, htk, hst]
    refine ⟨?_, ?_⟩
    · rw [← this.1]; congr 1; omega
    · rw [this.2]; congr 1; omega

/-- C12 (amended): materials account. For every supply schedule and every sequence of operations
of the agents from the initial state, modulo `2^32`: `workShop.nPMatIn` plus `PP` per
`collectMaterials` in which a craftsman took his materials equals `workShop.NTPMat`, and
`workShop.NTProd` is the number of `goToStore` executed; hence
`nPMatIn = NTPMat - PP * NTProd` (unsigned) whenever every craftsman that took materials has
stored its product, and `nPMatIn` is short of it by `PP` per craftsman in between. -/
theorem materials_account (pm : List Nat) (as : List Action) :
    ((runActions (initialState pm) as).fSt.workShop.nPMatIn +
        PP * takenCount (initialState pm) as) % UINT_MOD =
      (runActions (initialState pm) as).fSt.workShop.NTPMat % UINT_MOD ∧
    (runActions (initialState pm) as).fSt.workShop.NTProd % UINT_MOD =
      storedCount as % UINT_MOD ∧
    (takenCount (initialState pm) as = storedCount as →
      (runActions (initialState pm) as).fSt.workShop.nPMatIn % UINT_MOD =
        usub (runActions (initialState pm) as).fSt.workShop.NTPMat
          (umul PP (runActions (initialState pm) as).fSt.workShop.NTProd)) := by
  have h := runActions_materials as (initialState pm) 0 0 rfl rfl
  have hpp : PP = 1 := rfl
  simp only [Nat.zero_add] at h
  rw [hpp, Nat.one_mul]
  refine ⟨h.1, h.2, ?_⟩
  intro heq
  rw [heq] at h
  have h1 := h.1
  have h2 := h.2
  unfold usub umul
  unfold UINT_MOD at *
  simp only [Nat.one_mul]
  split_ifs with hc <;> omega


/-- C12 (counterexample): the initial state satisfies `nPMatIn = NTPMat - PP * NTProd`
(5 = 5 - 0); `collectMaterials 0` returns, having left the critical region, with
`nPMatIn = 4` while `NTPMat - PP * NTProd` is still 5. -/
theorem collectMaterials_breaks_materials_equality :
    (exInitial.fSt.workShop.nPMatIn : Int) =
      exInitial.fSt.workShop.NTPMat - PP * exInitial.fSt.workShop.NTProd ∧
    (collectMaterials 0 exInitial).out = .ret false ∧
    (collectMaterials 0 exInitial).tr = [.down .access, .up .access] ∧
    ¬ ((collectMaterials 0 exInitial).sh.fSt.workShop.nPMatIn : Int) =
      (collectMaterials 0 exInitial).sh.fSt.workShop.NTPMat -
        PP * (collectMaterials 0 exInitial).sh.fSt.workShop.NTProd := by
  decide

/-- Witness of C12: after the sample run in which two craftsmen took materials and both stored
their product, and a delivery was made, the equality holds. -/
theorem materials_account_witness :
    takenCount (initialState [5, 5, 5, 6]) exActionsStored = storedCount exActionsStored ∧
    (runActions (initialState [5, 5, 5, 6]) exActionsStored).fSt.workShop.nPMatIn % UINT_MOD =
      usub (runActions (initialState [5, 5, 5, 6]) exActionsStored).fSt.workShop.NTPMat
        (umul PP (runActions (initialState [5, 5, 5, 6]) exActionsStored).fSt.workShop.NTProd) :=
  ⟨by decide, (materials_account [5, 5, 5, 6] exActionsStored).2.2 (by decide)⟩

/-! ## Product conservation: the exact account -/

/-- Sum of a field over an array after cell `i`, which holds `x`, is replaced by `y`. -/
theorem sum_map_set {α : Type} (g : α → Nat) (l : List α) (i : Nat) (x y : α)
    (h : l[i]? = some x) : ((l.set i y).map g).sum + g x = (l.map g).sum + g y := by
  induction l generalizing i with
  | nil => simp at h
  | cons z zs ih =>
    cases i with
    | zero =>
      simp only [List.getElem?_cons_zero, Option.some.injEq] at h
      subst h
      simp only [List.set_cons_zero, List.map_cons, List.sum_cons]
      omega
    | succ i =>
      simp only [List.getElem?_cons_succ] at h
      have := ih i h
      simp only [List.set_cons_succ, List.map_cons, List.sum_cons]
      omega

/-- The field of one cell is at most the sum of the field over the array. -/
theorem le_sum_map_of_getElem? {α : Type} (g : α → Nat) (l : List α) (i : Nat) (x : α)
    (h : l[i]? = some x) : g x ≤ (l.map g).sum := by
  induction l generalizing i with
  | nil => simp at h
  | cons z zs ih =>
    cases i with
    | zero =>
      simp only [List.getElem?_cons_zero, Option.some.injEq] at h
      subst h
      simp only [List.map_cons, List.sum_cons]
      omega
    | succ i =>
      simp only [List.getElem?_cons_succ] at h
      have := ih i h
      simp only [List.map_cons, List.sum_cons]
      omega

/-- Sum of a field over an array after an assignment that keeps the field. -/
theorem sum_map_updAt_same {α : Type} (g : α → Nat) (f : α → α) (hf : ∀ x, g (f x) = g x)
    (l : List α) (i : Nat) : ((updAt l i f).map g).sum = (l.map g).sum := by
  induction l generalizing i with
  | nil => simp [updAt]
  | cons x xs ih =>
    cases i with
    | zero => simp only [updAt, List.map_cons, List.sum_cons, hf]
    | succ i => simp only [updAt, List.map_cons, List.sum_cons, ih i]

/-- The stock is unchanged when the product counts are and one customer entry is assigned with
`boughtPieces` kept. -/
theorem stock_same_of (sh sh1 : SHARED_DATA) (c : Nat) (f : STAT_CUST → STAT_CUST)
    (hf : ∀ x, (f x).boughtPieces = x.boughtPieces)
    (h1 : sh1.fSt.shop.nProdIn = sh.fSt.shop.nProdIn)
    (h2 : sh1.fSt.workShop.nProdIn = sh.fSt.workShop.nProdIn)
    (h3 : sh1.fSt.st.custStat = updAt sh.fSt.st.custStat c f) : stock sh1 = stock sh := by
  unfold stock sumBought; rw [h1, h2, h3]
  rw [sum_map_updAt_same (fun x : STAT_CUST => x.boughtPieces) f hf]

/-- The operations of the entrepreneur keep the stock, as long as the products on display and
in the storeroom together fit in a word. -/
theorem execEntrep_stock_eq (op : EntrepOp) (sh : SHARED_DATA)
    (h : sh.fSt.shop.nProdIn + sh.fSt.workShop.nProdIn < UINT_MOD) :
    stock (execEntrep op sh) = stock sh := by
  cases op with
  | addressACustomer =>
    have h : (addressACustomer sh).sh.fSt.shop.nProdIn = sh.fSt.shop.nProdIn ∧
        (addressACustomer sh).sh.fSt.workShop = sh.fSt.workShop ∧
        (addressACustomer sh).sh.fSt.st.custStat = sh.fSt.st.custStat := by
      unfold addressACustomer
      simp only
      split_ifs <;> exact ⟨rfl, rfl, rfl⟩
    exact stock_eq_of _ _ h.1 (congrArg WORKSHOPINFO.nProdIn h.2.1) h.2.2
  | visitSuppliers fuel oob =>
    have hl := visitSuppliersLoop_fSt fuel (visitSuppliersDeliver oob sh) [.down .access]
    have hd := visitSuppliersDeliver_products oob sh
    have hs := visitSuppliersDeliver_st oob sh
    have hfst : (execEntrep (.visitSuppliers fuel oob) sh).fSt =
        (visitSuppliersDeliver oob sh).fSt := hl
    exact stock_eq_of sh _ (by rw [hfst]; exact hd.1) (by rw [hfst]; exact hd.2.1)
      (by rw [hfst]; exact hs.1)
  | goToWorkShop =>
    show uadd sh.fSt.shop.nProdIn sh.fSt.workShop.nProdIn + 0 + sumBought sh =
      sh.fSt.shop.nProdIn + sh.fSt.workShop.nProdIn + sumBought sh
    rw [uadd_eq h]
    omega
  | _ => exact stock_eq_of _ _ rfl rfl rfl

/-- The operations of a craftsman keep the stock, except `goToStore`, which raises it by one, as
long as the storeroom count plus one fits in a word when a product is stored. -/
theorem execCraft_stock_eq (m : Nat) (op : CraftOp) (sh : SHARED_DATA)
    (h : op = .goToStore → sh.fSt.workShop.nProdIn + 1 < UINT_MOD) :
    stock (execCraft m op sh) = stock sh + (if op = .goToStore then 1 else 0) := by
  cases op with
  | collectMaterials =>
    have h : (collectMaterials m sh).sh.fSt.shop.nProdIn = sh.fSt.shop.nProdIn ∧
        (collectMaterials m sh).sh.fSt.workShop.nProdIn = sh.fSt.workShop.nProdIn ∧
        (collectMaterials m sh).sh.fSt.st.custStat = sh.fSt.st.custStat := by
      unfold collectMaterials
      split_ifs <;> exact ⟨rfl, rfl, rfl⟩
    exact stock_eq_of _ _ h.1 h.2.1 h.2.2
  | endOperCraftsman =>
    have h : (endOperCraftsman m sh).sh.fSt.shop.nProdIn = sh.fSt.shop.nProdIn ∧
        (endOperCraftsman m sh).sh.fSt.workShop = sh.fSt.workShop ∧
        (endOperCraftsman m sh).sh.fSt.st.custStat = sh.fSt.st.custStat := by
      simp only [endOperCraftsman]
      split_ifs <;> exact ⟨rfl, rfl, rfl⟩
    exact stock_eq_of _ _ h.1 (congrArg WORKSHOPINFO.nProdIn h.2.1) h.2.2
  | goToStore =>
    show sh.fSt.shop.nProdIn + uadd sh.fSt.workShop.nProdIn 1 + sumBought sh =
      sh.fSt.shop.nProdIn + sh.fSt.workShop.nProdIn + sumBought sh + 1
    rw [uadd_eq (h rfl)]
    omega
  | _ => exact stock_eq_of _ _ rfl rfl rfl

/-- `perusingAround` writes no customer or craftsman entry. -/
theorem perusingAround_st (c val : Nat) (sh : SHARED_DATA) :
    (perusingAround c val sh).sh.fSt.st = sh.fSt.st := by
  unfold perusingAround
  simp only
  split_ifs with h1 h2 h3
  · rfl
  · rfl
  · exact absurd rfl h3
  · rfl

/-- One operation of the life cycle of a customer keeps the size of the customer array. -/
theorem custStep_length (n val : Nat) (l : CustLocal) (sh : SHARED_DATA) :
    (custStep n val l sh).2.fSt.st.custStat.length = sh.fSt.st.custStat.length := by
  unfold custStep
  cases hpc : l.pc with
  | endOperCustomer =>
    simp only
    rcases endOperCustomer_sh n sh with he | he
    · rw [he]
    · rw [he]; exact length_updAt _ _ _
  | perusingAround =>
    simp only
    rw [perusingAround_st]
  | iWantThis =>
    show (updAt (updAt _ _ _) _ _).length = _
    rw [length_updAt, length_updAt]
  | isDoorOpen => rfl
  | finished => rfl
  | _ => exact length_updAt _ _ _

/-- One operation of the life cycle of a customer keeps the stock plus the goods the customer
holds (the customer being one of the array and the total fitting in a word), and keeps the
number of pieces produced. -/
theorem custStep_stock_eq (n val : Nat) (l : CustLocal) (sh : SHARED_DATA)
    (hn : n < sh.fSt.st.custStat.length)
    (h : stock sh + l.pending < UINT_MOD) :
    stock (custStep n val l sh).2 + (custStep n val l sh).1.pending = stock sh + l.pending := by
  have hl0 : l.pc ≠ .iWantThis → l.pending = 0 := by
    intro hne; unfold CustLocal.pending; rw [if_neg hne]
  have hshop : sh.fSt.shop.nProdIn < UINT_MOD := by
    unfold stock at h; omega
  unfold custStep
  cases hpc : l.pc with
  | endOperCustomer =>
    have hpend : ∀ b : Bool, CustLocal.pending
        { l with pc := if b then CustPc.finished else CustPc.goShopping } = 0 := by
      intro b; cases b <;> rfl
    have h0 := hl0 (by rw [hpc]; decide)
    simp only [hpend]
    rcases endOperCustomer_sh n sh with he | he
    · rw [he, h0]
    · rw [he, h0]
      rw [stock_same_of sh (updCust sh n (fun x => { x with readyToWork := false })) n
        (fun x => { x with readyToWork := false }) (fun _ => rfl) rfl rfl rfl]
  | goShopping =>
    have h0 := hl0 (by rw [hpc]; decide)
    have hp : CustLocal.pending { l with pc := CustPc.isDoorOpen } = 0 := rfl
    simp only [hp, h0]
    rw [stock_same_of sh (goShopping n sh).sh n
      (fun x => { x with stat := CHECKING_SHOP_DOOR_OPEN }) (fun _ => rfl) rfl rfl rfl]
  | isDoorOpen =>
    have h0 := hl0 (by rw [hpc]; decide)
    have hpend : ∀ b : Bool, CustLocal.pending
        { l with pc := if b then CustPc.enterShop else CustPc.tryAgainLater } = 0 := by
      intro b; cases b <;> rfl
    simp only [hpend, h0]
    rfl
  | tryAgainLater =>
    have h0 := hl0 (by rw [hpc]; decide)
    have hp : CustLocal.pending { l with pc := CustPc.goShopping } = 0 := rfl
    simp only [hp, h0]
    rw [stock_same_of sh (tryAgainLater n sh).sh n
      (fun x => { x with stat := CARRYING_OUT_DAILY_CHORES }) (fun _ => rfl) rfl rfl rfl]
  | enterShop =>
    have h0 := hl0 (by rw [hpc]; decide)
    have hp : CustLocal.pending { l with pc := CustPc.perusingAround } = 0 := rfl
    simp only [hp, h0]
    rw [stock_same_of sh (enterShop n sh).sh n
      (fun x => { x with stat := APPRAISING_OFFER_IN_DISPLAY }) (fun _ => rfl) rfl rfl rfl]
  | perusingAround =>
    have h0 := hl0 (by rw [hpc]; decide)
    obtain ⟨q, hout, _, hq, hshopq, hws, hst⟩ := perusingAround_spec n val sh hshop
    have hv : (perusingAround n val sh).valD 0 = q := by
      unfold Run.valD; rw [hout]
    simp only [hv]
    have hp : CustLocal.pending
        { pc := if q ≠ 0 then CustPc.iWantThis else CustPc.exitShop, ng := q } = q := by
      unfold CustLocal.pending
      by_cases hq0 : q = 0
      · simp [hq0]
      · simp [hq0]
    rw [hp, h0]
    have : stock (perusingAround n val sh).sh = sh.fSt.shop.nProdIn - q +
        sh.fSt.workShop.nProdIn + sumBought sh := by
      unfold stock sumBought
      rw [hshopq, hws, hst]
    rw [this]
    unfold stock
    omega
  | iWantThis =>
    have hl : l.pending = l.ng := by unfold CustLocal.pending; rw [hpc]; rfl
    have hp : CustLocal.pending { l with pc := CustPc.exitShop } = 0 := rfl
    simp only [hp]
    obtain ⟨c, hc⟩ : ∃ c, sh.fSt.st.custStat[n]? = some c :=
      ⟨sh.fSt.st.custStat[n], List.getElem?_eq_getElem hn⟩
    have hcs : (iWantThis n l.ng sh).sh.fSt.st.custStat =
        sh.fSt.st.custStat.set n
          { stat := BUYING_SOME_GOODS, boughtPieces := uadd c.boughtPieces l.ng,
            readyToWork := c.readyToWork } :=
      updAt_updAt_of_getElem? (fun x : STAT_CUST => { x with stat := BUYING_SOME_GOODS })
        (fun x : STAT_CUST => { x with boughtPieces := uadd x.boughtPieces l.ng })
        sh.fSt.st.custStat n c hc
    have hle := le_sum_map_of_getElem? (fun x : STAT_CUST => x.boughtPieces)
      sh.fSt.st.custStat n c hc
    have hsum := sum_map_set (fun x : STAT_CUST => x.boughtPieces) sh.fSt.st.custStat n c
      { stat := BUYING_SOME_GOODS, boughtPieces := uadd c.boughtPieces l.ng,
        readyToWork := c.readyToWork } hc
    have hs : stock sh = sh.fSt.shop.nProdIn + sh.fSt.workShop.nProdIn +
        (sh.fSt.st.custStat.map (fun x => x.boughtPieces)).sum := rfl
    have hle2 : c.boughtPieces ≤ (sh.fSt.st.custStat.map (fun x => x.boughtPieces)).sum := hle
    have hu : uadd c.boughtPieces l.ng = c.boughtPieces + l.ng := by
      apply uadd_eq
      rw [hs, hl] at h
      omega
    rw [hu] at hcs hsum
    have hsum2 : ((sh.fSt.st.custStat.set n
        { stat := BUYING_SOME_GOODS, boughtPieces := c.boughtPieces + l.ng,
          readyToWork := c.readyToWork }).map (fun x => x.boughtPieces)).sum + c.boughtPieces =
        (sh.fSt.st.custStat.map (fun x => x.boughtPieces)).sum + (c.boughtPieces + l.ng) := hsum
    have hstock : stock (iWantThis n l.ng sh).sh =
        sh.fSt.shop.nProdIn + sh.fSt.workShop.nProdIn +
          ((sh.fSt.st.custStat.set n
            { stat := BUYING_SOME_GOODS, boughtPieces := c.boughtPieces + l.ng,
              readyToWork := c.readyToWork }).map (fun x => x.boughtPieces)).sum := by
      show sh.fSt.shop.nProdIn + sh.fSt.workShop.nProdIn +
        ((iWantThis n l.ng sh).sh.fSt.st.custStat.map (fun x => x.boughtPieces)).sum = _
      rw [hcs]
    rw [hstock, hs, hl]
    omega
  | exitShop =>
    have h0 := hl0 (by rw [hpc]; decide)
    have hp : CustLocal.pending { l with pc := CustPc.endOperCustomer } = 0 := rfl
    simp only [hp, h0]
    rw [stock_same_of sh (exitShop n sh).sh n
      (fun x => { x with stat := CARRYING_OUT_DAILY_CHORES }) (fun _ => rfl) rfl rfl rfl]
  | finished => rfl

/-- One event keeps the exact account: stock plus pending goods is the number of pieces
produced, which is at most the number of `goToStore` executed so far (as long as that number
fits in a word), and there are as many customer entries as customer processes. -/
theorem step_stock_eq (s : System) (e : Event) (k : Nat)
    (hI : stock s.sh + sumPending s.cust = s.sh.fSt.workShop.NTProd)
    (hK : s.sh.fSt.workShop.NTProd ≤ k)
    (hL : s.sh.fSt.st.custStat.length = s.cust.length)
    (hk : k + (if e.isStore then 1 else 0) < UINT_MOD) :
    stock (s.step e).sh + sumPending (s.step e).cust = (s.step e).sh.fSt.workShop.NTProd ∧
    (s.step e).sh.fSt.workShop.NTProd ≤ k + (if e.isStore then 1 else 0) ∧
    (s.step e).sh.fSt.st.custStat.length = (s.step e).cust.length := by
  have hle := step_stock s e k (le_of_eq hI) hK hk
  refine ⟨?_, hle.2, ?_⟩
  · cases e with
    | cust n val =>
      have h0 : (Event.cust n val).isStore = false := rfl
      simp only [h0] at hk
      cases hl : s.cust[n]? with
      | none =>
        rw [step_cust_none s n val hl]
        exact hI
      | some l =>
        rw [step_cust_some s n val l hl]
        simp only
        have hn : n < s.sh.fSt.st.custStat.length := by
          rw [hL]
          by_contra hge
          rw [List.getElem?_eq_none (by omega)] at hl
          exact Option.noConfusion hl
        have hpl : l.pending ≤ sumPending s.cust :=
          le_sum_map_of_getElem? CustLocal.pending s.cust n l hl
        have hc := custStep_stock_eq n val l s.sh hn (by omega)
        have hp := sumPending_set s.cust n l (custStep n val l s.sh).1 hl
        rw [(custStep_stock n val l s.sh (by unfold stock at hI; omega)).2]
        omega
    | entrep op =>
      have hc := execEntrep_stock_eq op s.sh (by unfold stock at hI; omega)
      have hn := (execEntrep_stock op s.sh).2
      show stock (execEntrep op s.sh) + sumPending s.cust = (execEntrep op s.sh).fSt.workShop.NTProd
      rw [hc, hn]
      exact hI
    | craft m op =>
      rw [isStore_craft] at hk
      have hn := (execCraft_stock m op s.sh).2
      show stock (execCraft m op s.sh) + sumPending s.cust = (execCraft m op s.sh).fSt.workShop.NTProd
      rw [hn]
      by_cases hop : op = .goToStore
      · simp only [hop, if_true, decide_True] at hk ⊢
        have hc := execCraft_stock_eq m .goToStore s.sh (fun _ => by unfold stock at hI; omega)
        simp only [if_true] at hc
        rw [hc, uadd_eq (by omega)]
        omega
      · simp only [hop, if_false, decide_False, Bool.false_eq_true, Nat.add_zero] at hk ⊢
        have hc := execCraft_stock_eq m op s.sh (fun hg => absurd hg hop)
        simp only [hop, if_false] at hc
        rw [hc]
        exact hI
  · cases e with
    | cust n val =>
      cases hl : s.cust[n]? with
      | none =>
        rw [step_cust_none s n val hl]
        exact hL
      | some l =>
        rw [step_cust_some s n val l hl]
        simp only [List.length_set]
        rw [custStep_length]
        exact hL
    | entrep op =>
      show (execEntrep op s.sh).fSt.st.custStat.length = s.cust.length
      rw [(execEntrep_custStat op s.sh).1]
      exact hL
    | craft m op =>
      show (execCraft m op s.sh).fSt.st.custStat.length = s.cust.length
      rw [(execCraft_flags m op s.sh 0).2]
      exact hL

/-- A sequence of events keeps the exact account. -/
theorem run_stock_eq (es : List Event) (s : System) (k : Nat)
    (hI : stock s.sh + sumPending s.cust = s.sh.fSt.workShop.NTProd)
    (hK : s.sh.fSt.workShop.NTProd ≤ k)
    (hL : s.sh.fSt.st.custStat.length = s.cust.length)
    (hk : k + storeCount es < UINT_MOD) :
    stock (s.run es).sh + sumPending (s.run es).cust = (s.run es).sh.fSt.workShop.NTProd := by
  induction es generalizing s k with
  | nil => exact hI
  | cons e es ih =>
    have hcount : storeCount (e :: es) = (if e.isStore then 1 else 0) + storeCount es := by
      unfold storeCount
      rw [List.countP_cons]
      omega
    rw [hcount] at hk
    have hs := step_stock_eq s e k hI hK hL (by omega)
    have hrun : s.run (e :: es) = (s.step e).run es := rfl
    rw [hrun]
    exact ih (s.step e) (k + (if e.isStore then 1 else 0)) hs.1 hs.2.1 hs.2.2 (by omega)

/-- C11 (amended): product conservation with the goods in the customers' hands. For every supply
schedule and every sequence of operations in which each customer follows its life cycle (the
entrepreneur and the craftsmen executing any of their operations), containing fewer than `2^32`
executions of `goToStore`: `shop.nProdIn + workShop.nProdIn + sum of boughtPieces`, plus the
goods picked up in `perusingAround` by customers that have not yet executed `iWantThis`, equals
`workShop.NTProd`. -/
theorem products_account (pm : List Nat) (es : List Event) (h : storeCount es < UINT_MOD) :
    ((initialSystem pm).run es).sh.fSt.shop.nProdIn +
      ((initialSystem pm).run es).sh.fSt.workShop.nProdIn +
      sumBought ((initialSystem pm).run es).sh +
      sumPending ((initialSystem pm).run es).cust =
    ((initialSystem pm).run es).sh.fSt.workShop.NTProd := by
  have h0 := initialSystem_stock pm
  have hL : (initialSystem pm).sh.fSt.st.custStat.length = (initialSystem pm).cust.length := by
    simp [initialSystem, initialState]
  exact run_stock_eq es (initialSystem pm) 0 (by omega) (by omega) hL (by omega)


/-- C11 (counterexample): with the shop open, four products on display, one in the storeroom and
five produced the equality holds; `perusingAround 0` (random draw 1000000000) returns 1, having
left the critical region, and then 3 + 1 + 0 is not 5: the product is in the customer's hands
until `iWantThis` records it. -/
theorem perusingAround_breaks_products_equality :
    exOpened.fSt.shop.nProdIn + exOpened.fSt.workShop.nProdIn + sumBought exOpened =
      exOpened.fSt.workShop.NTProd ∧
    (perusingAround 0 1000000000 exOpened).out = .ret 1 ∧
    (perusingAround 0 1000000000 exOpened).tr = [.down .access, .up .access] ∧
    ¬ (perusingAround 0 1000000000 exOpened).sh.fSt.shop.nProdIn +
        (perusingAround 0 1000000000 exOpened).sh.fSt.workShop.nProdIn +
        sumBought (perusingAround 0 1000000000 exOpened).sh =
      (perusingAround 0 1000000000 exOpened).sh.fSt.workShop.NTProd := by
  decide

/-- Witness of C11: the account after the sample run, in which customer 1 holds one product. -/
theorem products_account_witness :
    storeCount exEvents < UINT_MOD ∧
    sumPending ((initialSystem [5, 5, 5, 6]).run exEvents).cust = 1 ∧
    ((initialSystem [5, 5, 5, 6]).run exEvents).sh.fSt.shop.nProdIn +
      ((initialSystem [5, 5, 5, 6]).run exEvents).sh.fSt.workShop.nProdIn +
      sumBought ((initialSystem [5, 5, 5, 6]).run exEvents).sh +
      sumPending ((initialSystem [5, 5, 5, 6]).run exEvents).cust =
    ((initialSystem [5, 5, 5, 6]).run exEvents).sh.fSt.workShop.NTProd :=
  ⟨by decide, by decide, products_account [5, 5, 5, 6] exEvents (by decide)⟩

/-! ## The service queue -/

/-- A well-formed queue has three cells and pointers among 0, 1, 2. -/
theorem queueWF_cases (q : QUEUE) (h : queueWF q) :
    ∃ x y z, q.mem = [x, y, z] ∧ (q.ii = 0 ∨ q.ii = 1 ∨ q.ii = 2) ∧
      (q.ri = 0 ∨ q.ri = 1 ∨ q.ri = 2) := by
  obtain ⟨hlen, hii, hri, _⟩ := h
  unfold N at hlen hii hri
  match hm : q.mem, hlen with
  | [x, y, z], _ => exact ⟨x, y, z, rfl, by omega, by omega⟩

/-- The initial queue is well formed and holds nothing. -/
theorem queueInit_spec : queueWF queueInit ∧ queueList queueInit = [] := by
  refine ⟨⟨rfl, by decide, by decide, fun h => ?_⟩, rfl⟩
  cases h

/-- The queue is empty exactly when it holds no identifier. -/
theorem queueEmpty_iff (q : QUEUE) (h : queueWF q) :
    queueEmpty q = true ↔ queueList q = [] := by
  obtain ⟨x, y, z, hm, hi, hr⟩ := queueWF_cases q h
  obtain ⟨mem, ii, ri, full⟩ := q
  obtain ⟨_, _, _, hfull⟩ := h
  simp only at hm hi hr hfull
  subst hm
  cases full <;> rcases hi with hi | hi | hi <;> rcases hr with hr | hr | hr <;> subst hi hr <;>
    simp [queueEmpty, queueList, queueCount, N, List.range_succ] at hfull ⊢

/-- A full queue holds `N` identifiers. -/
theorem queueList_length_of_full (q : QUEUE) (h : q.full = true) :
    (queueList q).length = N := by
  simp [queueList, queueCount, h]

/-- The queue holds at most `N` identifiers. -/
theorem queueList_length_le (q : QUEUE) : (queueList q).length ≤ N := by
  simp only [queueList, queueCount, List.length_map, List.length_range]
  split_ifs
  · exact le_refl _
  · exact le_of_lt (Nat.mod_lt _ (by decide))

/-- Insertion into a queue that is not full appends the identifier. -/
theorem queueIn_spec (q : QUEUE) (c : Nat) (h : queueWF q) (hf : q.full = false) :
    queueWF (queueIn q c) ∧ queueList (queueIn q c) = queueList q ++ [c] := by
  obtain ⟨x, y, z, hm, hi, hr⟩ := queueWF_cases q h
  obtain ⟨mem, ii, ri, full⟩ := q
  simp only at hm hi hr hf
  subst hm hf
  rcases hi with hi | hi | hi <;> rcases hr with hr | hr | hr <;> subst hi hr <;>
    simp [queueWF, queueIn, queueList, queueCount, N, List.range_succ]

/-- Retrieval from a queue that is not empty takes the head out and returns it. -/
theorem queueOut_spec (q : QUEUE) (h : queueWF q) (he : queueEmpty q = false) :
    queueWF (queueOut q).1 ∧ queueList q = (queueOut q).2 :: queueList (queueOut q).1 := by
  obtain ⟨x, y, z, hm, hi, hr⟩ := queueWF_cases q h
  obtain ⟨mem, ii, ri, full⟩ := q
  obtain ⟨_, _, _, hfull⟩ := h
  simp only at hm hi hr hfull he
  subst hm
  cases full <;> rcases hi with hi | hi | hi <;> rcases hr with hr | hr | hr <;> subst hi hr <;>
    simp [queueWF, queueOut, queueEmpty, queueList, queueCount, N, List.range_succ,
      EMPTYPOS] at hfull he ⊢

/-! ## The protocol at the counter -/

/-- A list without repetition of numbers below `n` has at most `n` entries. -/
theorem length_le_of_nodup_lt (l : List Nat) (n : Nat) (hd : l.Nodup) (hl : ∀ c ∈ l, c < n) :
    l.length ≤ n := by
  have hsub : l ⊆ List.range n := fun c hc => List.mem_range.2 (hl c hc)
  have := (List.Nodup.subperm hd hsub).length_le
  simpa using this

/-- No operation of a craftsman touches the queue. -/
theorem execCraft_queue (m : Nat) (op : CraftOp) (sh : SHARED_DATA) :
    (execCraft m op sh).fSt.shop.queue = sh.fSt.shop.queue := by
  cases op with
  | collectMaterials =>
    show (collectMaterials m sh).sh.fSt.shop.queue = _
    unfold collectMaterials
    split_ifs <;> rfl
  | endOperCraftsman =>
    show (endOperCraftsman m sh).sh.fSt.shop.queue = _
    simp only [endOperCraftsman]
    split_ifs <;> rfl
  | _ => rfl

/-- No operation of the entrepreneur other than `addressACustomer` touches the queue. -/
theorem execEntrep_queue (op : EntrepOp) (sh : SHARED_DATA) (h : op ≠ .addressACustomer) :
    (execEntrep op sh).fSt.shop.queue = sh.fSt.shop.queue := by
  cases op with
  | addressACustomer => exact absurd rfl h
  | visitSuppliers fuel oob =>
    have hl := visitSuppliersLoop_fSt fuel (visitSuppliersDeliver oob sh) [.down .access]
    have hfst : (execEntrep (.visitSuppliers fuel oob) sh).fSt =
        (visitSuppliersDeliver oob sh).fSt := hl
    rw [hfst]
    unfold visitSuppliersDeliver
    simp only
    split_ifs <;> rfl
  | _ => rfl

/-- An operation of the life cycle of a customer other than `iWantThis` does not touch the
queue. -/
theorem custStep_queue (n val : Nat) (l : CustLocal) (sh : SHARED_DATA)
    (h : l.pc ≠ .iWantThis) :
    (custStep n val l sh).2.fSt.shop.queue = sh.fSt.shop.queue := by
  unfold custStep
  cases hpc : l.pc with
  | iWantThis => exact absurd hpc h
  | endOperCustomer =>
    simp only
    rcases endOperCustomer_sh n sh with he | he
    · rw [he]
    · rw [he]; rfl
  | perusingAround =>
    simp only
    unfold perusingAround
    simp only
    split_ifs <;> rfl
  | _ => rfl

/-- The customer that executes `iWantThis` is inserted in the queue and has `exitShop` as its
next operation. -/
theorem custStep_iWantThis (n val : Nat) (l : CustLocal) (sh : SHARED_DATA)
    (h : l.pc = .iWantThis) :
    (custStep n val l sh).2.fSt.shop.queue = queueIn sh.fSt.shop.queue n ∧
    (custStep n val l sh).1.pc = .exitShop := by
  unfold custStep
  rw [h]
  exact ⟨rfl, rfl⟩

/-- The invariant depends on the queue, the customers' local variables, the parking flags, the
semaphores, the attended customer and the histories only. -/
theorem Service.Inv_congr (s t : Service)
    (hq : t.sys.sh.fSt.shop.queue = s.sys.sh.fSt.shop.queue)
    (hc : t.sys.cust = s.sys.cust) (hw : t.waiting = s.waiting) (hs : t.wfs = s.wfs)
    (ha : t.attending = s.attending) (he : t.enq = s.enq) (hd : t.deq = s.deq)
    (h : s.Inv) : t.Inv := by
  unfold Service.Inv at h ⊢
  rw [hq, hc, hw, hs, ha, he, hd]
  exact h

/-- The invariant holds initially. -/
theorem initialService_inv (pm : List Nat) : (initialService pm).Inv := by
  unfold Service.Inv
  have hq : (initialService pm).sys.sh.fSt.shop.queue = queueInit := rfl
  rw [hq, queueInit_spec.2]
  refine ⟨queueInit_spec.1, ⟨by simp [initialService, initialSystem], by simp [initialService],
    by simp [initialService]⟩, rfl, List.nodup_nil, ?_, ?_, ?_, ?_⟩
  · intro c hc; simp at hc
  · intro c hc; simp [initialService] at hc
  · intro c v hv
    have : v = 0 := by
      simp only [initialService, List.getElem?_replicate] at hv
      split_ifs at hv
      · exact (Option.some.inj hv).symm
    subst this
    exact ⟨by omega, fun h => absurd h (by decide)⟩
  · intro c l _ hw
    simp only [initialService, List.getElem?_replicate] at hw
    split_ifs at hw
    · simp at hw

/-- Reading a semaphore after an `up` on semaphore `c`. -/
theorem getElem?_up (wfs : List Nat) (c j : Nat) :
    (updAt wfs c (fun v => v + 1))[j]? =
      if j = c then (wfs[j]?).map (fun v => v + 1) else wfs[j]? :=
  getElem?_updAt _ wfs c j

/-- An event of a craftsman keeps the invariant. -/
theorem Service.craft_inv (s : Service) (m : Nat) (op : CraftOp) (h : s.Inv) :
    (s.step (.craft m op)).Inv :=
  Service.Inv_congr s _ (execCraft_queue m op s.sys.sh) rfl rfl rfl rfl rfl rfl h

/-- The end of a service keeps the invariant: the customer attended is woken up. -/
theorem Service.sayGoodBye_inv (s : Service) (c : Nat) (hatt : s.attending = some c)
    (h : s.Inv) :
    Service.Inv { s with sys := s.sys.step (.entrep (.sayGoodByeToCustomer c)),
                         wfs := updAt s.wfs c (fun v => v + 1), attending := none } := by
  obtain ⟨hWF, ⟨hLc, hLw, hLs⟩, hE, hND, hW, hA, hS, hP⟩ := h
  obtain ⟨hcN, hcq, hcw, hcs⟩ := hA c hatt
  refine ⟨hWF, ⟨hLc, hLw, (length_updAt _ _ _).trans hLs⟩, hE, hND, ?_, ?_, ?_, hP⟩
  · intro d hd
    obtain ⟨h1, h2, h3⟩ := hW d hd
    refine ⟨h1, h2, ?_⟩
    have hne : d ≠ c := fun e => hcq (e ▸ hd)
    show (updAt s.wfs c (fun v => v + 1))[d]? = some 0
    rw [getElem?_up, if_neg hne]
    exact h3
  · intro d hd
    exact absurd hd (by simp)
  · intro d v hv
    have hv2 : (updAt s.wfs c (fun v => v + 1))[d]? = some v := hv
    rw [getElem?_up] at hv2
    by_cases hdc : d = c
    · subst hdc
      rw [if_pos rfl, hcs] at hv2
      have : v = 1 := by
        simp only [Option.map_some', Option.some.injEq] at hv2
        omega
      subst this
      exact ⟨le_refl _, fun _ => hcw⟩
    · rw [if_neg hdc] at hv2
      exact hS d v hv2

/-- With an empty queue `addressACustomer` ends the process and leaves the queue as it is. -/
theorem addressACustomer_empty (sh : SHARED_DATA) (he : queueEmpty sh.fSt.shop.queue = true) :
    (addressACustomer sh).out = .fatal ∧
    (addressACustomer sh).sh.fSt.shop.queue = sh.fSt.shop.queue := by
  unfold addressACustomer
  simp [he]

/-- With a customer identifier at the head of the queue `addressACustomer` returns it and takes
it out of the queue. -/
theorem addressACustomer_ret (sh : SHARED_DATA) (he : queueEmpty sh.fSt.shop.queue = false)
    (hn : (queueOut sh.fSt.shop.queue).2 < N) :
    (addressACustomer sh).out = .ret (queueOut sh.fSt.shop.queue).2 ∧
    (addressACustomer sh).sh.fSt.shop.queue = (queueOut sh.fSt.shop.queue).1 := by
  have hn2 : ¬ N ≤ (queueOut sh.fSt.shop.queue).2 := by omega
  unfold addressACustomer
  simp [he, hn2]

/-- The start of a service keeps the invariant: the head of the queue becomes the customer
attended. -/
theorem Service.address_inv (s : Service) (hatt : s.attending = none) (h : s.Inv) :
    Service.Inv
      (match (addressACustomer s.sys.sh).out with
       | .ret c =>
         { s with sys := s.sys.step (.entrep .addressACustomer), attending := some c,
                  deq := s.deq ++ [c] }
       | _ => { s with sys := s.sys.step (.entrep .addressACustomer), attending := none }) := by
  by_cases he : queueEmpty s.sys.sh.fSt.shop.queue = true
  · obtain ⟨hout, hq⟩ := addressACustomer_empty s.sys.sh he
    rw [hout]
    exact Service.Inv_congr s _ hq rfl rfl rfl hatt.symm rfl rfl h
  · have he2 : queueEmpty s.sys.sh.fSt.shop.queue = false := by
      cases hb : queueEmpty s.sys.sh.fSt.shop.queue
      · rfl
      · exact absurd hb he
    obtain ⟨hWF, ⟨hLc, hLw, hLs⟩, hE, hND, hW, hA, hS, hP⟩ := h
    obtain ⟨hWF2, hlist⟩ := queueOut_spec _ hWF he2
    have hmem : (queueOut s.sys.sh.fSt.shop.queue).2 ∈ queueList s.sys.sh.fSt.shop.queue := by
      rw [hlist]; exact List.mem_cons_self _ _
    obtain ⟨hidN, hidw, hids⟩ := hW _ hmem
    obtain ⟨hout, hq⟩ := addressACustomer_ret s.sys.sh he2 hidN
    rw [hout]
    rw [hlist] at hND hE
    have hq2 : (s.sys.step (.entrep .addressACustomer)).sh.fSt.shop.queue =
        (queueOut s.sys.sh.fSt.shop.queue).1 := hq
    unfold Service.Inv
    simp only [hq2]
    refine ⟨hWF2, ⟨hLc, hLw, hLs⟩, ?_, (List.nodup_cons.1 hND).2, ?_, ?_, hS, hP⟩
    · rw [hE]; simp
    · intro d hd
      exact hW d (by rw [hlist]; exact List.mem_cons_of_mem _ hd)
    · intro d hd
      have : d = (queueOut s.sys.sh.fSt.shop.queue).2 := (Option.some.inj hd).symm
      subst this
      exact ⟨hidN, (List.nodup_cons.1 hND).1, hidw, hids⟩

/-- An event of the entrepreneur keeps the invariant. -/
theorem Service.entrepEvent_inv (s : Service) (op : EntrepOp) (h : s.Inv) :
    (s.entrepEvent op).Inv := by
  unfold Service.entrepEvent
  cases hatt : s.attending with
  | some c =>
    simp only
    split_ifs with hop
    · subst hop
      exact Service.sayGoodBye_inv s c hatt h
    · exact h
  | none =>
    cases op with
    | sayGoodByeToCustomer c => exact h
    | addressACustomer => exact Service.address_inv s hatt h
    | visitSuppliers fuel oob =>
      exact Service.Inv_congr s _
        (execEntrep_queue (.visitSuppliers fuel oob) s.sys.sh (by simp)) rfl rfl rfl hatt.symm
        rfl rfl h
    | _ => exact Service.Inv_congr s _ rfl rfl rfl rfl hatt.symm rfl rfl h

/-- A customer that is not parked is not in the queue, is not the customer attended, its
semaphore is zero, and the queue is not full. -/
theorem Service.free_customer (s : Service) (n : Nat) (l : CustLocal) (h : s.Inv)
    (hl : s.sys.cust[n]? = some l) (hw : s.waiting[n]? = some false) :
    n < N ∧ n ∉ queueList s.sys.sh.fSt.shop.queue ∧ s.attending ≠ some n ∧
    s.wfs[n]? = some 0 ∧ s.sys.sh.fSt.shop.queue.full = false := by
  obtain ⟨hWF, ⟨hLc, hLw, hLs⟩, hE, hND, hW, hA, hS, hP⟩ := h
  have hnN : n < N := by
    rw [← hLc]
    by_contra hge
    rw [List.getElem?_eq_none (by omega)] at hl
    exact Option.noConfusion hl
  have hnq : n ∉ queueList s.sys.sh.fSt.shop.queue := by
    intro hmem
    have := (hW n hmem).2.1
    rw [hw] at this
    exact absurd (Option.some.inj this) (by decide)
  have hna : s.attending ≠ some n := by
    intro ha
    have := (hA n ha).2.2.1
    rw [hw] at this
    exact absurd (Option.some.inj this) (by decide)
  have hs0 : s.wfs[n]? = some 0 := by
    have hlt : n < s.wfs.length := by rw [hLs]; exact hnN
    have hv : s.wfs[n]? = some s.wfs[n] := List.getElem?_eq_getElem hlt
    obtain ⟨h1, h2⟩ := hS n _ hv
    have : s.wfs[n] = 0 := by
      by_contra hne
      have h3 := h2 (by omega)
      rw [hw] at h3
      exact absurd (Option.some.inj h3) (by decide)
    rw [hv, this]
  refine ⟨hnN, hnq, hna, hs0, ?_⟩
  cases hf : s.sys.sh.fSt.shop.queue.full with
  | false => rfl
  | true =>
    have hlen := queueList_length_of_full _ hf
    have hnd : (n :: queueList s.sys.sh.fSt.shop.queue).Nodup := List.nodup_cons.2 ⟨hnq, hND⟩
    have hall : ∀ c ∈ n :: queueList s.sys.sh.fSt.shop.queue, c < N := by
      intro c hc
      rcases List.mem_cons.1 hc with hc | hc
      · rw [hc]; exact hnN
      · exact (hW c hc).1
    have := length_le_of_nodup_lt _ N hnd hall
    simp only [List.length_cons] at this
    omega

/-- A parked customer whose semaphore is positive proceeds: the invariant is kept. -/
theorem Service.wake_inv (s : Service) (n v : Nat) (hw : s.waiting[n]? = some true)
    (hv : s.wfs[n]? = some v) (hpos : 0 < v) (h : s.Inv) :
    Service.Inv { s with waiting := s.waiting.set n false, wfs := s.wfs.set n (v - 1) } := by
  obtain ⟨hWF, ⟨hLc, hLw, hLs⟩, hE, hND, hW, hA, hS, hP⟩ := h
  have hv1 : v = 1 := by have := (hS n v hv).1; omega
  have hnq : n ∉ queueList s.sys.sh.fSt.shop.queue := by
    intro hmem
    have := (hW n hmem).2.2
    rw [hv] at this
    have := Option.some.inj this
    omega
  have hna : s.attending ≠ some n := by
    intro ha
    have := (hA n ha).2.2.2
    rw [hv] at this
    have := Option.some.inj this
    omega
  have hnw : n < s.waiting.length := by
    by_contra hge
    rw [List.getElem?_eq_none (by omega)] at hw
    exact Option.noConfusion hw
  have hns : n < s.wfs.length := by rw [hLs, ← hLw]; exact hnw
  refine ⟨hWF, ⟨hLc, (List.length_set _ _ _).trans hLw, (List.length_set _ _ _).trans hLs⟩,
    hE, hND, ?_, ?_, ?_, ?_⟩
  · intro d hd
    have hne : n ≠ d := fun e => hnq (e ▸ hd)
    obtain ⟨h1, h2, h3⟩ := hW d hd
    refine ⟨h1, ?_, ?_⟩
    · show (s.waiting.set n false)[d]? = some true
      rw [List.getElem?_set_ne hne]; exact h2
    · show (s.wfs.set n (v - 1))[d]? = some 0
      rw [List.getElem?_set_ne hne]; exact h3
  · intro d hd
    have hd2 : s.attending = some d := hd
    have hne : n ≠ d := fun e => hna (e ▸ hd2)
    obtain ⟨h1, h2, h3, h4⟩ := hA d hd2
    refine ⟨h1, h2, ?_, ?_⟩
    · show (s.waiting.set n false)[d]? = some true
      rw [List.getElem?_set_ne hne]; exact h3
    · show (s.wfs.set n (v - 1))[d]? = some 0
      rw [List.getElem?_set_ne hne]; exact h4
  · intro d u hu
    have hu2 : (s.wfs.set n (v - 1))[d]? = some u := hu
    by_cases hne : n = d
    · subst hne
      rw [List.getElem?_set_self hns] at hu2
      have : u = 0 := by have := Option.some.inj hu2; omega
      subst this
      exact ⟨by omega, fun h01 => absurd h01 (by decide)⟩
    · rw [List.getElem?_set_ne hne] at hu2
      obtain ⟨h1, h2⟩ := hS d u hu2
      refine ⟨h1, fun hu1 => ?_⟩
      show (s.waiting.set n false)[d]? = some true
      rw [List.getElem?_set_ne hne]; exact h2 hu1
  · intro d l hl hwd
    have hwd2 : (s.waiting.set n false)[d]? = some true := hwd
    by_cases hne : n = d
    · subst hne
      rw [List.getElem?_set_self hnw] at hwd2
      exact absurd (Option.some.inj hwd2) (by decide)
    · rw [List.getElem?_set_ne hne] at hwd2
      exact hP d l hl hwd2

/-- A customer that executes an operation other than `iWantThis` keeps the invariant. -/
theorem Service.move_inv (s : Service) (n val : Nat) (l : CustLocal)
    (hl : s.sys.cust[n]? = some l) (hw : s.waiting[n]? = some false)
    (hpc : l.pc ≠ .iWantThis) (h : s.Inv) :
    Service.Inv { s with sys := s.sys.step (.cust n val) } := by
  obtain ⟨hWF, ⟨hLc, hLw, hLs⟩, hE, hND, hW, hA, hS, hP⟩ := h
  have hstep := step_cust_some s.sys n val l hl
  have hq : (s.sys.step (.cust n val)).sh.fSt.shop.queue = s.sys.sh.fSt.shop.queue := by
    rw [hstep]; exact custStep_queue n val l s.sys.sh hpc
  have hc : (s.sys.step (.cust n val)).cust = s.sys.cust.set n (custStep n val l s.sys.sh).1 := by
    rw [hstep]
  unfold Service.Inv
  simp only [hq, hc]
  refine ⟨hWF, ⟨(List.length_set _ _ _).trans hLc, hLw, hLs⟩, hE, hND, hW, hA, hS, ?_⟩
  intro d l2 hl2 hwd
  by_cases hne : n = d
  · subst hne
    rw [hw] at hwd
    exact absurd (Option.some.inj hwd) (by decide)
  · rw [List.getElem?_set_ne hne] at hl2
    exact hP d l2 hl2 hwd

/-- A customer that executes `iWantThis` joins the tail of the queue, which is not full, and
parks: the invariant is kept. -/
theorem Service.enqueue_inv (s : Service) (n val : Nat) (l : CustLocal)
    (hl : s.sys.cust[n]? = some l) (hw : s.waiting[n]? = some false)
    (hpc : l.pc = .iWantThis) (h : s.Inv) :
    Service.Inv { s with sys := s.sys.step (.cust n val), waiting := s.waiting.set n true,
                         enq := s.enq ++ [n] } := by
  obtain ⟨hnN, hnq, hna, hs0, hfull⟩ := Service.free_customer s n l h hl hw
  obtain ⟨hWF, ⟨hLc, hLw, hLs⟩, hE, hND, hW, hA, hS, hP⟩ := h
  obtain ⟨hWF2, hlist⟩ := queueIn_spec s.sys.sh.fSt.shop.queue n hWF hfull
  have hstep := step_cust_some s.sys n val l hl
  have hq : (s.sys.step (.cust n val)).sh.fSt.shop.queue = queueIn s.sys.sh.fSt.shop.queue n := by
    rw [hstep]; exact (custStep_iWantThis n val l s.sys.sh hpc).1
  have hc : (s.sys.step (.cust n val)).cust = s.sys.cust.set n (custStep n val l s.sys.sh).1 := by
    rw [hstep]
  have hnw : n < s.waiting.length := by rw [hLw]; exact hnN
  have hnc : n < s.sys.cust.length := by rw [hLc]; exact hnN
  unfold Service.Inv
  simp only [hq, hc, hlist]
  refine ⟨hWF2, ⟨(List.length_set _ _ _).trans hLc, (List.length_set _ _ _).trans hLw, hLs⟩,
    ?_, ?_, ?_, ?_, ?_, ?_⟩
  · rw [hE, List.append_assoc]
  · rw [List.nodup_append]
    refine ⟨hND, List.nodup_singleton n, ?_⟩
    intro c hc1 hc2
    rw [List.mem_singleton] at hc2
    exact hnq (hc2 ▸ hc1)
  · intro d hd
    rcases List.mem_append.1 hd with hd | hd
    · have hne : n ≠ d := fun e => hnq (e ▸ hd)
      obtain ⟨h1, h2, h3⟩ := hW d hd
      refine ⟨h1, ?_, h3⟩
      rw [List.getElem?_set_ne hne]; exact h2
    · rw [List.mem_singleton] at hd
      subst hd
      refine ⟨hnN, ?_, hs0⟩
      rw [List.getElem?_set_self hnw]
  · intro d hd
    have hne : n ≠ d := fun e => hna (e ▸ hd)
    obtain ⟨h1, h2, h3, h4⟩ := hA d hd
    refine ⟨h1, ?_, ?_, h4⟩
    · intro hmem
      rcases List.mem_append.1 hmem with hm | hm
      · exact h2 hm
      · rw [List.mem_singleton] at hm
        exact hne hm.symm
    · rw [List.getElem?_set_ne hne]; exact h3
  · intro d u hu
    obtain ⟨h1, h2⟩ := hS d u hu
    refine ⟨h1, fun hu1 => ?_⟩
    by_cases hne : n = d
    · subst hne
      rw [List.getElem?_set_self hnw]
    · rw [List.getElem?_set_ne hne]; exact h2 hu1
  · intro d l2 hl2 hwd
    by_cases hne : n = d
    · subst hne
      rw [List.getElem?_set_self hnc] at hl2
      rw [← Option.some.inj hl2]
      exact (custStep_iWantThis n val l s.sys.sh hpc).2
    · rw [List.getElem?_set_ne hne] at hl2 hwd
      exact hP d l2 hl2 hwd

/-- An event of a customer keeps the invariant. -/
theorem Service.custEvent_inv (s : Service) (n val : Nat) (h : s.Inv) :
    (s.custEvent n val).Inv := by
  unfold Service.custEvent
  cases hl : s.sys.cust[n]? with
  | none => exact h
  | some l =>
    cases hw : s.waiting[n]? with
    | none => exact h
    | some w =>
      cases hv : s.wfs[n]? with
      | none => exact h
      | some v =>
        simp only
        cases w with
        | true =>
          simp only [if_true]
          split_ifs with hpos
          · exact Service.wake_inv s n v hw hv hpos h
          · exact h
        | false =>
          simp only [Bool.false_eq_true, if_false]
          split_ifs with hpc
          · exact Service.enqueue_inv s n val l hl hw hpc h
          · exact Service.move_inv s n val l hl hw hpc h

/-- Every event keeps the invariant. -/
theorem Service.step_inv (s : Service) (e : Event) (h : s.Inv) : (s.step e).Inv := by
  cases e with
  | cust n val => exact Service.custEvent_inv s n val h
  | entrep op => exact Service.entrepEvent_inv s op h
  | craft m op => exact Service.craft_inv s m op h

/-- The invariant holds after every sequence of events. -/
theorem Service.run_inv (es : List Event) (s : Service) (h : s.Inv) : (s.run es).Inv := by
  induction es generalizing s with
  | nil => exact h
  | cons e es ih => exact ih (s.step e) (Service.step_inv s e h)


/-- C19: customers are served in arrival order. For every supply schedule and every sequence of
events at the counter (customers following their life cycle and parking on `waitForService` at
the end of `iWantThis`, the entrepreneur executing `sayGoodByeToCustomer` only on the customer
just returned by `addressACustomer`), the identifiers enqueued by `iWantThis` are those returned
by `addressACustomer`, in the same order, followed by the content of the queue; the sequence
returned by `addressACustomer` is a prefix of the sequence enqueued. -/
theorem served_in_arrival_order (pm : List Nat) (es : List Event) :
    ((initialService pm).run es).enq =
      ((initialService pm).run es).deq ++
        queueList ((initialService pm).run es).sys.sh.fSt.shop.queue ∧
    ((initialService pm).run es).deq <+: ((initialService pm).run es).enq := by
  have h := Service.run_inv es (initialService pm) (initialService_inv pm)
  obtain ⟨_, _, hE, _⟩ := h
  refine ⟨hE, ?_⟩
  rw [hE]
  exact List.prefix_append _ _

/-- C20: queue bounds. In every state reached by a sequence of events at the counter the queue
holds at most `N` identifiers, each `< N`, none twice; a queued customer is parked on its
`waitForService` semaphore, whose value is zero, and so is the customer being attended by the
entrepreneur, who is no longer in the queue; and whenever a customer is about to execute
`iWantThis` the queue is not full. -/
theorem queue_bounds (pm : List Nat) (es : List Event) :
    (queueList ((initialService pm).run es).sys.sh.fSt.shop.queue).length ≤ N ∧
    (queueList ((initialService pm).run es).sys.sh.fSt.shop.queue).Nodup ∧
    (∀ c : Nat, c ∈ queueList ((initialService pm).run es).sys.sh.fSt.shop.queue →
      c < N ∧ ((initialService pm).run es).waiting[c]? = some true ∧
        ((initialService pm).run es).wfs[c]? = some 0) ∧
    (∀ c : Nat, ((initialService pm).run es).attending = some c →
      c < N ∧ c ∉ queueList ((initialService pm).run es).sys.sh.fSt.shop.queue ∧
        ((initialService pm).run es).waiting[c]? = some true ∧
        ((initialService pm).run es).wfs[c]? = some 0) ∧
    (∀ (n : Nat) (l : CustLocal), ((initialService pm).run es).sys.cust[n]? = some l →
      l.pc = .iWantThis →
      ((initialService pm).run es).sys.sh.fSt.shop.queue.full = false) := by
  have h := Service.run_inv es (initialService pm) (initialService_inv pm)
  have h2 := h
  obtain ⟨hWF, ⟨hLc, hLw, hLs⟩, hE, hND, hW, hA, hS, hP⟩ := h2
  refine ⟨queueList_length_le _, hND, hW, hA, ?_⟩
  intro n l hl hpc
  have hnw : n < ((initialService pm).run es).waiting.length := by
    rw [hLw, ← hLc]
    by_contra hge
    rw [List.getElem?_eq_none (by omega)] at hl
    exact Option.noConfusion hl
  have hw : ((initialService pm).run es).waiting[n]? =
      some ((initialService pm).run es).waiting[n] := List.getElem?_eq_getElem hnw
  cases hb : ((initialService pm).run es).waiting[n] with
  | true =>
    rw [hb] at hw
    have := hP n l hl hw
    rw [hpc] at this
    exact absurd this (by decide)
  | false =>
    rw [hb] at hw
    exact (Service.free_customer _ n l h hl hw).2.2.2.2

/-- Witness of C19: in the sample run customers 0 and 1 queue in this order and are returned by
`addressACustomer` in this order. -/
theorem served_in_arrival_order_witness :
    ((initialService [5, 5, 5, 6]).run exService).enq = [0, 1] ∧
    ((initialService [5, 5, 5, 6]).run exService).deq = [0, 1] ∧
    ((initialService [5, 5, 5, 6]).run exService).deq <+:
      ((initialService [5, 5, 5, 6]).run exService).enq :=
  ⟨by decide, by decide, (served_in_arrival_order [5, 5, 5, 6] exService).2⟩

/-- Witness of C20: with customers 0 and 1 in the queue, customer 1 is a customer, is parked and
its semaphore is zero. -/
theorem queue_bounds_witness :
    queueList ((initialService [5, 5, 5, 6]).run exServiceQueued).sys.sh.fSt.shop.queue = [0, 1] ∧
    (1 < N ∧ ((initialService [5, 5, 5, 6]).run exServiceQueued).waiting[1]? = some true ∧
      ((initialService [5, 5, 5, 6]).run exServiceQueued).wfs[1]? = some 0) :=
  ⟨by decide, (queue_bounds [5, 5, 5, 6] exServiceQueued).2.2.1 1 (by decide)⟩

/-! ## Selecting goods -/

/-- C21: for every random draw `val` and every 32-bit value `p` of `shop.nProdIn` on entry,
`perusingAround` returns a quantity `q` with `q ≤ 2` and `q ≤ p` and leaves
`shop.nProdIn = p - q` without borrow (`q` plus the new count is `p`), the rest of the shop
unchanged; with `p = 0` it returns 0 and leaves the state as it was, and with `p = 1` it
returns at most 1. -/
theorem perusingAround_quantity (custId val : Nat) (sh : SHARED_DATA)
    (h : sh.fSt.shop.nProdIn < UINT_MOD) :
    ∃ q, (perusingAround custId val sh).out = .ret q ∧ q ≤ 2 ∧ q ≤ sh.fSt.shop.nProdIn ∧
      (perusingAround custId val sh).sh.fSt.shop.nProdIn = sh.fSt.shop.nProdIn - q ∧
      q + (perusingAround custId val sh).sh.fSt.shop.nProdIn = sh.fSt.shop.nProdIn ∧
      (perusingAround custId val sh).sh =
        { sh with fSt.shop.nProdIn := sh.fSt.shop.nProdIn - q } ∧
      (sh.fSt.shop.nProdIn = 0 → q = 0 ∧ (perusingAround custId val sh).sh = sh) ∧
      (sh.fSt.shop.nProdIn = 1 → q ≤ 1) := by
  have hp := pickUp_le val sh
  have h1 : sh.fSt.shop.nProdIn = 1 → pickUp val sh ≤ 1 := fun h1 => h1 ▸ hp.2
  unfold perusingAround
  simp only
  split_ifs with ha hb hc
  · refine ⟨pickUp val sh, rfl, hp.1, hp.2, usub_eq hp.2 h, ?_, ?_, ?_, h1⟩
    · show pickUp val sh + usub _ _ = _
      rw [usub_eq hp.2 h]; omega
    · rw [usub_eq hp.2 h]
    · intro h0; omega
  · have h0 : pickUp val sh = 0 := by simpa using hb
    refine ⟨pickUp val sh, rfl, hp.1, hp.2, by rw [h0]; rfl, by rw [h0]; simp, by rw [h0]; rfl,
      fun _ => ⟨h0, rfl⟩, h1⟩
  · exact absurd rfl hc
  · exact ⟨0, rfl, by omega, by omega, rfl, by simp, rfl, fun _ => ⟨rfl, rfl⟩, fun _ => by omega⟩

/-- C21 (witness): four products on display and a draw above both thresholds: two products
are taken and two remain. -/
theorem perusingAround_quantity_witness :
    exDrained.fSt.shop.nProdIn < UINT_MOD ∧
    ∃ q, (perusingAround 0 2000000000 exDrained).out = .ret q ∧ q ≤ 2 ∧
      q ≤ exDrained.fSt.shop.nProdIn ∧
      (perusingAround 0 2000000000 exDrained).sh.fSt.shop.nProdIn =
        exDrained.fSt.shop.nProdIn - q ∧
      q + (perusingAround 0 2000000000 exDrained).sh.fSt.shop.nProdIn =
        exDrained.fSt.shop.nProdIn ∧
      (perusingAround 0 2000000000 exDrained).sh =
        { exDrained with fSt.shop.nProdIn := exDrained.fSt.shop.nProdIn - q } ∧
      (exDrained.fSt.shop.nProdIn = 0 →
        q = 0 ∧ (perusingAround 0 2000000000 exDrained).sh = exDrained) ∧
      (exDrained.fSt.shop.nProdIn = 1 → q ≤ 1) :=
  ⟨by decide, perusingAround_quantity 0 2000000000 exDrained (by decide)⟩

/-! ## Attend-me signals -/

/-- C22: the signal on `proceed` is raised once per event. For every customer `c`, craftsman `m`
and state: `iWantThis` and `exitShop` perform exactly one `up` on `proceed` and every other
customer operation none; `primeMaterialsNeeded` and `batchReadyForTransfer` perform exactly
one, `endOperCraftsman` exactly one in its last-craftsman branch (schedule exhausted, not enough
prime materials for the craftsmen still operative, and only one of them operative) and none
otherwise, and every other craftsman operation none. -/
theorem proceed_raised_once (c m : Nat) (sh : SHARED_DATA) :
    (∀ op : CustOp, ups .proceed (trCust c op sh) =
      match op with
      | .iWantThis _ => 1
      | .exitShop => 1
      | _ => 0) ∧
    (∀ op : CraftOp, ups .proceed (trCraft m op sh) =
      match op with
      | .primeMaterialsNeeded => 1
      | .batchReadyForTransfer => 1
      | .endOperCraftsman =>
        if sh.fSt.workShop.NSPMat = NP ∧ sh.fSt.workShop.nPMatIn < umul (nOpCraft sh) PP ∧
            nOpCraft sh = 1 then 1 else 0
      | _ => 0) := by
  constructor
  · intro op
    cases op with
    | endOperCustomer =>
      show ups .proceed (endOperCustomer c sh).tr = 0
      unfold endOperCustomer
      simp only
      split_ifs <;> rfl
    | perusingAround val => rfl
    | _ => rfl
  · intro op
    cases op with
    | collectMaterials =>
      show ups .proceed (collectMaterials m sh).tr = 0
      unfold collectMaterials
      split_ifs <;> rfl
    | endOperCraftsman =>
      show ups .proceed (endOperCraftsman m sh).tr = _
      unfold endOperCraftsman
      by_cases h1 : sh.fSt.workShop.NSPMat = NP
      · by_cases h2 : sh.fSt.workShop.nPMatIn < umul (nOpCraft sh) PP
        · by_cases h3 : nOpCraft sh = 1
          · have h2b := h2
            rw [h3] at h2b
            simp [h1, h3, h2b, ups]
          · simp [h1, h2, h3, ups]
        · simp [h1, h2, ups]
      · simp [h1, ups]
    | _ => rfl

/-! ## The initial state -/

/-- C24: for every supply schedule `pm`, the shared region built by `main` has the entrepreneur
opening the shop, every customer and every craftsman operative with no piece bought or produced,
an empty service queue, the shop closed and empty, both request flags false, no craftsman
blocked, and the first delivery in the workshop (`nPMatIn = NTPMat = pm[0]`, `NSPMat = 1`,
`NTProd = 0`, empty storeroom); the products account and the materials account both hold. -/
theorem initialState_spec (pm : List Nat) :
    (initialState pm).fSt.st.entrepStat = OPENING_THE_SHOP ∧
    (initialState pm).fSt.st.custStat = List.replicate N
      { stat := CARRYING_OUT_DAILY_CHORES, boughtPieces := 0, readyToWork := true } ∧
    (initialState pm).fSt.st.craftStat = List.replicate M
      { stat := FETCHING_PRIME_MATERIALS, prodPieces := 0, readyToWork := true } ∧
    ((List.range N).all (fun i => custReady (initialState pm) i)) = true ∧
    ((List.range M).all (fun i => craftReady (initialState pm) i)) = true ∧
    nOpCust (initialState pm) = N ∧ nOpCraft (initialState pm) = M ∧
    sumBought (initialState pm) = 0 ∧
    queueEmpty (initialState pm).fSt.shop.queue = true ∧
    queueList (initialState pm).fSt.shop.queue = [] ∧
    (initialState pm).fSt.shop.stat = SCLOSED ∧
    (initialState pm).fSt.shop.nCustIn = 0 ∧
    (initialState pm).fSt.shop.nProdIn = 0 ∧
    (initialState pm).fSt.shop.prodTransfer = false ∧
    (initialState pm).fSt.shop.primeMatReq = false ∧
    (initialState pm).nCraftsmenBlk = 0 ∧
    (initialState pm).fSt.primeMaterials = pm ∧
    (initialState pm).fSt.workShop.nPMatIn = pm.getD 0 0 ∧
    (initialState pm).fSt.workShop.NTPMat = pm.getD 0 0 ∧
    (initialState pm).fSt.workShop.NSPMat = 1 ∧
    (initialState pm).fSt.workShop.NTProd = 0 ∧
    (initialState pm).fSt.workShop.nProdIn = 0 ∧
    (initialState pm).fSt.shop.nProdIn + (initialState pm).fSt.workShop.nProdIn +
      sumBought (initialState pm) = (initialState pm).fSt.workShop.NTProd ∧
    PP * (initialState pm).fSt.workShop.NTProd ≤ (initialState pm).fSt.workShop.NTPMat ∧
    (initialState pm).fSt.workShop.nPMatIn =
      (initialState pm).fSt.workShop.NTPMat - PP * (initialState pm).fSt.workShop.NTProd := by
  refine ⟨rfl, rfl, rfl, rfl, rfl, rfl, rfl, rfl, rfl,
    queueInit_spec.2, rfl, rfl, rfl, rfl, rfl, rfl, rfl, rfl, rfl, rfl, rfl, rfl, rfl, ?_, ?_⟩
  · show PP * 0 ≤ _
    simp
  · show pm.getD 0 0 = pm.getD 0 0 - PP * 0
    simp

/-! ## The entrepreneur never closes the shop in state CLOSING_THE_SHOP -/

/-- C25 (code defect): `prepareToLeave` closes the shop (`shop.stat = SCLOSED`) and leaves
`entrepStat` as it found it, in every state; after `prepareToWork` in the initial state the
entrepreneur state on return is still `WAITING_FOR_NEXT_TASK`, not `CLOSING_THE_SHOP`. No
operation of the entrepreneur writes `CLOSING_THE_SHOP`: each one leaves `entrepStat` as it was
or sets one of the five other states. -/
theorem prepareToLeave_keeps_entrepStat (sh : SHARED_DATA) :
    (prepareToLeave sh).sh.fSt.st.entrepStat = sh.fSt.st.entrepStat ∧
    (prepareToLeave sh).sh.fSt.shop.stat = SCLOSED ∧
    (prepareToWork exInitial).sh.fSt.st.entrepStat = WAITING_FOR_NEXT_TASK ∧
    (prepareToLeave (prepareToWork exInitial).sh).sh.fSt.st.entrepStat = WAITING_FOR_NEXT_TASK ∧
    (prepareToLeave (prepareToWork exInitial).sh).sh.fSt.st.entrepStat ≠ CLOSING_THE_SHOP ∧
    (∀ op : EntrepOp,
      (execEntrep op sh).fSt.st.entrepStat = sh.fSt.st.entrepStat ∨
      (execEntrep op sh).fSt.st.entrepStat ∈
        [OPENING_THE_SHOP, WAITING_FOR_NEXT_TASK, ATTENDING_A_CUSTOMER,
         COLLECTING_A_BATCH_OF_PRODUCTS, DELIVERING_PRIME_MATERIALS]) ∧
    CLOSING_THE_SHOP ∉
      [OPENING_THE_SHOP, WAITING_FOR_NEXT_TASK, ATTENDING_A_CUSTOMER,
       COLLECTING_A_BATCH_OF_PRODUCTS, DELIVERING_PRIME_MATERIALS] := by
  refine ⟨rfl, rfl, rfl, rfl, by decide, ?_, by decide⟩
  intro op
  cases op with
  | prepareToWork => right; show WAITING_FOR_NEXT_TASK ∈ _; decide
  | appraiseSit => left; rfl
  | addressACustomer =>
    right
    show (addressACustomer sh).sh.fSt.st.entrepStat ∈ _
    have : (addressACustomer sh).sh.fSt.st.entrepStat = ATTENDING_A_CUSTOMER := by
      unfold addressACustomer
      simp only
      split_ifs <;> rfl
    rw [this]; decide
  | sayGoodByeToCustomer c => right; show WAITING_FOR_NEXT_TASK ∈ _; decide
  | customersInTheShop => left; rfl
  | closeTheDoor => left; rfl
  | prepareToLeave => left; rfl
  | goToWorkShop => right; show COLLECTING_A_BATCH_OF_PRODUCTS ∈ _; decide
  | visitSuppliers fuel oob =>
    right
    show (visitSuppliers fuel oob sh).sh.fSt.st.entrepStat ∈ _
    have : (visitSuppliers fuel oob sh).sh.fSt.st.entrepStat = DELIVERING_PRIME_MATERIALS := by
      unfold visitSuppliers
      rw [visitSuppliersLoop_fSt]
      unfold visitSuppliersDeliver
      simp only
      split_ifs <;> rfl
    rw [this]; decide
  | returnToShop => right; show OPENING_THE_SHOP ∈ _; decide
  | endOperEntrep => left; rfl

/-! ## The critical region -/

/-- The execution of `visitSuppliers` with a blocked craftsman: still looping, inside the
critical region. -/
theorem visitSuppliers_blocked (fuel oob : Nat) (sh : SHARED_DATA) (h : 0 < sh.nCraftsmenBlk) :
    (visitSuppliers fuel oob sh).out = .running ∧
    (visitSuppliers fuel oob sh).tr =
      .down .access :: List.replicate fuel (.up .waitForMaterials) := by
  unfold visitSuppliers
  rw [visitSuppliersLoop_spins _ _ _ (by rw [visitSuppliersDeliver_blk]; exact h)]
  exact ⟨rfl, rfl⟩

/-- The execution of `visitSuppliers` with no blocked craftsman: it returns, having entered and
left the critical region. -/
theorem visitSuppliers_free (fuel oob : Nat) (sh : SHARED_DATA) (h : sh.nCraftsmenBlk = 0) :
    (visitSuppliers fuel oob sh).out = .ret () ∧
    (visitSuppliers fuel oob sh).tr = [.down .access, .up .access] := by
  unfold visitSuppliers
  rw [visitSuppliersLoop_zero _ _ _ (by rw [visitSuppliersDeliver_blk]; exact h)]
  exact ⟨rfl, rfl⟩

/-- No `up` on `access` among `up`s on `waitForMaterials`. -/
theorem ups_access_replicate (n : Nat) :
    ups .access (.down .access :: List.replicate n (.up .waitForMaterials)) = 0 ∧
    downs .access (.down .access :: List.replicate n (.up .waitForMaterials)) = 1 := by
  unfold ups downs
  constructor
  · rw [List.count_cons, List.count_replicate]; simp
  · rw [List.count_cons, List.count_replicate]; simp

/-- The customer retirement test returns, having entered and left the critical region. -/
theorem endOperCustomer_tr (c : Nat) (sh : SHARED_DATA) :
    (endOperCustomer c sh).out.ending = .returned ∧
    (endOperCustomer c sh).tr = [.down .access, .up .access] := by
  unfold endOperCustomer
  simp only
  split <;> exact ⟨rfl, rfl⟩

/-- The craftsman retirement test returns; it has entered and left the critical region once. -/
theorem endOperCraftsman_tr (m : Nat) (sh : SHARED_DATA) :
    (endOperCraftsman m sh).out.ending = .returned ∧
    downs .access (endOperCraftsman m sh).tr = 1 ∧
    ups .access (endOperCraftsman m sh).tr = 1 := by
  unfold endOperCraftsman
  simp only
  split
  · split <;> exact ⟨rfl, rfl, rfl⟩
  · exact ⟨rfl, rfl, rfl⟩

/-- The two ways `collectMaterials` ends. -/
theorem collectMaterials_tr (m : Nat) (sh : SHARED_DATA) :
    (sh.fSt.workShop.nPMatIn = 0 ∧ (collectMaterials m sh).out.ending = .parked ∧
      (collectMaterials m sh).tr = [.down .access, .up .access, .down .waitForMaterials]) ∨
    (sh.fSt.workShop.nPMatIn ≠ 0 ∧ (collectMaterials m sh).out.ending = .returned ∧
      (collectMaterials m sh).tr = [.down .access, .up .access]) := by
  unfold collectMaterials
  by_cases h0 : sh.fSt.workShop.nPMatIn = 0
  · left; rw [if_pos h0]; exact ⟨h0, rfl, rfl⟩
  · right; rw [if_neg h0]; exact ⟨h0, rfl, rfl⟩

/-- The two ways `addressACustomer` ends. -/
theorem addressACustomer_tr (sh : SHARED_DATA) :
    ((queueEmpty sh.fSt.shop.queue = true ∨ N ≤ (queueOut sh.fSt.shop.queue).2) ∧
      (addressACustomer sh).out.ending = .exited ∧
      (addressACustomer sh).tr = [.down .access]) ∨
    ((addressACustomer sh).out.ending = .returned ∧
      (addressACustomer sh).tr = [.down .access, .up .access]) := by
  unfold addressACustomer
  simp only
  by_cases he : queueEmpty sh.fSt.shop.queue = true
  · left; rw [if_pos he]; exact ⟨Or.inl he, rfl, rfl⟩
  · rw [if_neg he]
    by_cases hn : N ≤ (queueOut sh.fSt.shop.queue).2
    · left; rw [if_pos hn]; exact ⟨Or.inr hn, rfl, rfl⟩
    · right; rw [if_neg hn]; exact ⟨rfl, rfl⟩

/-- C23 (counterexample): `isDoorOpen`, called with the shop open, returns true having performed
one `down` and no `up` on `access`: a counter `access` that was 1 on entry is 0 on return. And
`addressACustomer`, called with an empty queue, ends the process after its `down` on `access`
without any `up`. -/
theorem isDoorOpen_returns_holding_access :
    (isDoorOpen 0 exOpened).out = .ret true ∧
    (isDoorOpen 0 exOpened).tr = [.down .access] ∧
    downs .access (isDoorOpen 0 exOpened).tr = 1 ∧
    ups .access (isDoorOpen 0 exOpened).tr = 0 ∧
    1 + ups .access (isDoorOpen 0 exOpened).tr - downs .access (isDoorOpen 0 exOpened).tr = 0 ∧
    queueEmpty exInitial.fSt.shop.queue = true ∧
    (addressACustomer exInitial).out = .fatal ∧
    (addressACustomer exInitial).tr = [.down .access] ∧
    1 + ups .access (addressACustomer exInitial).tr -
      downs .access (addressACustomer exInitial).tr = 0 := by
  decide

/-- C23 (amended): the balance of `down` and `up` on `access` of every operation, in every
state, by the way the operation ends. An operation that returns has released the region as many
times as it entered it (at least once), except `isDoorOpen`, which returns inside the region
(one `down`, no `up`), and `tryAgainLater` and `enterShop`, which only leave it (one `up`, no
`down`): the door check followed by either of them is balanced. An operation that parks
(`collectMaterials` without prime materials) has left the region before its `down` on
`waitForMaterials`. The only exits of the process are those of `addressACustomer` (queue empty
or identifier out of range), inside the region; the only execution that does not end is the
wake-up loop of `visitSuppliers` with a blocked craftsman, inside the region. -/
theorem access_balance (a : Action) (sh : SHARED_DATA) :
    (match ending a sh with
     | .returned =>
       if a.isDoorCheck then
         downs .access (trace a sh) = 1 ∧ ups .access (trace a sh) = 0
       else if a.leavesDoorRegion then
         downs .access (trace a sh) = 0 ∧ ups .access (trace a sh) = 1
       else
         0 < downs .access (trace a sh) ∧
         ups .access (trace a sh) = downs .access (trace a sh)
     | .parked =>
       (∃ m, a = .craft m .collectMaterials) ∧ sh.fSt.workShop.nPMatIn = 0 ∧
       trace a sh = [.down .access, .up .access, .down .waitForMaterials]
     | .exited =>
       a = .entrep .addressACustomer ∧
       (queueEmpty sh.fSt.shop.queue = true ∨ N ≤ (queueOut sh.fSt.shop.queue).2) ∧
       downs .access (trace a sh) = 1 ∧ ups .access (trace a sh) = 0
     | .looping =>
       (∃ fuel oob, a = .entrep (.visitSuppliers fuel oob)) ∧ 0 < sh.nCraftsmenBlk ∧
       downs .access (trace a sh) = 1 ∧ ups .access (trace a sh) = 0) ∧
    (∀ c : Nat,
      ups .access (trace (.cust c .isDoorOpen) sh ++
          trace (.cust c .tryAgainLater) (exec (.cust c .isDoorOpen) sh)) =
        downs .access (trace (.cust c .isDoorOpen) sh ++
          trace (.cust c .tryAgainLater) (exec (.cust c .isDoorOpen) sh)) ∧
      ups .access (trace (.cust c .isDoorOpen) sh ++
          trace (.cust c .enterShop) (exec (.cust c .isDoorOpen) sh)) =
        downs .access (trace (.cust c .isDoorOpen) sh ++
          trace (.cust c .enterShop) (exec (.cust c .isDoorOpen) sh))) := by
  refine ⟨?_, fun c => ⟨rfl, rfl⟩⟩
  cases a with
  | entrep op =>
    cases op with
    | addressACustomer =>
      have hE : ending (.entrep .addressACustomer) sh = (addressACustomer sh).out.ending := rfl
      have hT : trace (.entrep .addressACustomer) sh = (addressACustomer sh).tr := rfl
      rw [hE, hT]
      rcases addressACustomer_tr sh with ⟨h, ho, ht⟩ | ⟨ho, ht⟩
      · rw [ho, ht]; exact ⟨rfl, h, rfl, rfl⟩
      · rw [ho, ht]; exact ⟨Nat.zero_lt_one, rfl⟩
    | visitSuppliers fuel oob =>
      have hE : ending (.entrep (.visitSuppliers fuel oob)) sh =
        (visitSuppliers fuel oob sh).out.ending := rfl
      have hT : trace (.entrep (.visitSuppliers fuel oob)) sh =
        (visitSuppliers fuel oob sh).tr := rfl
      rw [hE, hT]
      by_cases hb : 0 < sh.nCraftsmenBlk
      · obtain ⟨ho, ht⟩ := visitSuppliers_blocked fuel oob sh hb
        rw [ho, ht]
        exact ⟨⟨fuel, oob, rfl⟩, hb, (ups_access_replicate fuel).2, (ups_access_replicate fuel).1⟩
      · obtain ⟨ho, ht⟩ := visitSuppliers_free fuel oob sh (by omega)
        rw [ho, ht]
        exact ⟨Nat.zero_lt_one, rfl⟩
    | appraiseSit => exact ⟨Nat.zero_lt_two, rfl⟩
    | _ => exact ⟨Nat.zero_lt_one, rfl⟩
  | cust c op =>
    cases op with
    | endOperCustomer =>
      have hE : ending (.cust c .endOperCustomer) sh = (endOperCustomer c sh).out.ending := rfl
      have hT : trace (.cust c .endOperCustomer) sh = (endOperCustomer c sh).tr := rfl
      rw [hE, hT, (endOperCustomer_tr c sh).1, (endOperCustomer_tr c sh).2]
      exact ⟨Nat.zero_lt_one, rfl⟩
    | isDoorOpen => exact ⟨rfl, rfl⟩
    | tryAgainLater => exact ⟨rfl, rfl⟩
    | enterShop => exact ⟨rfl, rfl⟩
    | _ => exact ⟨Nat.zero_lt_one, rfl⟩
  | craft m op =>
    cases op with
    | collectMaterials =>
      have hE : ending (.craft m .collectMaterials) sh = (collectMaterials m sh).out.ending := rfl
      have hT : trace (.craft m .collectMaterials) sh = (collectMaterials m sh).tr := rfl
      rw [hE, hT]
      rcases collectMaterials_tr m sh with ⟨h, ho, ht⟩ | ⟨h, ho, ht⟩
      · rw [ho, ht]; exact ⟨⟨m, rfl⟩, h, rfl⟩
      · rw [ho, ht]; exact ⟨Nat.zero_lt_one, rfl⟩
    | endOperCraftsman =>
      have hE : ending (.craft m .endOperCraftsman) sh = (endOperCraftsman m sh).out.ending := rfl
      have hT : trace (.craft m .endOperCraftsman) sh = (endOperCraftsman m sh).tr := rfl
      obtain ⟨ho, hd, hu⟩ := endOperCraftsman_tr m sh
      rw [hE, hT, ho]
      show 0 < downs .access (endOperCraftsman m sh).tr ∧
        ups .access (endOperCraftsman m sh).tr = downs .access (endOperCraftsman m sh).tr
      rw [hd, hu]
      exact ⟨Nat.zero_lt_one, rfl⟩
    | _ => exact ⟨Nat.zero_lt_one, rfl⟩

/-- The second retirement test of `endOperCustomer`, computed on 32-bit words, is the congruence
of the mathematical expression to zero modulo `2^32`. -/
theorem usub_uadd_eq_zero_iff (a b c d : Nat) :
    usub (uadd (uadd a b) c) (umul PP d) = 0 ↔
      ((a : Int) + b + c - PP * d) % (UINT_MOD : Int) = 0 := by
  unfold usub uadd umul PP UINT_MOD
  push_cast
  split_ifs with h <;> omega

/-- C30: exact retirement condition of a customer. In every state in which the number `s` of
products on display and in the storeroom fits in a 32-bit word, `endOperCustomer` returns, and
it returns true iff `nPMatIn = 0`, `NSPMat = NP` and either `s < 2 * nOpCust` with
`nOpCust >= 2`, or `s + NTPMat - PP * NTProd` is zero modulo `2^32`. Inside the first disjunct
the test `nOpCust != 1` of the code amounts to `nOpCust >= 2` (with `nOpCust = 0` the
comparison fails). With exactly one operative customer, in a state where the pieces produced
account for no more than the materials delivered and `s + NTPMat` fits in a word, a true result
means that no product is left on display or in the storeroom and every unit of material
delivered has been turned into pieces. -/
theorem endOperCustomer_retirement_condition (custId : Nat) (sh : SHARED_DATA)
    (hs : sh.fSt.shop.nProdIn + sh.fSt.workShop.nProdIn < UINT_MOD) :
    nOpCust sh = ((List.range N).filter (fun i => custReady sh i)).length ∧
    ((endOperCustomer custId sh).out = .ret true ∨
      (endOperCustomer custId sh).out = .ret false) ∧
    ((endOperCustomer custId sh).out = .ret true ↔
      sh.fSt.workShop.nPMatIn = 0 ∧ sh.fSt.workShop.NSPMat = NP ∧
      ((sh.fSt.shop.nProdIn + sh.fSt.workShop.nProdIn < 2 * nOpCust sh ∧ 2 ≤ nOpCust sh) ∨
       ((sh.fSt.shop.nProdIn : Int) + sh.fSt.workShop.nProdIn + sh.fSt.workShop.NTPMat
          - PP * sh.fSt.workShop.NTProd) % (UINT_MOD : Int) = 0)) ∧
    (sh.fSt.shop.nProdIn + sh.fSt.workShop.nProdIn < 2 * nOpCust sh →
      (nOpCust sh ≠ 1 ↔ 2 ≤ nOpCust sh)) ∧
    (nOpCust sh = 0 → ¬ sh.fSt.shop.nProdIn + sh.fSt.workShop.nProdIn < 2 * nOpCust sh) ∧
    (nOpCust sh = 1 → PP * sh.fSt.workShop.NTProd ≤ sh.fSt.workShop.NTPMat →
      sh.fSt.shop.nProdIn + sh.fSt.workShop.nProdIn + sh.fSt.workShop.NTPMat < UINT_MOD →
      (endOperCustomer custId sh).out = .ret true →
      sh.fSt.shop.nProdIn = 0 ∧ sh.fSt.workShop.nProdIn = 0 ∧
      sh.fSt.workShop.NTPMat = PP * sh.fSt.workShop.NTProd) := by
  have hk : nOpCust sh ≤ 3 := nOpCust_le sh
  have hmul : umul 2 (nOpCust sh) = 2 * nOpCust sh := by
    unfold umul UINT_MOD; omega
  have hsum : uadd sh.fSt.shop.nProdIn sh.fSt.workShop.nProdIn =
      sh.fSt.shop.nProdIn + sh.fSt.workShop.nProdIn := uadd_eq hs
  have hB := usub_uadd_eq_zero_iff sh.fSt.shop.nProdIn sh.fSt.workShop.nProdIn
    sh.fSt.workShop.NTPMat sh.fSt.workShop.NTProd
  have hiff : ((endOperCustomer custId sh).out = .ret true ↔
      sh.fSt.workShop.nPMatIn = 0 ∧ sh.fSt.workShop.NSPMat = NP ∧
      ((sh.fSt.shop.nProdIn + sh.fSt.workShop.nProdIn < 2 * nOpCust sh ∧ 2 ≤ nOpCust sh) ∨
       ((sh.fSt.shop.nProdIn : Int) + sh.fSt.workShop.nProdIn + sh.fSt.workShop.NTPMat
          - PP * sh.fSt.workShop.NTProd) % (UINT_MOD : Int) = 0)) := by
    rw [← hB, ← hsum]
    by_cases hP : sh.fSt.workShop.nPMatIn = 0
    · by_cases hS : sh.fSt.workShop.NSPMat = NP
      · by_cases hA : uadd sh.fSt.shop.nProdIn sh.fSt.workShop.nProdIn < 2 * nOpCust sh
        · by_cases hB2 : usub (uadd (uadd sh.fSt.shop.nProdIn sh.fSt.workShop.nProdIn)
              sh.fSt.workShop.NTPMat) (umul PP sh.fSt.workShop.NTProd) = 0
          · simp [endOperCustomer, hP, hS, hmul, hA, hB2]
          · by_cases hC : 2 ≤ nOpCust sh
            · have h1 : nOpCust sh ≠ 1 := by omega
              simp [endOperCustomer, hP, hS, hmul, hA, hB2, hC, h1]
            · have h1 : nOpCust sh = 1 := by omega
              simp [endOperCustomer, hP, hS, hmul, hA, hB2, h1]
        · by_cases hB2 : usub (uadd (uadd sh.fSt.shop.nProdIn sh.fSt.workShop.nProdIn)
              sh.fSt.workShop.NTPMat) (umul PP sh.fSt.workShop.NTProd) = 0
          · simp [endOperCustomer, hP, hS, hmul, hA, hB2]
          · simp [endOperCustomer, hP, hS, hmul, hA, hB2]
      · simp [endOperCustomer, hP, hS]
    · simp [endOperCustomer, hP]
  refine ⟨nOpCust_eq_count sh, ?_, hiff, fun h => by omega, fun h => by omega, ?_⟩
  · have hex : ∃ b, (endOperCustomer custId sh).out = .ret b := by
      unfold endOperCustomer
      simp only
      split <;> exact ⟨_, rfl⟩
    obtain ⟨b, hb⟩ := hex
    cases b
    · exact Or.inr hb
    · exact Or.inl hb
  · intro h1 hle hfit hret
    obtain ⟨_, _, hd⟩ := hiff.mp hret
    have hz : ((sh.fSt.shop.nProdIn : Int) + sh.fSt.workShop.nProdIn + sh.fSt.workShop.NTPMat
          - PP * sh.fSt.workShop.NTProd) % (UINT_MOD : Int) = 0 := by
      rcases hd with hd | hd
      · omega
      · exact hd
    unfold UINT_MOD PP at *
    push_cast at hz
    omega

/-- C30 (witness): schedule exhausted, no prime materials, five products left for three
operative customers: the retirement condition holds through its first disjunct. -/
theorem endOperCustomer_retirement_condition_witness :
    exLastCraftsman.fSt.shop.nProdIn + exLastCraftsman.fSt.workShop.nProdIn < UINT_MOD ∧
    (endOperCustomer 1 exLastCraftsman).out = .ret true ∧
    ((endOperCustomer 1 exLastCraftsman).out = .ret true ↔
      exLastCraftsman.fSt.workShop.nPMatIn = 0 ∧ exLastCraftsman.fSt.workShop.NSPMat = NP ∧
      ((exLastCraftsman.fSt.shop.nProdIn + exLastCraftsman.fSt.workShop.nProdIn <
          2 * nOpCust exLastCraftsman ∧ 2 ≤ nOpCust exLastCraftsman) ∨
       ((exLastCraftsman.fSt.shop.nProdIn : Int) + exLastCraftsman.fSt.workShop.nProdIn +
          exLastCraftsman.fSt.workShop.NTPMat - PP * exLastCraftsman.fSt.workShop.NTProd) %
            (UINT_MOD : Int) = 0)) :=
  ⟨by decide, by decide,
    (endOperCustomer_retirement_condition 1 exLastCraftsman (by decide)).2.2.1⟩

/-! ## The monitor version of `appraiseSit` -/

/-- When the four tests fail, the loop of the monitor version of `appraiseSit` uses up every
pending wake-up and waits. -/
theorem appraiseSitLoop_idle (fSt : FULL_STAT) (n : Nat)
    (hq : queueEmpty fSt.shop.queue = true) (hp : fSt.shop.primeMatReq = false)
    (ht : fSt.shop.prodTransfer = false) (hr : retirementTest fSt = false) :
    appraiseSitLoop fSt n = { mon := { fSt := fSt, nWakeUp := 0 }, out := .blocked } := by
  induction n with
  | zero => rfl
  | succ k ih =>
    rw [appraiseSitLoop]
    simp [hq, hp, ht, hr, ih]

/-- C28: the monitor version of `appraiseSit` decides on the state it re-checks after a
wake-up. For every full state and every count of pending wake-ups: it leaves the loop with C
exactly when a wake-up is pending and the queue is not empty; with P exactly when a wake-up is
pending, the queue is empty and `primeMatReq` is set; with G exactly when a wake-up is pending,
the queue is empty, `primeMatReq` is clear and `prodTransfer` is set; with E exactly when a
wake-up is pending, none of these holds and the retirement test holds. In each of these cases
one wake-up has been consumed. Otherwise (no wake-up pending, or all four tests fail) it yields
no letter: it is waiting on the condition with `nWakeUp = 0`. The full state is never
changed. -/
theorem appraiseSitMonitor_rechecks (m : MON) :
    ((appraiseSitMonitor m).out = .ret 'C' ↔
      0 < m.nWakeUp ∧ queueEmpty m.fSt.shop.queue = false) ∧
    ((appraiseSitMonitor m).out = .ret 'P' ↔
      0 < m.nWakeUp ∧ queueEmpty m.fSt.shop.queue = true ∧ m.fSt.shop.primeMatReq = true) ∧
    ((appraiseSitMonitor m).out = .ret 'G' ↔
      0 < m.nWakeUp ∧ queueEmpty m.fSt.shop.queue = true ∧ m.fSt.shop.primeMatReq = false ∧
      m.fSt.shop.prodTransfer = true) ∧
    ((appraiseSitMonitor m).out = .ret 'E' ↔
      0 < m.nWakeUp ∧ queueEmpty m.fSt.shop.queue = true ∧ m.fSt.shop.primeMatReq = false ∧
      m.fSt.shop.prodTransfer = false ∧ retirementTest m.fSt = true) ∧
    ((appraiseSitMonitor m).out = .blocked ↔
      m.nWakeUp = 0 ∨
      (queueEmpty m.fSt.shop.queue = true ∧ m.fSt.shop.primeMatReq = false ∧
       m.fSt.shop.prodTransfer = false ∧ retirementTest m.fSt = false)) ∧
    ((appraiseSitMonitor m).out = .ret 'C' ∨ (appraiseSitMonitor m).out = .ret 'P' ∨
      (appraiseSitMonitor m).out = .ret 'G' ∨ (appraiseSitMonitor m).out = .ret 'E' ∨
      (appraiseSitMonitor m).out = .blocked) ∧
    (appraiseSitMonitor m).mon.nWakeUp =
      (if (appraiseSitMonitor m).out = .blocked then 0 else m.nWakeUp - 1) ∧
    (appraiseSitMonitor m).mon.fSt = m.fSt := by
  obtain ⟨fSt, n⟩ := m
  unfold appraiseSitMonitor
  simp only
  cases n with
  | zero =>
    have h0 : appraiseSitLoop fSt 0 = { mon := { fSt := fSt, nWakeUp := 0 }, out := .blocked } :=
      rfl
    rw [h0]
    simp
  | succ k =>
    rw [appraiseSitLoop]
    cases hq : queueEmpty fSt.shop.queue
    · simp
    · cases hp : fSt.shop.primeMatReq
      · cases ht : fSt.shop.prodTransfer
        · cases hr : retirementTest fSt
          · rw [appraiseSitLoop_idle fSt k hq hp ht hr]
            simp
          · simp
        · simp
      · simp

/-- The monitor version of `appraiseSit` with a customer queued and with nothing to do: the
letter C with one wake-up consumed, and a wait with every wake-up consumed. -/
theorem appraiseSitMonitor_examples :
    appraiseSitMonitor exMonQueued =
      { mon := { fSt := exQueued.fSt, nWakeUp := 1 }, out := .ret 'C' } ∧
    retirementTest exMonIdle.fSt = false ∧
    appraiseSitMonitor exMonIdle =
      { mon := { fSt := exOpened.fSt, nWakeUp := 0 }, out := .blocked } := by
  decide

/-! ## The distribution of `pickUp` -/

/-- C27 (counterexample): with four products on display, the value 1400000000 (above
`0.58 * RAND_MAX`, below `0.7 * RAND_MAX`) makes `pickUp` return 1, not 2. -/
theorem pickUp_one_above_58_percent :
    exDrained.fSt.shop.nProdIn = 4 ∧
    58 * RAND_MAX < 100 * 1400000000 ∧
    100 * 1400000000 < 70 * RAND_MAX ∧
    1400000000 ≤ RAND_MAX ∧
    pickUp 1400000000 exDrained = 1 := by
  decide

/-- C27 (amended): with at least two products on display, `pickUp` returns 0 for the values
below `floor (0.3 * RAND_MAX) = 644245094`, 1 for the values from there up to
`floor (0.7 * RAND_MAX) = 1503238552` (excluded), and 2 for the rest. Of the `RAND_MAX + 1`
values, 644245094 (30%) give 0, 858993458 (40% of all values, 57% of those that do not
give 0) give 1, and 644245096 (30%) give 2. -/
theorem pickUp_distribution (sh : SHARED_DATA) (h : 2 ≤ sh.fSt.shop.nProdIn) :
    3 * RAND_MAX / 10 = 644245094 ∧ 7 * RAND_MAX / 10 = 1503238552 ∧
    (∀ val, pickUp val sh =
      if val < 644245094 then 0 else if val < 1503238552 then 1 else 2) ∧
    ((Finset.range (RAND_MAX + 1)).filter (fun val => pickUp val sh = 0)).card = 644245094 ∧
    ((Finset.range (RAND_MAX + 1)).filter (fun val => pickUp val sh = 1)).card = 858993458 ∧
    ((Finset.range (RAND_MAX + 1)).filter (fun val => pickUp val sh = 2)).card = 644245096 ∧
    10 * 644245094 ≤ 3 * (RAND_MAX + 1) ∧ 3 * (RAND_MAX + 1) < 10 * (644245094 + 1) ∧
    10 * 858993458 ≤ 4 * (RAND_MAX + 1) ∧ 4 * (RAND_MAX + 1) < 10 * (858993458 + 2) ∧
    57 * (858993458 + 644245096) ≤ 100 * 858993458 ∧
    100 * 858993458 < 58 * (858993458 + 644245096) ∧
    28 * (RAND_MAX + 1) < 39 * (RAND_MAX + 1) ∧ 39 * (RAND_MAX + 1) < 100 * 858993458 := by
  have hform : ∀ val, pickUp val sh =
      if val < 644245094 then 0 else if val < 1503238552 then 1 else 2 := by
    intro val
    have h0 : sh.fSt.shop.nProdIn ≠ 0 := by omega
    have h1 : sh.fSt.shop.nProdIn ≠ 1 := by omega
    have e3 : 3 * RAND_MAX / 10 = 644245094 := by unfold RAND_MAX; norm_num
    have e7 : 7 * RAND_MAX / 10 = 1503238552 := by unfold RAND_MAX; norm_num
    unfold pickUp
    rw [e3, e7]
    simp only [h0, h1, or_false]
  have c0 : (Finset.range (RAND_MAX + 1)).filter (fun val => pickUp val sh = 0) =
      Finset.range 644245094 := by
    ext v
    simp only [Finset.mem_filter, Finset.mem_range, hform]
    unfold RAND_MAX
    split_ifs <;> first | omega | (simp only [and_false, false_iff, not_lt]; omega)
  have c1 : (Finset.range (RAND_MAX + 1)).filter (fun val => pickUp val sh = 1) =
      Finset.Ico 644245094 1503238552 := by
    ext v
    simp only [Finset.mem_filter, Finset.mem_range, Finset.mem_Ico, hform]
    unfold RAND_MAX
    split_ifs <;> first | omega | (simp only [and_false, false_iff, not_lt]; omega)
  have c2 : (Finset.range (RAND_MAX + 1)).filter (fun val => pickUp val sh = 2) =
      Finset.Ico 1503238552 2147483648 := by
    ext v
    simp only [Finset.mem_filter, Finset.mem_range, Finset.mem_Ico, hform]
    unfold RAND_MAX
    split_ifs <;> first | omega | (simp only [and_false, false_iff, not_lt]; omega)
  refine ⟨by unfold RAND_MAX; norm_num, by unfold RAND_MAX; norm_num, hform, ?_, ?_, ?_,
    by unfold RAND_MAX; norm_num, by unfold RAND_MAX; norm_num, by unfold RAND_MAX; norm_num,
    by unfold RAND_MAX; norm_num, by norm_num, by norm_num, by unfold RAND_MAX; norm_num,
    by unfold RAND_MAX; norm_num⟩
  · rw [c0, Finset.card_range]
  · rw [c1, Nat.card_Ico]
  · rw [c2, Nat.card_Ico]

/-- C27 (witness): four products on display. -/
theorem pickUp_distribution_witness :
    2 ≤ exDrained.fSt.shop.nProdIn ∧
    (∀ val, pickUp val exDrained =
      if val < 644245094 then 0 else if val < 1503238552 then 1 else 2) ∧
    ((Finset.range (RAND_MAX + 1)).filter (fun val => pickUp val exDrained = 1)).card =
      858993458 :=
  ⟨by decide, (pickUp_distribution exDrained (by decide)).2.2.1,
    (pickUp_distribution exDrained (by decide)).2.2.2.2.1⟩

/-! ## The life cycles together -/

/-- An assignment to a customer entry that keeps the flag keeps every flag. -/
theorem custReady_updCust_keep (sh : SHARED_DATA) (c : Nat) (f : STAT_CUST → STAT_CUST)
    (hf : ∀ x, (f x).readyToWork = x.readyToWork) (i : Nat) :
    custReady (updCust sh c f) i = custReady sh i := by
  unfold custReady updCust
  simp only
  rw [getElem?_updAt]
  by_cases hic : i = c
  · rw [if_pos hic]
    cases hx : sh.fSt.st.custStat[i]? with
    | none => rfl
    | some x => exact hf x
  · rw [if_neg hic]

/-- A property of every entry of a list still holds after one entry is replaced by a value that
has it. -/
theorem forall_mem_set {α : Type} (P : α → Prop) (l : List α) (n : Nat) (x : α)
    (h : ∀ a ∈ l, P a) (hx : P x) : ∀ a ∈ l.set n x, P a := by
  intro a ha
  rcases List.mem_or_eq_of_mem_set ha with h1 | h1
  · exact h a h1
  · exact h1 ▸ hx

/-- One turn keeps the shop closed and the agents where they are. -/
theorem World.step_idle (w : World) (t : Turn) (h : w.Idle) : (w.step t).Idle := by
  obtain ⟨hs, hn, he, hcr, hcu, hr⟩ := h
  cases t with
  | entrep fuel oob =>
    have hstep : entrepStep fuel oob w.entrep w.sh = ({ w.entrep with pc := .finished }, w.sh) ∨
        entrepStep fuel oob w.entrep w.sh = (w.entrep, w.sh) := by
      unfold entrepStep
      rcases he with he | he
      · left; rw [he]; rfl
      · right; rw [he]
    show World.Idle ⟨(entrepStep fuel oob w.entrep w.sh).2,
      (entrepStep fuel oob w.entrep w.sh).1, w.cust, w.craft⟩
    rcases hstep with h1 | h1
    · rw [h1]; exact ⟨hs, hn, Or.inr rfl, hcr, hcu, hr⟩
    · rw [h1]; exact ⟨hs, hn, he, hcr, hcu, hr⟩
  | craft m =>
    cases hl : w.craft[m]? with
    | none =>
      have : w.step (.craft m) = w := by simp only [World.step, hl]
      rw [this]; exact ⟨hs, hn, he, hcr, hcu, hr⟩
    | some l =>
      have hst : w.step (.craft m) = ⟨(craftStep m l w.sh).2, w.entrep, w.cust,
          w.craft.set m (craftStep m l w.sh).1⟩ := by simp only [World.step, hl]
      have hmem : l ∈ w.craft := List.mem_iff_getElem?.mpr ⟨_, hl⟩
      have hne : ¬ w.sh.fSt.workShop.NSPMat = NP := by rw [hn]; decide
      have hend : endOperCraftsman m w.sh =
          { sh := w.sh, tr := [.down .access, .up .access], out := .ret true } := by
        unfold endOperCraftsman
        simp [hne, assign]
      have hstep : craftStep m l w.sh = ({ l with pc := .finished }, w.sh) ∨
          craftStep m l w.sh = (l, w.sh) := by
        unfold craftStep
        rcases hcr l hmem with hp | hp
        · left; rw [hp]; simp only [hend]; rfl
        · right; rw [hp]
      rw [hst]
      rcases hstep with h1 | h1
      · rw [h1]
        exact ⟨hs, hn, he, forall_mem_set _ _ _ _ hcr (Or.inr rfl), hcu, hr⟩
      · rw [h1]
        exact ⟨hs, hn, he, forall_mem_set _ _ _ _ hcr (hcr l hmem), hcu, hr⟩
  | cust n val =>
    cases hl : w.cust[n]? with
    | none =>
      have : w.step (.cust n val) = w := by simp only [World.step, hl]
      rw [this]; exact ⟨hs, hn, he, hcr, hcu, hr⟩
    | some l =>
      have hst : w.step (.cust n val) = ⟨(custStep n val l w.sh).2, w.entrep,
          w.cust.set n (custStep n val l w.sh).1, w.craft⟩ := by simp only [World.step, hl]
      have hmem : l ∈ w.cust := List.mem_iff_getElem?.mpr ⟨_, hl⟩
      have hne : ¬ w.sh.fSt.workShop.NSPMat = NP := by rw [hn]; decide
      have hclosed : ¬ w.sh.fSt.shop.stat = SOPEN := by rw [hs]; decide
      rw [hst]
      rcases hcu l hmem with hp | hp | hp | hp
      · have hend : endOperCustomer n w.sh =
            { sh := w.sh, tr := [.down .access, .up .access], out := .ret false } := by
          unfold endOperCustomer
          simp [hne]
        have h1 : custStep n val l w.sh = ({ l with pc := .goShopping }, w.sh) := by
          unfold custStep
          rw [hp]; simp only [hend]; rfl
        rw [h1]
        exact ⟨hs, hn, he, hcr, forall_mem_set _ _ _ _ hcu (Or.inr (Or.inl rfl)), hr⟩
      · have h1 : custStep n val l w.sh = ({ l with pc := .isDoorOpen }, (goShopping n w.sh).sh) := by
          unfold custStep
          rw [hp]
        rw [h1]
        refine ⟨hs, hn, he, hcr, forall_mem_set _ _ _ _ hcu (Or.inr (Or.inr (Or.inl rfl))), ?_⟩
        intro i hi
        exact (custReady_updCust_keep w.sh n (fun c => { c with stat := CHECKING_SHOP_DOOR_OPEN })
          (fun _ => rfl) i).trans (hr i hi)
      · have h1 : custStep n val l w.sh = ({ l with pc := .tryAgainLater }, w.sh) := by
          unfold custStep
          rw [hp]
          simp [isDoorOpen, Run.valD, hclosed]
        rw [h1]
        exact ⟨hs, hn, he, hcr, forall_mem_set _ _ _ _ hcu (Or.inr (Or.inr (Or.inr rfl))), hr⟩
      · have h1 : custStep n val l w.sh =
            ({ l with pc := .goShopping }, (tryAgainLater n w.sh).sh) := by
          unfold custStep
          rw [hp]
        rw [h1]
        refine ⟨hs, hn, he, hcr, forall_mem_set _ _ _ _ hcu (Or.inr (Or.inl rfl)), ?_⟩
        intro i hi
        exact (custReady_updCust_keep w.sh n
          (fun c => { c with stat := CARRYING_OUT_DAILY_CHORES }) (fun _ => rfl) i).trans (hr i hi)

/-- Every sequence of turns keeps the shop closed and the agents where they are. -/
theorem World.run_idle (w : World) (ts : List Turn) (h : w.Idle) : (w.run ts).Idle := by
  induction ts generalizing w with
  | nil => exact h
  | cons t ts ih => exact ih (w.step t) (World.step_idle w t h)

/-- The initial state of the life cycles. -/
theorem initialWorld_idle (pm : List Nat) : (initialWorld pm).Idle := by
  refine ⟨rfl, rfl, Or.inl rfl, ?_, ?_, ?_⟩
  · intro l hl
    left
    rw [List.eq_of_mem_replicate hl]
  · intro l hl
    left
    rw [List.eq_of_mem_replicate hl]
  · intro i hi
    have : i = 0 ∨ i = 1 ∨ i = 2 := by unfold N at hi; omega
    rcases this with h | h | h <;> subst h <;> rfl

/-- A round of turns run any number of times after the first turns leaves the processes where
the first turns left them. -/
theorem exRound_repeats (k : Nat) :
    (initialWorld [5, 5, 5, 6]).run (exFirstTurns ++ (List.replicate k exRound).flatten) =
      (initialWorld [5, 5, 5, 6]).run exFirstTurns := by
  induction k with
  | zero => simp
  | succ k ih =>
    rw [List.replicate_succ', List.flatten_append, ← List.append_assoc]
    unfold World.run at ih ⊢
    rw [List.foldl_append, ih]
    decide

/-- C26 (code defect): the simulation does not reach the retirement of the agents. For every
supply schedule (in particular 5, 5, 5, 6) and every sequence of turns of the three life cycles,
fair or not: the entrepreneur is at her first `endOperEntrep` or has left (it returns true at
once), and so are the craftsmen with `endOperCraftsman`; the shop is never opened and no second
delivery is made, so the retirement predicate of the entrepreneur is false in every state
reached; no customer ever retires (each one is at its first `endOperCustomer` or in its door
loop, with `readyToWork` set). For the schedule 5, 5, 5, 6, after the first turn of every
process the entrepreneur and the craftsmen have left with the five units of the first delivery
untouched, and a round in which every process takes a turn brings the system back to the same
state, however many times it is run. -/
theorem life_cycles_never_retire (pm : List Nat) (ts : List Turn) :
    endOperEntrepStat ((initialWorld pm).run ts).sh = false ∧
    ((initialWorld pm).run ts).sh.fSt.shop.stat = SCLOSED ∧
    ((initialWorld pm).run ts).sh.fSt.workShop.NSPMat = 1 ∧
    (((initialWorld pm).run ts).entrep.pc = .endOperEntrep ∨
      ((initialWorld pm).run ts).entrep.pc = .finished) ∧
    (∀ l ∈ ((initialWorld pm).run ts).craft, l.pc = .endOperCraftsman ∨ l.pc = .finished) ∧
    (∀ l ∈ ((initialWorld pm).run ts).cust, l.pc ≠ .finished) ∧
    (∀ i, i < N → custReady ((initialWorld pm).run ts).sh i = true) ∧
    (initialWorld [5, 5, 5, 6]).sh = exInitial ∧
    ((initialWorld [5, 5, 5, 6]).run exFirstTurns).entrep.pc = .finished ∧
    ((initialWorld [5, 5, 5, 6]).run exFirstTurns).craft =
      List.replicate M { pc := .finished, alert := false, np := 0 } ∧
    ((initialWorld [5, 5, 5, 6]).run exFirstTurns).cust =
      List.replicate N { pc := .goShopping, ng := 0 } ∧
    ((initialWorld [5, 5, 5, 6]).run exFirstTurns).sh = exInitial ∧
    (∀ k, (initialWorld [5, 5, 5, 6]).run (exFirstTurns ++ (List.replicate k exRound).flatten) =
      (initialWorld [5, 5, 5, 6]).run exFirstTurns) := by
  obtain ⟨hs, hn, he, hcr, hcu, hr⟩ := World.run_idle _ ts (initialWorld_idle pm)
  refine ⟨?_, hs, hn, he, hcr, ?_, hr, rfl, by decide, by decide, by decide, by decide,
    exRound_repeats⟩
  · have hne : ¬ ((initialWorld pm).run ts).sh.fSt.workShop.NSPMat = NP := by rw [hn]; decide
    unfold endOperEntrepStat
    simp [hne]
  · intro l hl hfin
    rcases hcu l hl with h | h | h | h <;> rw [h] at hfin <;> cases hfin

/-! ## The door of the shop -/

/-- Every operation of the entrepreneur starts with a `down` on `access` and performs no more
`up` than `down` on it. -/
theorem trEntrep_access (op : EntrepOp) (sh : SHARED_DATA) :
    (trEntrep op sh).head? = some (.down .access) ∧
    ups .access (trEntrep op sh) ≤ downs .access (trEntrep op sh) := by
  cases op with
  | addressACustomer =>
    show (addressACustomer sh).tr.head? = _ ∧
      ups .access (addressACustomer sh).tr ≤ downs .access (addressACustomer sh).tr
    rcases addressACustomer_tr sh with ⟨_, _, ht⟩ | ⟨_, ht⟩ <;> rw [ht] <;> decide
  | visitSuppliers fuel oob =>
    show (visitSuppliers fuel oob sh).tr.head? = _ ∧
      ups .access (visitSuppliers fuel oob sh).tr ≤ downs .access (visitSuppliers fuel oob sh).tr
    by_cases hb : 0 < sh.nCraftsmenBlk
    · rw [(visitSuppliers_blocked fuel oob sh hb).2, (ups_access_replicate fuel).1,
        (ups_access_replicate fuel).2]
      exact ⟨rfl, by omega⟩
    · rw [(visitSuppliers_free fuel oob sh (by omega)).2]
      decide
  | _ => exact ⟨rfl, Nat.le_refl _⟩

/-- Every operation of a craftsman starts with a `down` on `access` and performs as many `up`
as `down` on it. -/
theorem trCraft_access (m : Nat) (op : CraftOp) (sh : SHARED_DATA) :
    (trCraft m op sh).head? = some (.down .access) ∧
    ups .access (trCraft m op sh) ≤ downs .access (trCraft m op sh) := by
  cases op with
  | collectMaterials =>
    show (collectMaterials m sh).tr.head? = _ ∧
      ups .access (collectMaterials m sh).tr ≤ downs .access (collectMaterials m sh).tr
    rcases collectMaterials_tr m sh with ⟨_, _, ht⟩ | ⟨_, _, ht⟩ <;> rw [ht] <;> decide
  | endOperCraftsman =>
    show (endOperCraftsman m sh).tr.head? = _ ∧
      ups .access (endOperCraftsman m sh).tr ≤ downs .access (endOperCraftsman m sh).tr
    unfold endOperCraftsman
    simp only
    split
    · split <;> exact ⟨rfl, Nat.le_refl _⟩
    · exact ⟨rfl, Nat.le_refl _⟩
  | _ => exact ⟨rfl, Nat.le_refl _⟩

/-- The state of the shop door after an operation of the entrepreneur, and the number of
customers inside, which she does not change. -/
theorem execEntrep_shop (op : EntrepOp) (sh : SHARED_DATA) :
    (execEntrep op sh).fSt.shop.stat =
      (match op with
       | .prepareToWork => SOPEN
       | .closeTheDoor => SDCLOSED
       | .prepareToLeave => SCLOSED
       | _ => sh.fSt.shop.stat) ∧
    (execEntrep op sh).fSt.shop.nCustIn = sh.fSt.shop.nCustIn := by
  cases op with
  | addressACustomer =>
    show (addressACustomer sh).sh.fSt.shop.stat = _ ∧ (addressACustomer sh).sh.fSt.shop.nCustIn = _
    unfold addressACustomer
    simp only
    split
    · exact ⟨rfl, rfl⟩
    · split <;> exact ⟨rfl, rfl⟩
  | visitSuppliers fuel oob =>
    have hl := visitSuppliersLoop_fSt fuel (visitSuppliersDeliver oob sh) [.down .access]
    have hfst : (execEntrep (.visitSuppliers fuel oob) sh).fSt =
        (visitSuppliersDeliver oob sh).fSt := hl
    rw [hfst]
    unfold visitSuppliersDeliver
    simp only
    split_ifs <;> exact ⟨rfl, rfl⟩
  | _ => exact ⟨rfl, rfl⟩

/-- The craftsmen change neither the state of the shop door nor the number of customers
inside. -/
theorem execCraft_shop (m : Nat) (op : CraftOp) (sh : SHARED_DATA) :
    (execCraft m op sh).fSt.shop.stat = sh.fSt.shop.stat ∧
    (execCraft m op sh).fSt.shop.nCustIn = sh.fSt.shop.nCustIn := by
  cases op with
  | collectMaterials =>
    show (collectMaterials m sh).sh.fSt.shop.stat = _ ∧ (collectMaterials m sh).sh.fSt.shop.nCustIn = _
    unfold collectMaterials
    split_ifs <;> exact ⟨rfl, rfl⟩
  | endOperCraftsman =>
    show (endOperCraftsman m sh).sh.fSt.shop.stat = _ ∧
      (endOperCraftsman m sh).sh.fSt.shop.nCustIn = _
    simp only [endOperCraftsman]
    split_ifs <;> exact ⟨rfl, rfl⟩
  | _ => exact ⟨rfl, rfl⟩

/-- One operation of the life cycle of a customer, as seen at the door: the state of the door is
not changed; the position reached, the number of customers inside and the semaphore operations
are given for each position. -/
theorem custStep_door (n val : Nat) (l : CustLocal) (sh : SHARED_DATA) :
    (custStep n val l sh).2.fSt.shop.stat = sh.fSt.shop.stat ∧
    (match l.pc with
     | .endOperCustomer =>
       ((custStep n val l sh).1.pc = .finished ∨ (custStep n val l sh).1.pc = .goShopping) ∧
       (custStep n val l sh).2.fSt.shop.nCustIn = sh.fSt.shop.nCustIn ∧
       custTrace n val l sh = [.down .access, .up .access]
     | .goShopping =>
       (custStep n val l sh).1.pc = .isDoorOpen ∧
       (custStep n val l sh).2.fSt.shop.nCustIn = sh.fSt.shop.nCustIn ∧
       custTrace n val l sh = [.down .access, .up .access]
     | .isDoorOpen =>
       (custStep n val l sh).1.pc =
         (if sh.fSt.shop.stat = SOPEN then .enterShop else .tryAgainLater) ∧
       (custStep n val l sh).2 = sh ∧
       custTrace n val l sh = [.down .access]
     | .tryAgainLater =>
       (custStep n val l sh).1.pc = .goShopping ∧
       (custStep n val l sh).2.fSt.shop.nCustIn = sh.fSt.shop.nCustIn ∧
       custTrace n val l sh = [.up .access]
     | .enterShop =>
       (custStep n val l sh).1.pc = .perusingAround ∧
       (custStep n val l sh).2.fSt.shop.nCustIn = uadd sh.fSt.shop.nCustIn 1 ∧
       custTrace n val l sh = [.up .access]
     | .perusingAround =>
       ((custStep n val l sh).1.pc = .iWantThis ∨ (custStep n val l sh).1.pc = .exitShop) ∧
       (custStep n val l sh).2.fSt.shop.nCustIn = sh.fSt.shop.nCustIn ∧
       custTrace n val l sh = [.down .access, .up .access]
     | .iWantThis =>
       (custStep n val l sh).1.pc = .exitShop ∧
       (custStep n val l sh).2.fSt.shop.nCustIn = sh.fSt.shop.nCustIn ∧
       custTrace n val l sh =
         [.down .access, .up .proceed, .up .access, .down (.waitForService n)]
     | .exitShop =>
       (custStep n val l sh).1.pc = .endOperCustomer ∧
       (custStep n val l sh).2.fSt.shop.nCustIn = usub sh.fSt.shop.nCustIn 1 ∧
       custTrace n val l sh = [.down .access, .up .proceed, .up .access]
     | .finished =>
       custStep n val l sh = (l, sh) ∧ custTrace n val l sh = []) := by
  unfold custStep custTrace
  cases hpc : l.pc with
  | endOperCustomer =>
    simp only
    have htr := (endOperCustomer_tr n sh).2
    rcases endOperCustomer_sh n sh with he | he
    · rw [he]
      refine ⟨rfl, ?_, rfl, htr⟩
      cases (endOperCustomer n sh).valD false
      · right; rfl
      · left; rfl
    · rw [he]
      refine ⟨rfl, ?_, rfl, htr⟩
      cases (endOperCustomer n sh).valD false
      · right; rfl
      · left; rfl
  | goShopping => exact ⟨rfl, rfl, rfl, rfl⟩
  | isDoorOpen =>
    refine ⟨rfl, ?_, rfl, rfl⟩
    simp only [isDoorOpen, Run.valD]
    by_cases h : sh.fSt.shop.stat = SOPEN <;> simp [h]
  | tryAgainLater => exact ⟨rfl, rfl, rfl, rfl⟩
  | enterShop => exact ⟨rfl, rfl, rfl, rfl⟩
  | perusingAround =>
    simp only
    have hsh : (perusingAround n val sh).sh.fSt.shop.stat = sh.fSt.shop.stat ∧
        (perusingAround n val sh).sh.fSt.shop.nCustIn = sh.fSt.shop.nCustIn ∧
        (perusingAround n val sh).tr = [.down .access, .up .access] := by
      unfold perusingAround
      refine ⟨?_, ?_, ?_⟩
      · show (if _ then _ else sh).fSt.shop.stat = _
        split_ifs <;> rfl
      · show (if _ then _ else sh).fSt.shop.nCustIn = _
        split_ifs <;> rfl
      · rfl
    refine ⟨hsh.1, ?_, hsh.2.1, hsh.2.2⟩
    by_cases h : (perusingAround n val sh).valD 0 = 0
    · right; simp [h]
    · left; simp [h]
  | iWantThis => exact ⟨rfl, rfl, rfl, rfl⟩
  | exitShop => exact ⟨rfl, rfl, rfl, rfl⟩
  | finished => exact ⟨rfl, rfl, rfl⟩

/-- An entry of a list is a member of it. -/
theorem mem_of_getElem?_some {α : Type} (l : List α) (i : Nat) (x : α) (h : l[i]? = some x) :
    x ∈ l := List.mem_iff_getElem?.mpr ⟨i, h⟩

/-- Writing back the entry read leaves the list as it is. -/
theorem set_self_of_getElem? {α : Type} (l : List α) (i : Nat) (x : α) (h : l[i]? = some x) :
    l.set i x = l := by
  induction l generalizing i with
  | nil => rfl
  | cons y ys ih =>
    cases i with
    | zero =>
      simp only [List.getElem?_cons_zero, Option.some.injEq] at h
      subst h
      rfl
    | succ i =>
      simp only [List.getElem?_cons_succ] at h
      simp only [List.set_cons_succ, ih i h]

/-- A sum of values that are at most one is at most the number of values. -/
theorem sum_map_le_length {α : Type} (g : α → Nat) (hg : ∀ x, g x ≤ 1) (l : List α) :
    (l.map g).sum ≤ l.length := by
  induction l with
  | nil => simp
  | cons y ys ih =>
    have := hg y
    simp only [List.map_cons, List.sum_cons, List.length_cons]
    omega

/-- The customers inside the shop are at most as many as the customers. -/
theorem insideCount_le_length (cust : List CustLocal) : insideCount cust ≤ cust.length := by
  apply sum_map_le_length
  intro x
  unfold CustLocal.inside
  split_ifs <;> omega

/-- Presence at the door, by position. -/
theorem CustLocal.atDoor_eq (l : CustLocal) :
    l.atDoor = (match l.pc with
      | .tryAgainLater => 1
      | .enterShop => 1
      | _ => 0) := by
  unfold CustLocal.atDoor
  cases l.pc <;> simp

/-- Presence inside the shop, by position. -/
theorem CustLocal.inside_eq (l : CustLocal) :
    l.inside = (match l.pc with
      | .perusingAround => 1
      | .iWantThis => 1
      | .exitShop => 1
      | _ => 0) := by
  unfold CustLocal.inside
  cases l.pc <;> simp

/-- The effect on the invariant of one operation of customer `n` that leaves the door as it is:
it is kept when `access` plus the presence of the customer at the door does not grow, the
customer is about to enter only with the door open, and `nCustIn` follows the customer in and
out. -/
theorem Gated.cust_inv (g : Gated) (n : Nat) (l x : CustLocal) (sh1 : SHARED_DATA) (a1 : Nat)
    (h : g.Inv) (hl : g.sys.cust[n]? = some l)
    (hstat : sh1.fSt.shop.stat = g.sys.sh.fSt.shop.stat)
    (hdoor : a1 + x.atDoor ≤ g.access + l.atDoor)
    (hnew : x.pc = .enterShop → g.sys.sh.fSt.shop.stat = SOPEN)
    (hins : sh1.fSt.shop.nCustIn + l.inside = g.sys.sh.fSt.shop.nCustIn + x.inside) :
    Gated.Inv { sys := { sh := sh1, cust := g.sys.cust.set n x }, access := a1 } := by
  obtain ⟨hlen, hacc, hent, hin⟩ := h
  have hd := sum_map_set CustLocal.atDoor g.sys.cust n l x hl
  have hi := sum_map_set CustLocal.inside g.sys.cust n l x hl
  have hdl := le_sum_map_of_getElem? CustLocal.atDoor g.sys.cust n l hl
  have hil := le_sum_map_of_getElem? CustLocal.inside g.sys.cust n l hl
  unfold Gated.Inv doorCount insideCount at *
  simp only at *
  refine ⟨by rw [List.length_set]; exact hlen, by omega, ?_, by omega⟩
  rw [hstat]
  exact forall_mem_set (fun a => a.pc = .enterShop → g.sys.sh.fSt.shop.stat = SOPEN) _ n x
    hent hnew

/-- A blocked event changes nothing. -/
theorem Gated.step_blocked (g : Gated) (e : Event) (h : g.blocked e = true) : g.step e = g := by
  unfold Gated.step
  rw [if_pos h]

/-- Effect of an event that is not blocked. -/
theorem Gated.step_free (g : Gated) (e : Event) (h : ¬ g.blocked e = true) :
    g.step e = { sys := g.sys.step e,
                 access := g.access + ups .access (g.sys.eventTrace e) -
                   downs .access (g.sys.eventTrace e) } := by
  unfold Gated.step
  rw [if_neg h]

/-- An event whose operation starts with a `down` on `access` takes place only with `access`
above zero. -/
theorem Gated.access_pos (g : Gated) (e : Event) (h : ¬ g.blocked e = true)
    (hh : (g.sys.eventTrace e).head? = some (.down .access)) : 0 < g.access := by
  by_contra h0
  apply h
  unfold Gated.blocked
  simp [hh]
  omega

/-- One event: the invariant is kept; the number of customers inside grows (by one) only by
the `enterShop` of a customer, with the door open; the state of the door is changed only by the
entrepreneur, in `prepareToWork`, `closeTheDoor` and `prepareToLeave`. -/
theorem Gated.step_facts (g : Gated) (e : Event) (h : g.Inv) :
    (g.step e).Inv ∧
    ((g.step e).sys.sh.fSt.shop.nCustIn ≤ g.sys.sh.fSt.shop.nCustIn ∨
      (g.sys.sh.fSt.shop.stat = SOPEN ∧
       (g.step e).sys.sh.fSt.shop.nCustIn = g.sys.sh.fSt.shop.nCustIn + 1 ∧
       ∃ n val l, e = .cust n val ∧ g.sys.cust[n]? = some l ∧ l.pc = .enterShop)) ∧
    ((g.step e).sys.sh.fSt.shop.stat = g.sys.sh.fSt.shop.stat ∨
      (e = .entrep .prepareToWork ∧ (g.step e).sys.sh.fSt.shop.stat = SOPEN) ∨
      (e = .entrep .closeTheDoor ∧ (g.step e).sys.sh.fSt.shop.stat = SDCLOSED) ∨
      (e = .entrep .prepareToLeave ∧ (g.step e).sys.sh.fSt.shop.stat = SCLOSED)) := by
  by_cases hb : g.blocked e = true
  · rw [Gated.step_blocked g e hb]
    exact ⟨h, Or.inl (Nat.le_refl _), Or.inl rfl⟩
  rw [Gated.step_free g e hb]
  have hInv := h
  obtain ⟨hlen, hacc, hent, hin⟩ := h
  cases e with
  | entrep op =>
    obtain ⟨hhead, hle⟩ := trEntrep_access op g.sys.sh
    have hpos := Gated.access_pos g _ hb hhead
    have hd0 : doorCount g.sys.cust = 0 := by omega
    obtain ⟨hst, hn⟩ := execEntrep_shop op g.sys.sh
    have hnone : ∀ l ∈ g.sys.cust, l.pc ≠ .enterShop := by
      intro l hl hp
      obtain ⟨i, hi⟩ := List.mem_iff_getElem?.mp hl
      have := le_sum_map_of_getElem? CustLocal.atDoor g.sys.cust i l hi
      have h1 : l.atDoor = 1 := by unfold CustLocal.atDoor; simp [hp]
      unfold doorCount at hd0
      omega
    refine ⟨⟨hlen, ?_, fun l hl hp => absurd hp (hnone l hl), hn.trans hin⟩,
      Or.inl (Nat.le_of_eq hn), ?_⟩
    · show g.access + ups .access (trEntrep op g.sys.sh) - downs .access (trEntrep op g.sys.sh) +
        doorCount g.sys.cust ≤ 1
      omega
    · cases op with
      | prepareToWork => exact Or.inr (Or.inl ⟨rfl, rfl⟩)
      | closeTheDoor => exact Or.inr (Or.inr (Or.inl ⟨rfl, rfl⟩))
      | prepareToLeave => exact Or.inr (Or.inr (Or.inr ⟨rfl, rfl⟩))
      | _ => exact Or.inl hst
  | craft m op =>
    obtain ⟨hhead, hle⟩ := trCraft_access m op g.sys.sh
    have hpos := Gated.access_pos g _ hb hhead
    obtain ⟨hst, hn⟩ := execCraft_shop m op g.sys.sh
    refine ⟨⟨hlen, ?_, fun l hl hp => hst.trans (hent l hl hp), hn.trans hin⟩,
      Or.inl (Nat.le_of_eq hn), Or.inl hst⟩
    show g.access + ups .access (trCraft m op g.sys.sh) - downs .access (trCraft m op g.sys.sh) +
      doorCount g.sys.cust ≤ 1
    omega
  | cust n val =>
    cases hl : g.sys.cust[n]? with
    | none =>
      have h1 : g.sys.step (.cust n val) = g.sys := step_cust_none g.sys n val hl
      have h2 : g.sys.eventTrace (.cust n val) = [] := by simp only [System.eventTrace, hl]
      rw [h1, h2]
      exact ⟨hInv, Or.inl (Nat.le_refl _), Or.inl rfl⟩
    | some l =>
      have h1 := step_cust_some g.sys n val l hl
      have h2 : g.sys.eventTrace (.cust n val) = custTrace n val l g.sys.sh := by
        simp only [System.eventTrace, hl]
      have hpos : (custTrace n val l g.sys.sh).head? = some (.down .access) → 0 < g.access :=
        fun hh => Gated.access_pos g _ hb (h2 ▸ hh)
      rw [h1, h2]
      obtain ⟨hst, hcase⟩ := custStep_door n val l g.sys.sh
      have hmem := mem_of_getElem?_some _ _ _ hl
      have hil := le_sum_map_of_getElem? CustLocal.inside g.sys.cust n l hl
      have hbound := insideCount_le_length g.sys.cust
      have hN : N = 3 := rfl
      generalize custStep n val l g.sys.sh = r at hst hcase ⊢
      have hdl := le_sum_map_of_getElem? CustLocal.atDoor g.sys.cust n l hl
      unfold doorCount at hacc
      unfold insideCount at hin hbound
      cases hpc : l.pc with
      | endOperCustomer =>
        rw [hpc] at hcase
        obtain ⟨hx, hnc, htr⟩ := hcase
        have ha := hpos (by rw [htr]; rfl)
        have hla : l.atDoor = 0 := by rw [CustLocal.atDoor_eq, hpc]
        have hli : l.inside = 0 := by rw [CustLocal.inside_eq, hpc]
        have hxa : r.1.atDoor = 0 := by
          rcases hx with hx | hx <;> rw [CustLocal.atDoor_eq, hx]
        have hxi : r.1.inside = 0 := by
          rcases hx with hx | hx <;> rw [CustLocal.inside_eq, hx]
        have hxe : r.1.pc ≠ .enterShop := by
          rcases hx with hx | hx <;> rw [hx] <;> intro hc <;> cases hc
        have hu : ups .access (custTrace n val l g.sys.sh) = 1 := by
          rw [htr]; rfl
        have hd : downs .access (custTrace n val l g.sys.sh) = 1 := by
          rw [htr]; rfl
        rw [hu, hd]
        refine ⟨Gated.cust_inv g n l _ _ _ hInv hl hst (by omega) (fun hp => absurd hp hxe)
          (by omega), Or.inl (Nat.le_of_eq hnc), Or.inl hst⟩
      | goShopping =>
        rw [hpc] at hcase
        obtain ⟨hx, hnc, htr⟩ := hcase
        have ha := hpos (by rw [htr]; rfl)
        have hla : l.atDoor = 0 := by rw [CustLocal.atDoor_eq, hpc]
        have hli : l.inside = 0 := by rw [CustLocal.inside_eq, hpc]
        have hxa : r.1.atDoor = 0 := by rw [CustLocal.atDoor_eq, hx]
        have hxi : r.1.inside = 0 := by rw [CustLocal.inside_eq, hx]
        have hxe : r.1.pc ≠ .enterShop := by rw [hx]; intro hc; cases hc
        have hu : ups .access (custTrace n val l g.sys.sh) = 1 := by
          rw [htr]; rfl
        have hd : downs .access (custTrace n val l g.sys.sh) = 1 := by
          rw [htr]; rfl
        rw [hu, hd]
        refine ⟨Gated.cust_inv g n l _ _ _ hInv hl hst (by omega) (fun hp => absurd hp hxe)
          (by omega), Or.inl (Nat.le_of_eq hnc), Or.inl hst⟩
      | isDoorOpen =>
        rw [hpc] at hcase
        obtain ⟨hx, hsh, htr⟩ := hcase
        have ha := hpos (by rw [htr]; rfl)
        have hla : l.atDoor = 0 := by rw [CustLocal.atDoor_eq, hpc]
        have hli : l.inside = 0 := by rw [CustLocal.inside_eq, hpc]
        have hxa : r.1.atDoor = 1 := by
          rw [CustLocal.atDoor_eq, hx]; split_ifs <;> rfl
        have hxi : r.1.inside = 0 := by
          rw [CustLocal.inside_eq, hx]; split_ifs <;> rfl
        have hxe : r.1.pc = .enterShop → g.sys.sh.fSt.shop.stat = SOPEN := by
          rw [hx]
          intro hp
          by_contra hc
          rw [if_neg hc] at hp
          cases hp
        have hu : ups .access (custTrace n val l g.sys.sh) = 0 := by
          rw [htr]; rfl
        have hd : downs .access (custTrace n val l g.sys.sh) = 1 := by
          rw [htr]; rfl
        have hnc : r.2.fSt.shop.nCustIn = g.sys.sh.fSt.shop.nCustIn := by rw [hsh]
        rw [hu, hd]
        refine ⟨Gated.cust_inv g n l _ _ _ hInv hl hst (by omega) hxe
          (by omega), Or.inl (Nat.le_of_eq hnc), Or.inl hst⟩
      | tryAgainLater =>
        rw [hpc] at hcase
        obtain ⟨hx, hnc, htr⟩ := hcase
        have hla : l.atDoor = 1 := by rw [CustLocal.atDoor_eq, hpc]
        have hli : l.inside = 0 := by rw [CustLocal.inside_eq, hpc]
        have hxa : r.1.atDoor = 0 := by rw [CustLocal.atDoor_eq, hx]
        have hxi : r.1.inside = 0 := by rw [CustLocal.inside_eq, hx]
        have hxe : r.1.pc ≠ .enterShop := by rw [hx]; intro hc; cases hc
        have hu : ups .access (custTrace n val l g.sys.sh) = 1 := by
          rw [htr]; rfl
        have hd : downs .access (custTrace n val l g.sys.sh) = 0 := by
          rw [htr]; rfl
        rw [hu, hd]
        refine ⟨Gated.cust_inv g n l _ _ _ hInv hl hst (by omega) (fun hp => absurd hp hxe)
          (by omega), Or.inl (Nat.le_of_eq hnc), Or.inl hst⟩
      | enterShop =>
        rw [hpc] at hcase
        obtain ⟨hx, hnc, htr⟩ := hcase
        have hla : l.atDoor = 1 := by rw [CustLocal.atDoor_eq, hpc]
        have hli : l.inside = 0 := by rw [CustLocal.inside_eq, hpc]
        have hxa : r.1.atDoor = 0 := by rw [CustLocal.atDoor_eq, hx]
        have hxi : r.1.inside = 1 := by rw [CustLocal.inside_eq, hx]
        have hxe : r.1.pc ≠ .enterShop := by rw [hx]; intro hc; cases hc
        have hu : ups .access (custTrace n val l g.sys.sh) = 1 := by
          rw [htr]; rfl
        have hd : downs .access (custTrace n val l g.sys.sh) = 0 := by
          rw [htr]; rfl
        rw [hu, hd]
        have hopen := hent l hmem hpc
        have hnc2 : r.2.fSt.shop.nCustIn = g.sys.sh.fSt.shop.nCustIn + 1 := by
          rw [hnc]
          apply uadd_eq
          unfold UINT_MOD
          omega
        refine ⟨Gated.cust_inv g n l _ _ _ hInv hl hst (by omega) (fun hp => absurd hp hxe)
          (by omega), Or.inr ⟨hopen, hnc2, n, val, l, rfl, hl, hpc⟩, Or.inl hst⟩
      | perusingAround =>
        rw [hpc] at hcase
        obtain ⟨hx, hnc, htr⟩ := hcase
        have ha := hpos (by rw [htr]; rfl)
        have hla : l.atDoor = 0 := by rw [CustLocal.atDoor_eq, hpc]
        have hli : l.inside = 1 := by rw [CustLocal.inside_eq, hpc]
        have hxa : r.1.atDoor = 0 := by
          rcases hx with hx | hx <;> rw [CustLocal.atDoor_eq, hx]
        have hxi : r.1.inside = 1 := by
          rcases hx with hx | hx <;> rw [CustLocal.inside_eq, hx]
        have hxe : r.1.pc ≠ .enterShop := by
          rcases hx with hx | hx <;> rw [hx] <;> intro hc <;> cases hc
        have hu : ups .access (custTrace n val l g.sys.sh) = 1 := by
          rw [htr]; rfl
        have hd : downs .access (custTrace n val l g.sys.sh) = 1 := by
          rw [htr]; rfl
        rw [hu, hd]
        refine ⟨Gated.cust_inv g n l _ _ _ hInv hl hst (by omega) (fun hp => absurd hp hxe)
          (by omega), Or.inl (Nat.le_of_eq hnc), Or.inl hst⟩
      | iWantThis =>
        rw [hpc] at hcase
        obtain ⟨hx, hnc, htr⟩ := hcase
        have ha := hpos (by rw [htr]; rfl)
        have hla : l.atDoor = 0 := by rw [CustLocal.atDoor_eq, hpc]
        have hli : l.inside = 1 := by rw [CustLocal.inside_eq, hpc]
        have hxa : r.1.atDoor = 0 := by rw [CustLocal.atDoor_eq, hx]
        have hxi : r.1.inside = 1 := by rw [CustLocal.inside_eq, hx]
        have hxe : r.1.pc ≠ .enterShop := by rw [hx]; intro hc; cases hc
        have hu : ups .access (custTrace n val l g.sys.sh) = 1 := by
          rw [htr]; rfl
        have hd : downs .access (custTrace n val l g.sys.sh) = 1 := by
          rw [htr]; rfl
        rw [hu, hd]
        refine ⟨Gated.cust_inv g n l _ _ _ hInv hl hst (by omega) (fun hp => absurd hp hxe)
          (by omega), Or.inl (Nat.le_of_eq hnc), Or.inl hst⟩
      | exitShop =>
        rw [hpc] at hcase
        obtain ⟨hx, hnc, htr⟩ := hcase
        have ha := hpos (by rw [htr]; rfl)
        have hla : l.atDoor = 0 := by rw [CustLocal.atDoor_eq, hpc]
        have hli : l.inside = 1 := by rw [CustLocal.inside_eq, hpc]
        have hxa : r.1.atDoor = 0 := by rw [CustLocal.atDoor_eq, hx]
        have hxi : r.1.inside = 0 := by rw [CustLocal.inside_eq, hx]
        have hxe : r.1.pc ≠ .enterShop := by rw [hx]; intro hc; cases hc
        have hu : ups .access (custTrace n val l g.sys.sh) = 1 := by
          rw [htr]; rfl
        have hd : downs .access (custTrace n val l g.sys.sh) = 1 := by
          rw [htr]; rfl
        rw [hu, hd]
        have hnc2 : r.2.fSt.shop.nCustIn = g.sys.sh.fSt.shop.nCustIn - 1 := by
          rw [hnc]
          apply usub_eq
          · omega
          · unfold UINT_MOD
            omega
        refine ⟨Gated.cust_inv g n l _ _ _ hInv hl hst (by omega) (fun hp => absurd hp hxe)
          (by omega), Or.inl (by show r.2.fSt.shop.nCustIn ≤ _; omega), Or.inl hst⟩
      | finished =>
        rw [hpc] at hcase
        obtain ⟨hr, htr⟩ := hcase
        rw [hr, htr]
        have hset : g.sys.cust.set n l = g.sys.cust := set_self_of_getElem? _ _ _ hl
        show Gated.Inv ⟨⟨g.sys.sh, g.sys.cust.set n l⟩, g.access + 0 - 0⟩ ∧ _
        rw [hset]
        exact ⟨hInv, Or.inl (Nat.le_refl _), Or.inl rfl⟩

/-- The invariant holds when the processes start. -/
theorem initialGated_inv (pm : List Nat) : (initialGated pm).Inv := by
  refine ⟨rfl, ?_, ?_, rfl⟩
  · show 1 + doorCount (List.replicate N { pc := .endOperCustomer, ng := 0 }) ≤ 1
    decide
  · intro l hl hp
    have hl1 : l ∈ List.replicate N ({ pc := .endOperCustomer, ng := 0 } : CustLocal) := hl
    rw [List.eq_of_mem_replicate hl1] at hp
    cases hp

/-- The invariant holds in every state reached. -/
theorem Gated.run_door_inv (g : Gated) (es : List Event) (h : g.Inv) : (g.run es).Inv := by
  induction es generalizing g with
  | nil => exact h
  | cons e es ih => exact ih (g.step e) (Gated.step_facts g e h).1

/-- While a customer is between its door check and `enterShop`, the door is open, `access` is at
zero, and the event of any other process changes nothing. -/
theorem Gated.entering (g : Gated) (h : g.Inv) (n : Nat) (l : CustLocal)
    (hl : g.sys.cust[n]? = some l) (hp : l.pc = .enterShop) :
    g.sys.sh.fSt.shop.stat = SOPEN ∧ g.access = 0 ∧
    ∀ e : Event, (∀ v, e ≠ .cust n v) → g.step e = g := by
  obtain ⟨hlen, hacc, hent, hin⟩ := h
  have hla : l.atDoor = 1 := by rw [CustLocal.atDoor_eq, hp]
  have hdl := le_sum_map_of_getElem? CustLocal.atDoor g.sys.cust n l hl
  have ha0 : g.access = 0 := by unfold doorCount at hacc; omega
  refine ⟨hent l (mem_of_getElem?_some _ _ _ hl) hp, ha0, ?_⟩
  intro e hne
  have hblk : (g.sys.eventTrace e).head? = some (.down .access) → g.step e = g := by
    intro hh
    apply Gated.step_blocked
    unfold Gated.blocked
    simp [hh, ha0]
  cases e with
  | entrep op => exact hblk (trEntrep_access op g.sys.sh).1
  | craft m op => exact hblk (trCraft_access m op g.sys.sh).1
  | cust k val =>
    have hkn : k ≠ n := fun hk => hne val (by rw [hk])
    cases hk : g.sys.cust[k]? with
    | none =>
      have h2 : g.sys.eventTrace (.cust k val) = [] := by simp only [System.eventTrace, hk]
      have hb : ¬ g.blocked (.cust k val) = true := by
        unfold Gated.blocked
        simp [h2]
      rw [Gated.step_free g _ hb, step_cust_none g.sys k val hk, h2]
      rfl
    | some x =>
      have h2 : g.sys.eventTrace (.cust k val) = custTrace k val x g.sys.sh := by
        simp only [System.eventTrace, hk]
      have hxa : x.atDoor = 0 := by
        have hs := sum_map_set CustLocal.atDoor g.sys.cust n l { pc := .finished, ng := 0 } hl
        have hk2 : (g.sys.cust.set n { pc := .finished, ng := 0 })[k]? = some x := by
          rw [List.getElem?_set_ne (Ne.symm hkn)]
          exact hk
        have hx := le_sum_map_of_getElem? CustLocal.atDoor _ k x hk2
        have h0 : CustLocal.atDoor { pc := .finished, ng := 0 } = 0 := rfl
        unfold doorCount at hacc
        omega
      obtain ⟨_, hcase⟩ := custStep_door k val x g.sys.sh
      rw [CustLocal.atDoor_eq] at hxa
      cases hpc : x.pc with
      | endOperCustomer =>
        rw [hpc] at hcase
        exact hblk (by rw [h2, hcase.2.2]; rfl)
      | goShopping =>
        rw [hpc] at hcase
        exact hblk (by rw [h2, hcase.2.2]; rfl)
      | isDoorOpen =>
        rw [hpc] at hcase
        exact hblk (by rw [h2, hcase.2.2]; rfl)
      | tryAgainLater => rw [hpc] at hxa; cases hxa
      | enterShop => rw [hpc] at hxa; cases hxa
      | perusingAround =>
        rw [hpc] at hcase
        exact hblk (by rw [h2, hcase.2.2]; rfl)
      | iWantThis =>
        rw [hpc] at hcase
        exact hblk (by rw [h2, hcase.2.2]; rfl)
      | exitShop =>
        rw [hpc] at hcase
        exact hblk (by rw [h2, hcase.2.2]; rfl)
      | finished =>
        rw [hpc] at hcase
        have hb : ¬ g.blocked (.cust k val) = true := by
          unfold Gated.blocked
          simp [h2, hcase.2]
        rw [Gated.step_free g _ hb, step_cust_some g.sys k val x hk, h2, hcase.1, hcase.2]
        show (⟨⟨g.sys.sh, g.sys.cust.set k x⟩, g.access + 0 - 0⟩ : Gated) = g
        rw [set_self_of_getElem? _ _ _ hk]
        rfl

/-- While the door is not open and the entrepreneur does not run `prepareToWork`, the door
stays not open and the number of customers inside does not grow. -/
theorem Gated.closed_run (g : Gated) (es : List Event) (h : g.Inv)
    (hc : g.sys.sh.fSt.shop.stat ≠ SOPEN) (hes : Event.entrep .prepareToWork ∉ es) :
    (g.run es).sys.sh.fSt.shop.stat ≠ SOPEN ∧
    (g.run es).sys.sh.fSt.shop.nCustIn ≤ g.sys.sh.fSt.shop.nCustIn := by
  induction es generalizing g with
  | nil => exact ⟨hc, Nat.le_refl _⟩
  | cons e es ih =>
    obtain ⟨hi, hn, hs⟩ := Gated.step_facts g e h
    have he : e ≠ .entrep .prepareToWork := fun he => hes (by rw [he]; exact List.mem_cons_self _ _)
    have hes2 : Event.entrep .prepareToWork ∉ es := fun hm => hes (List.mem_cons_of_mem _ hm)
    have hc2 : (g.step e).sys.sh.fSt.shop.stat ≠ SOPEN := by
      rcases hs with hs | ⟨h1, _⟩ | ⟨_, h1⟩ | ⟨_, h1⟩
      · rw [hs]; exact hc
      · exact absurd h1 he
      · rw [h1]; decide
      · rw [h1]; decide
    have hn2 : (g.step e).sys.sh.fSt.shop.nCustIn ≤ g.sys.sh.fSt.shop.nCustIn := by
      rcases hn with hn | ⟨h1, _⟩
      · exact hn
      · exact absurd h1 hc
    obtain ⟨r1, r2⟩ := ih (g.step e) hi hc2 hes2
    exact ⟨r1, Nat.le_trans r2 hn2⟩

/-- C29: a customer enters only through an open door, atomically. In every state: `isDoorOpen`
performs one `down` on `access` and no `up`, changes nothing, and leads to `enterShop` when the
door is open and to `tryAgainLater` otherwise; each of these two performs one `up` on `access`
and no `down`, and only `enterShop` increments `nCustIn`. In every state `g` reached from the
initial one (customers following their life cycle, the entrepreneur and the craftsmen running
any operation, each process held at its `down` while `access` is at zero): while a customer is
about to run `enterShop` the door is open, `access` is at zero and the event of any other
process changes nothing; an event makes `nCustIn` grow only if it is the `enterShop` of such a
customer, with the door open, and then by one; and from a state with the door not open, as long
as `prepareToWork` is not run, the door stays not open and `nCustIn` does not grow, the door
being opened by `prepareToWork` only. -/
theorem door_entry_atomic (pm : List Nat) (es : List Event) :
    (∀ (n val : Nat) (l : CustLocal) (sh : SHARED_DATA), l.pc = .isDoorOpen →
      custTrace n val l sh = [.down .access] ∧ (custStep n val l sh).2 = sh ∧
      (custStep n val l sh).1.pc =
        (if sh.fSt.shop.stat = SOPEN then CustPc.enterShop else CustPc.tryAgainLater)) ∧
    (∀ (n val : Nat) (l : CustLocal) (sh : SHARED_DATA), l.pc = .tryAgainLater →
      custTrace n val l sh = [.up .access] ∧ (custStep n val l sh).1.pc = .goShopping ∧
      (custStep n val l sh).2.fSt.shop.nCustIn = sh.fSt.shop.nCustIn) ∧
    (∀ (n val : Nat) (l : CustLocal) (sh : SHARED_DATA), l.pc = .enterShop →
      custTrace n val l sh = [.up .access] ∧ (custStep n val l sh).1.pc = .perusingAround ∧
      (custStep n val l sh).2.fSt.shop.nCustIn = uadd sh.fSt.shop.nCustIn 1) ∧
    (∀ (n : Nat) (l : CustLocal), ((initialGated pm).run es).sys.cust[n]? = some l →
      l.pc = .enterShop →
      ((initialGated pm).run es).sys.sh.fSt.shop.stat = SOPEN ∧
      ((initialGated pm).run es).access = 0 ∧
      ∀ e : Event, (∀ v, e ≠ .cust n v) →
        ((initialGated pm).run es).step e = (initialGated pm).run es) ∧
    (∀ e : Event,
      (((initialGated pm).run es).step e).sys.sh.fSt.shop.nCustIn ≤
        ((initialGated pm).run es).sys.sh.fSt.shop.nCustIn ∨
      (((initialGated pm).run es).sys.sh.fSt.shop.stat = SOPEN ∧
       (((initialGated pm).run es).step e).sys.sh.fSt.shop.nCustIn =
         ((initialGated pm).run es).sys.sh.fSt.shop.nCustIn + 1 ∧
       ∃ n val l, e = .cust n val ∧ ((initialGated pm).run es).sys.cust[n]? = some l ∧
         l.pc = .enterShop)) ∧
    (∀ e : Event, ((initialGated pm).run es).sys.sh.fSt.shop.stat ≠ SOPEN →
      (((initialGated pm).run es).step e).sys.sh.fSt.shop.stat = SOPEN →
      e = .entrep .prepareToWork) ∧
    (∀ es2 : List Event, ((initialGated pm).run es).sys.sh.fSt.shop.stat ≠ SOPEN →
      Event.entrep .prepareToWork ∉ es2 →
      (((initialGated pm).run es).run es2).sys.sh.fSt.shop.stat ≠ SOPEN ∧
      (((initialGated pm).run es).run es2).sys.sh.fSt.shop.nCustIn ≤
        ((initialGated pm).run es).sys.sh.fSt.shop.nCustIn) ∧
    (∀ sh : SHARED_DATA, (closeTheDoor sh).sh.fSt.shop.stat = SDCLOSED ∧
      (prepareToLeave sh).sh.fSt.shop.stat = SCLOSED ∧
      (prepareToWork sh).sh.fSt.shop.stat = SOPEN) ∧
    SDCLOSED ≠ SOPEN ∧ SCLOSED ≠ SOPEN := by
  have hI := Gated.run_door_inv (initialGated pm) es (initialGated_inv pm)
  refine ⟨?_, ?_, ?_, ?_, ?_, ?_, ?_, fun sh => ⟨rfl, rfl, rfl⟩, by decide, by decide⟩
  · intro n val l sh hp
    have h := (custStep_door n val l sh).2
    rw [hp] at h
    exact ⟨h.2.2, h.2.1, h.1⟩
  · intro n val l sh hp
    have h := (custStep_door n val l sh).2
    rw [hp] at h
    exact ⟨h.2.2, h.1, h.2.1⟩
  · intro n val l sh hp
    have h := (custStep_door n val l sh).2
    rw [hp] at h
    exact ⟨h.2.2, h.1, h.2.1⟩
  · intro n l hl hp
    exact Gated.entering _ hI n l hl hp
  · intro e
    exact (Gated.step_facts _ e hI).2.1
  · intro e hc ho
    rcases (Gated.step_facts _ e hI).2.2 with hs | ⟨h1, _⟩ | ⟨_, h1⟩ | ⟨_, h1⟩
    · rw [hs] at ho; exact absurd ho hc
    · exact h1
    · rw [h1] at ho; exact absurd ho (by decide)
    · rw [h1] at ho; exact absurd ho (by decide)
  · intro es2 hc hes
    exact Gated.closed_run _ es2 hI hc hes

/-- C29 (example): the entrepreneur opens the shop and customer 0 goes shopping and finds the
door open: the customer is about to enter, the door is open and `access` is at zero; the
customer then enters and `nCustIn` is one. -/
theorem door_entry_atomic_witness :
    ((initialGated [5, 5, 5, 6]).run exDoorEvents).sys.cust[0]? =
      some { pc := .enterShop, ng := 0 } ∧
    ((initialGated [5, 5, 5, 6]).run exDoorEvents).sys.sh.fSt.shop.stat = SOPEN ∧
    ((initialGated [5, 5, 5, 6]).run exDoorEvents).access = 0 ∧
    (((initialGated [5, 5, 5, 6]).run exDoorEvents).step (.cust 0 0)).sys.sh.fSt.shop.nCustIn =
      1 ∧
    (((initialGated [5, 5, 5, 6]).run exDoorEvents).step (.cust 0 0)).access = 1 :=
  ⟨by decide,
    ((door_entry_atomic [5, 5, 5, 6] exDoorEvents).2.2.2.1 0 { pc := .enterShop, ng := 0 }
      (by decide) rfl).1,
    ((door_entry_atomic [5, 5, 5, 6] exDoorEvents).2.2.2.1 0 { pc := .enterShop, ng := 0 }
      (by decide) rfl).2.1,
    by decide, by decide⟩

end Handicraft
